import Mathlib

set_option autoImplicit false

/-!
# Bank (Sparhawk96/bank-ais): a shallow embedding of package `game`

The Go sources `game/dice_roll.go`, `game/results.go`, `game/prompt.go` and
`game/game.go` are rendered as executable Lean definitions, and with them
`formatColEntry` of `table/table.go` and `main` of `main.go`.

Conventions of the embedding

* Go `uint` is a 64-bit unsigned word: every `uint` operation is taken
  modulo `UINT_MOD = 2 ^ 64`.  `Die` is `uint8`, taken modulo `256`.
  `int` counters are 64-bit two's complement (`wrapInt`).
* A Go pointer `*playerNode` is the key under which the node is stored in
  `results.players`; the node is created in `addPlayer` under that key and is
  never removed, so keys and nodes correspond one to one.  `nil` is `none`.
* A run-time panic (nil dereference, index out of range) is
  `Except.error Fault.panic`; a loop that never ends is
  `Except.error Fault.diverge`; `Fault.fuel` marks an exhausted step budget
  of the model itself.
* The decision method `Bank(*Game)` of a player is a function of the game it
  is handed and of the number of calls made so far; it reads the game and does
  not write it.
* A Go `string` is a Lean `String`: `len` is the number of bytes of its
  UTF-8 form, and fmt counts a width in characters.
* `fmt.Sprintf` is the loop `doPrintf` of the Go library for the formats this
  program builds: text, the flags `-` and `0`, a width, and the verbs `%`,
  `s`, `d`, `c`.  A width is read by `parsenum`, which gives up once the
  number read exceeds `1e6` and another digit follows.
-/

namespace game

/-! ## Faults -/

/-- Ways in which an execution fails to return. -/
inductive Fault where
  | panic
  | diverge
  | fuel
  deriving DecidableEq, Repr

deriving instance DecidableEq for Except

/-- Modulus of the Go type `uint` (64-bit target). -/
def UINT_MOD : Nat := 2 ^ 64

/-- Two's complement wrap-around of a 64-bit Go `int`. -/
def wrapInt (x : Int) : Int := (x + 2 ^ 63) % 2 ^ 64 - 2 ^ 63

/-! ## dice_roll.go -/

/-- Go `type Die uint8`; valid values are 1 to 6. -/
abbrev Die : Type := Nat

/-- Go `type Dice [2]Die`: the two dice `d[0]` and `d[1]`, each a `Die`, held as
natural numbers below 256. -/
structure Dice where
  d0 : Nat
  d1 : Nat
  deriving DecidableEq, Repr

/-- Go `func (d Dice) Points(rollNum int, currPoints uint) (uint, bool)`. -/
def Dice.Points (d : Dice) (rollNum : Int) (currPoints : Nat) : Nat × Bool :=
  let num := (d.d0 + d.d1) % 256
  let points := num % UINT_MOD
  if rollNum ≤ 3 then
    let points := if num = 7 then 70 else points
    ((points + currPoints) % UINT_MOD, true)
  else if num = 7 then
    (0, false)
  else if d.d0 = d.d1 then
    ((currPoints * 2) % UINT_MOD, true)
  else
    ((points + currPoints) % UINT_MOD, true)

/-! ## The state of a game (results.go, game.go)

The record types of `results.go` and `game.go` come first, because the
decision method of a player is handed the game. -/

/-- Go `type playerNode struct`.  `Name` and `AiAgent` stand for the embedded
`Player`; `ahead` and `behind` are pointers to nodes. -/
structure playerNode where
  Name : String
  AiAgent : Bool
  pts : Nat
  banked : Bool
  ahead : Option String
  behind : Option String
  deriving DecidableEq, Repr

/-- Go `type results struct`.  `players` is the map from names to nodes, kept
as an association list with distinct keys. -/
structure results where
  players : List (String × playerNode)
  firstPlayer : Option String
  largestName : Int
  humanPlayers : Int
  bankedHumanPlayers : Int
  deriving DecidableEq, Repr

/-- Go `*rand.Rand`: the sequence of raw draws of the generator and the number
of draws consumed.  The generator of `math/rand` itself is not part of the
repository; any sequence of draws stands for some seeded source. -/
structure Rand where
  draws : Nat → Nat
  pos : Nat

/-- Go `type round struct`. -/
structure round where
  points : Nat
  rolls : List Dice
  deriving DecidableEq, Repr

/-- The game as the method `Bank(*Game)` of a player receives it: the fields
of `*Game`, with the roster map given as key, agent flag and number of calls
of `Bank` made so far for each player.  A player reads the game; writing to
it from inside `Bank` is not modelled. -/
structure GameView where
  started : Bool
  currentRound : Nat
  rounds : List round
  roster : List (String × Bool × Nat)
  results : results
  seed : Int
  r : Rand
  onlyAI : Bool

/-! ## player.go -/

/-- Go `type Player interface`.  `Name` and `AiAgent` are the values the two
constant methods return.  `Bank` is the decision method `Bank(*Game) bool`:
`Bank v k` is what the `k`-th call (counted from 0) returns when the game it
is handed is `v`, and `calls` is the number of calls made so far.  So the
answer may depend on the history of the player itself, on the standings
(who has banked, with how many points), on the rounds, and on how often the
other players have been asked.  A player keeps no state but this count: what
two players could share outside the game they see only through the counts of
the roster.  What a call of `GetData` from inside `Bank` does is given by
`Game.GetData` below. -/
structure Player where
  Name : String
  AiAgent : Bool
  Bank : GameView → Nat → Bool
  calls : Nat

/-- Go `func NewHumanPlayer(name string) Player`; `Bank` of a human returns
false. -/
def NewHumanPlayer (name : String) : Player :=
  { Name := name, AiAgent := false, Bank := fun _ _ => false, calls := 0 }

/-! ## results.go -/

/-- The value of `new(results)`. -/
def results.new : results :=
  { players := [], firstPlayer := none, largestName := 0, humanPlayers := 0,
    bankedHumanPlayers := 0 }

/-- Map lookup `m[key]` on the association list. -/
def lookupNode : List (String × playerNode) → String → Option playerNode
  | [], _ => none
  | (k, n) :: rest, key => if k = key then some n else lookupNode rest key

/-- Field update through a pointer: the node stored under `key` becomes
`f node`. -/
def updateNode (f : playerNode → playerNode) :
    List (String × playerNode) → String → List (String × playerNode)
  | [], _ => []
  | (k, n) :: rest, key =>
    if k = key then (k, f n) :: rest else (k, n) :: updateNode f rest key

/-- The node a pointer refers to, `none` for a key that is not in the map. -/
def results.node (r : results) (key : String) : Option playerNode :=
  lookupNode r.players key

/-- Write through a pointer. -/
def results.set (r : results) (key : String) (f : playerNode → playerNode) : results :=
  { r with players := updateNode f r.players key }

/-- Dereference of a pointer that may be nil: nil panics. -/
def results.deref (r : results) : Option String → Except Fault playerNode
  | none => .error .panic
  | some key =>
    match r.node key with
    | none => .error .panic
    | some n => .ok n

/-- A pointer about to be written through: nil panics. -/
def nonNil : Option String → Except Fault String
  | none => .error .panic
  | some key => .ok key

/-- The loop `for lastPlayer.behind != nil { lastPlayer = lastPlayer.behind }`
of `addPlayer`.  The budget is the number of nodes: a walk that visits more
nodes than exist is on a cycle and never ends. -/
def lastPlayerFrom (r : results) : Nat → String → Except Fault String
  | 0, _ => .error .diverge
  | fuel + 1, key =>
    match r.node key with
    | none => .error .panic
    | some n =>
      match n.behind with
      | none => .ok key
      | some b => lastPlayerFrom r fuel b

/-- Go `func (r *results) addPlayer(player Player)`. -/
def results.addPlayer (r : results) (player : Player) : Except Fault results :=
  match r.node player.Name with
  | some _ => .ok r
  | none =>
    let pn : playerNode :=
      { Name := player.Name, AiAgent := player.AiAgent, pts := 0, banked := false,
        ahead := none, behind := none }
    let r := { r with players := r.players ++ [(pn.Name, pn)] }
    let r := if !pn.AiAgent then { r with humanPlayers := wrapInt (r.humanPlayers + 1) } else r
    let nameLen : Int := pn.Name.utf8ByteSize
    let r := if r.largestName < nameLen then { r with largestName := nameLen } else r
    match r.firstPlayer with
    | none => .ok { r with firstPlayer := some pn.Name }
    | some first => do
      let lastPlayer ← lastPlayerFrom r r.players.length first
      .ok (r.set lastPlayer (fun n => { n with behind := some pn.Name }))

/-- The loop `for playerAhead != nil && playerAhead.pts < pn.pts` of
`playerBanks`, with the number of nodes as budget. -/
def walkAhead (r : results) (pts : Nat) : Nat → Option String → Except Fault (Option String)
  | _, none => .ok none
  | 0, some _ => .error .diverge
  | fuel + 1, some key =>
    match r.node key with
    | none => .error .panic
    | some n => if n.pts < pts then walkAhead r pts fuel n.ahead else .ok (some key)

/-- Go `func (r *results) playerBanks(player Player, pts uint) bool`. -/
def results.playerBanks (r : results) (player : Player) (pts : Nat) :
    Except Fault (results × Bool) := do
  let key := player.Name
  -- pn := r.players[player.Name()]; pn.pts += pts; pn.banked = true
  let pn ← r.deref (some key)
  let r := r.set key (fun n => { n with pts := (n.pts + pts) % UINT_MOD })
  let r := r.set key (fun n => { n with banked := true })
  let r := if !pn.AiAgent then
    { r with bankedHumanPlayers := wrapInt (r.bankedHumanPlayers + 1) } else r
  let pn ← r.deref (some key)
  let playerAhead ← walkAhead r pn.pts r.players.length pn.ahead
  let r ←
    if playerAhead ≠ pn.ahead then do
      -- pn.ahead.behind = pn.behind
      let pn ← r.deref (some key)
      let a ← nonNil pn.ahead
      let r := r.set a (fun n => { n with behind := pn.behind })
      -- pn.behind.ahead = pn.ahead
      let pn ← r.deref (some key)
      let b ← nonNil pn.behind
      let r := r.set b (fun n => { n with ahead := pn.ahead })
      match playerAhead with
      | none =>
        -- pn.ahead = nil; pn.behind = r.firstPlayer
        let r := r.set key (fun n => { n with ahead := none })
        let r := r.set key (fun n => { n with behind := r.firstPlayer })
        -- r.firstPlayer.ahead = pn; r.firstPlayer = pn
        let f ← nonNil r.firstPlayer
        let r := r.set f (fun n => { n with ahead := some key })
        pure { r with firstPlayer := some key }
      | some pa =>
        -- pn.ahead = playerAhead; pn.behind = playerAhead.behind
        let r := r.set key (fun n => { n with ahead := some pa })
        let paNode ← r.deref (some pa)
        let r := r.set key (fun n => { n with behind := paNode.behind })
        -- playerAhead.behind = pn; playerAhead.behind.ahead = pn
        let r := r.set pa (fun n => { n with behind := some key })
        let paNode ← r.deref (some pa)
        let b ← nonNil paNode.behind
        pure (r.set b (fun n => { n with ahead := some key }))
    else pure r
  pure (r, r.humanPlayers == r.bankedHumanPlayers)

/-- Go `func (r *results) playerBanked(player Player) bool`. -/
def results.playerBanked (r : results) (player : Player) : Except Fault Bool := do
  let pn ← r.deref (some player.Name)
  pure pn.banked

/-- The loop of `unbankAllPlayers`, with the number of nodes as budget. -/
def unbankLoop : Nat → results → Option String → Except Fault results
  | _, r, none => .ok r
  | 0, _, some _ => .error .diverge
  | fuel + 1, r, some key =>
    match r.node key with
    | none => .error .panic
    | some n => unbankLoop fuel (r.set key (fun m => { m with banked := false })) n.behind

/-- Go `func (r *results) unbankAllPlayers()`. -/
def results.unbankAllPlayers (r : results) : Except Fault results :=
  let r := { r with bankedHumanPlayers := 0 }
  unbankLoop r.players.length r r.firstPlayer

/-- The traversal `for player := r.firstPlayer; player != nil; player = player.behind`,
collecting the nodes visited, with the number of nodes as budget. -/
def traverse (r : results) : Nat → Option String → Except Fault (List playerNode)
  | _, none => .ok []
  | 0, some _ => .error .diverge
  | fuel + 1, some key =>
    match r.node key with
    | none => .error .panic
    | some n => do
      let rest ← traverse r fuel n.behind
      pure (n :: rest)

/-- The nodes in standings order, from `firstPlayer` along `behind`. -/
def results.standings (r : results) : Except Fault (List playerNode) :=
  traverse r r.players.length r.firstPlayer

/-- Go `func (r *results) getUnbankedPlayers() []Player`. -/
def results.getUnbankedPlayers (r : results) : Except Fault (List playerNode) := do
  let all ← r.standings
  pure (all.filter (fun n => !n.banked))

/-- Go `type PlayerDataSnapshot struct`. -/
structure PlayerDataSnapshot where
  Name : String
  Points : Nat
  Banked : Bool
  deriving DecidableEq, Repr

/-- Go `func (r *results) getPlayerData(player Player) PlayerDataSnapshot`. -/
def results.getPlayerData (r : results) (player : Player) : Except Fault PlayerDataSnapshot := do
  let p ← r.deref (some player.Name)
  pure { Name := p.Name, Points := p.pts, Banked := p.banked }

/-! ## The terminal

Standard input is the list of lines still to be read.  Of standard output only
the lines printed by `game.go` are recorded, as structured events; the prompts,
menus and error messages of `prompt.go` are not recorded.  The order in which
a `range` statement enumerates a Go map is chosen by the run time for each
loop: `mapOrder k m` is the enumeration of map `m` by the `k`-th loop. -/

/-- One line group printed by `game.go`. -/
inductive Event where
  | startingGame
  | roster (rows : List (String × Bool))
  | startingRound (n : Nat)
  | dice (d : Dice)
  | currentPoints (pts : Nat)
  | rollNumber (n : Nat)
  | agentBanked (name : String)
  | standings (rows : List playerNode)
  | roundDone (n : Nat)
  | winner (name : String)
  deriving DecidableEq, Repr

/-- The process environment of a run. -/
structure World where
  stdin : List String
  stdout : List Event
  mapOrder : Nat → List (String × Player) → List (String × Player)
  ranged : Nat

/-- Append an event to standard output. -/
def World.print (w : World) (e : Event) : World :=
  { w with stdout := w.stdout ++ [e] }

/-- Start a `range` loop over a map: the entries in the order of this loop. -/
def World.range (w : World) (m : List (String × Player)) :
    List (String × Player) × World :=
  (w.mapOrder w.ranged m, { w with ranged := w.ranged + 1 })

/-! ## prompt.go -/

/-- Go `unicode.IsSpace`, the characters `strings.TrimSpace` removes. -/
def isSpace (c : Char) : Bool :=
  let n := c.toNat
  n = 9 || n = 10 || n = 11 || n = 12 || n = 13 || n = 32 || n = 0x85 || n = 0xA0 ||
  n = 0x1680 || (0x2000 ≤ n && n ≤ 0x200A) || n = 0x2028 || n = 0x2029 || n = 0x202F ||
  n = 0x205F || n = 0x3000

/-- Go `strings.TrimSpace`. -/
def TrimSpace (s : String) : String :=
  String.mk (((s.data.dropWhile isSpace).reverse.dropWhile isSpace).reverse)

/-- Go `unicode.ToLower` as far as this package can observe it: the ASCII
capitals, and the two other characters whose lower case is an ASCII letter
(U+0130 and U+212A).  Any other character is left as it is; Go maps it to a
character outside ASCII, and the package compares lowered input with ASCII
words only. -/
def lowerChar (c : Char) : Char :=
  if c.toNat = 0x130 then 'i'
  else if c.toNat = 0x212A then 'k'
  else c.toLower

/-- Go `strings.ToLower`. -/
def ToLower (s : String) : String := String.mk (s.data.map lowerChar)

/-- Go `func GetInput(prompt string, lowerCase bool) string`.  At end of input
`ReadString` returns the empty string and an error that is dropped. -/
def GetInput (w : World) (lowerCase : Bool) : String × World :=
  match w.stdin with
  | [] => ("", w)
  | line :: rest =>
    let input := TrimSpace line
    let input := if lowerCase then ToLower input else input
    (input, { w with stdin := rest })

/-- Go `type PromptRequest int`. -/
inductive PromptRequest where
  | PRINT_POINTS
  | PLAYERS_BANK
  | ROLL_DICE
  deriving DecidableEq, Repr

/-- The loop of `prompt` over the lines `GetInput(MAIN_PROMPT, true)` delivers.
At end of input the empty string is read, which is a request to roll. -/
def promptFrom : List String → PromptRequest × List String
  | [] => (.ROLL_DICE, [])
  | line :: rest =>
    let input := ToLower (TrimSpace line)
    if input = "?" ∨ input = "help" ∨ input = "h" then promptFrom rest
    else if input = "p" ∨ input = "points" ∨ input = "pp" ∨ input = "print points" ∨
        input = "player points" then (.PRINT_POINTS, rest)
    else if input = "b" ∨ input = "bank" ∨ input = "pb" ∨ input = "player bank" ∨
        input = "players bank" ∨ input = "bp" ∨ input = "bank points" then (.PLAYERS_BANK, rest)
    else if input = "" ∨ input = "r" ∨ input = "roll" ∨ input = "rd" ∨ input = "roll dice" then
      (.ROLL_DICE, rest)
    else promptFrom rest

/-- Go `func prompt() PromptRequest`. -/
def prompt (w : World) : PromptRequest × World :=
  let (request, rest) := promptFrom w.stdin
  (request, { w with stdin := rest })

/-- The first loop of `getBankingPlayers`: `playerMap` (as the list of its
keys) and `posPlayerMap`, built from the players that are not agents; `idx` is
the position in the whole list. -/
def bankingMaps : Nat → List playerNode → List String × List (String × String)
  | _, [] => ([], [])
  | idx, player :: rest =>
    let (playerMap, posPlayerMap) := bankingMaps (idx + 1) rest
    if !player.AiAgent then
      (player.Name :: playerMap, (toString (idx + 1), player.Name) :: posPlayerMap)
    else (playerMap, posPlayerMap)

/-- Lookup `posPlayerMap[input]`; a missing key gives the empty string. -/
def posLookup : List (String × String) → String → String
  | [], _ => ""
  | (k, v) :: rest, key => if k = key then v else posLookup rest key

/-- The second loop of `getBankingPlayers` over the lines
`GetInput(prompt, false)` delivers.  At end of input the empty string is read
for ever and the loop never ends. -/
def bankingLoop (playerMap : List String) (posPlayerMap : List (String × String)) :
    List String → List String → Except Fault (List String × List String)
  | _, [] => .error .diverge
  | playersBanking, line :: rest =>
    let input := TrimSpace line
    if input ∈ playerMap then
      bankingLoop playerMap posPlayerMap (playersBanking ++ [input]) rest
    else if posLookup posPlayerMap input ∈ playerMap then
      bankingLoop playerMap posPlayerMap (playersBanking ++ [posLookup posPlayerMap input]) rest
    else if ToLower input = "d" ∨ ToLower input = "done" ∨ ToLower input = "submit" then
      .ok (playersBanking, rest)
    else bankingLoop playerMap posPlayerMap playersBanking rest

/-- Go `func getBankingPlayers(players []Player) []string`. -/
def getBankingPlayers (players : List playerNode) (w : World) :
    Except Fault (List String × World) := do
  let (playerMap, posPlayerMap) := bankingMaps 0 players
  let (playersBanking, rest) ← bankingLoop playerMap posPlayerMap [] w.stdin
  pure (playersBanking, { w with stdin := rest })

/-! ## game.go -/

/-- Go `const MAX_ROUNDS = 20`. -/
def MAX_ROUNDS : Nat := 20

/-- Go `const GAME_HAS_STARTED_ERR_MSG`. -/
def GAME_HAS_STARTED_ERR_MSG : String := "game has already started"

/-- Go `func (r *Rand) Intn(n int) int` for `n > 0`: a value in `[0, n)`. -/
def Rand.Intn (r : Rand) (n : Nat) : Nat × Rand :=
  (r.draws r.pos % n, { r with pos := r.pos + 1 })

/-- Go `func (d *Dice) roll(r *rand.Rand) Dice`. -/
def Dice.roll (r : Rand) : Dice × Rand :=
  let (a, r) := r.Intn 5
  let (b, r) := r.Intn 5
  ({ d0 := (a + 1) % 256, d1 := (b + 1) % 256 }, r)

/-- Go `type Game struct`.  `players` is the map from names to players, kept as
an association list; `rounds` is the array `[20]round`; `results` is the
non-nil pointer set by `NewGame`. -/
structure Game where
  started : Bool
  currentRound : Nat
  rounds : List round
  players : List (String × Player)
  results : results
  seed : Int
  r : Rand
  onlyAI : Bool

/-- Map lookup `g.players[name]`; a missing key gives the nil interface. -/
def lookupPlayer : List (String × Player) → String → Option Player
  | [], _ => none
  | (k, p) :: rest, key => if k = key then some p else lookupPlayer rest key

/-- Replace the player object stored under `key`. -/
def updatePlayer (f : Player → Player) :
    List (String × Player) → String → List (String × Player)
  | [], _ => []
  | (k, p) :: rest, key =>
    if k = key then (k, f p) :: rest else (k, p) :: updatePlayer f rest key

/-- The game as `Bank` is handed it. -/
def Game.view (g : Game) : GameView :=
  { started := g.started, currentRound := g.currentRound, rounds := g.rounds,
    roster := g.players.map (fun e => (e.1, e.2.AiAgent, e.2.calls)),
    results := g.results, seed := g.seed, r := g.r, onlyAI := g.onlyAI }

/-- Go `func NewGame() *Game`; `seed` is the value drawn from the global
generator and `source` stands for `rand.New(rand.NewSource(seed))`. -/
def NewGame (source : Int → Rand) (seed : Int) : Game :=
  { started := false, currentRound := 0,
    rounds := List.replicate 20 { points := 0, rolls := [] },
    players := [], results := results.new, seed := seed, r := source seed, onlyAI := true }

/-- Go `func (g *Game) SetSeed(seed int64) error`; `none` is the nil error. -/
def Game.SetSeed (source : Int → Rand) (g : Game) (seed : Int) : Option String × Game :=
  if g.started then (some GAME_HAS_STARTED_ERR_MSG, g)
  else (none, { g with seed := seed, r := source seed })

/-- Go `func (g *Game) AddPlayer(player Player) error`; `none` as argument is
the nil interface, `none` as result the nil error. -/
def Game.AddPlayer (g : Game) (player : Option Player) : Except Fault (Option String × Game) :=
  if g.started then .ok (some GAME_HAS_STARTED_ERR_MSG, g)
  else
    match player with
    | none => .ok (some "added nil player", g)
    | some player =>
      match lookupPlayer g.players player.Name with
      | some _ =>
        .ok (some ("player already exists with that name: '" ++ player.Name ++ "'"), g)
      | none => do
        let g := { g with players := g.players ++ [(player.Name, player)] }
        let res ← g.results.addPlayer player
        let g := { g with results := res }
        pure (none, { g with onlyAI := g.onlyAI && player.AiAgent })

/-- Array indexing `g.rounds[i]`: out of range panics. -/
def indexRound (rounds : List round) (i : Nat) : Except Fault round :=
  match rounds.get? i with
  | none => .error .panic
  | some rd => .ok rd

/-- Go `func (g *Game) roll(r *round) (Dice, bool)`; the round pointed to is
passed in and returned. -/
def Game.roll (g : Game) (r : round) : (Dice × Bool) × round × Game :=
  let (roll, rng) := Dice.roll g.r
  let g := { g with r := rng }
  let r := { r with rolls := r.rolls ++ [roll] }
  let (newPts, cont) := roll.Points r.rolls.length r.points
  let r := if cont then { r with points := newPts } else r
  ((roll, cont), r, g)

/-- The body of the `range g.players` loop of `askAiAgentsToBank` for one map
entry. -/
def Game.askOne (g : Game) (w : World) (player : Player) : Except Fault (Game × World) :=
  if player.AiAgent then do
    let response := player.Bank g.view player.calls
    let g := { g with
      players := updatePlayer (fun p => { p with calls := p.calls + 1 }) g.players player.Name }
    let banked ← g.results.playerBanked player
    if !banked && response then do
      let rd ← indexRound g.rounds g.currentRound
      let (res, _) ← g.results.playerBanks player rd.points
      pure ({ g with results := res }, w.print (.agentBanked player.Name))
    else pure (g, w)
  else pure (g, w)

/-- The `range g.players` loop of `askAiAgentsToBank` over the entries in the
order of enumeration. -/
def Game.askEach : List (String × Player) → Game → World → Except Fault (Game × World)
  | [], g, w => .ok (g, w)
  | (_, player) :: rest, g, w => do
    let (g, w) ← g.askOne w player
    Game.askEach rest g w

/-- Go `func (g *Game) askAiAgentsToBank()`. -/
def Game.askAiAgentsToBank (g : Game) (w : World) : Except Fault (Game × World) :=
  let (entries, w) := w.range g.players
  Game.askEach entries g w

/-- The loop `for _, player := range bankingPlayers` of `startRound`:
`keepPrompting = !g.results.playerBanks(g.players[player], round.points)`. -/
def Game.bankEach (pts : Nat) : List String → Game → Bool → Except Fault (Game × Bool)
  | [], g, keepPrompting => .ok (g, keepPrompting)
  | name :: rest, g, _ =>
    match lookupPlayer g.players name with
    | none => .error .panic
    | some player => do
      let (res, all) ← g.results.playerBanks player pts
      Game.bankEach pts rest { g with results := res } (!all)

/-- The loop `for keepPrompting := true; keepPrompting; { switch prompt() ... }`
of `startRound`; `rd` is the local copy `round`.  Every turn reads a line or
ends the loop, so `stdin.length + 1` turns are a budget that is never used up. -/
def Game.promptLoop (rd : round) : Nat → Game → World → Except Fault (Game × World)
  | 0, _, _ => .error .fuel
  | fuel + 1, g, w =>
    match prompt w with
    | (.PRINT_POINTS, w) => do
      let rows ← g.results.standings
      Game.promptLoop rd fuel g (w.print (.standings rows))
    | (.PLAYERS_BANK, w) => do
      let unbanked ← g.results.getUnbankedPlayers
      let (bankingPlayers, w) ← getBankingPlayers unbanked w
      let (g, keepPrompting) ← Game.bankEach rd.points bankingPlayers g true
      let (g, w) ← if bankingPlayers.length > 0 then g.askAiAgentsToBank w else pure (g, w)
      if keepPrompting then Game.promptLoop rd fuel g w else pure (g, w)
    | (.ROLL_DICE, w) => .ok (g, w)

/-- The loop `for keepRolling { ... }` of `startRound`.  The result holds the
last dice, the local round and `bankedRound`.  `fuel` bounds the number of
rolls of the round. -/
def Game.rollLoop : Nat → Game → Dice → Bool → round → World →
    Except Fault (Dice × round × Bool × Game × World)
  | _, g, dice, false, rd, w => .ok (dice, rd, false, g, w)
  | 0, _, _, true, _, _ => .error .fuel
  | fuel + 1, g, dice, true, rd, w => do
    let w := w.print (.dice dice)
    let w := w.print (.currentPoints rd.points)
    let w := w.print (.rollNumber rd.rolls.length)
    let (g, w) ← g.askAiAgentsToBank w
    let (g, w) ← Game.promptLoop rd (w.stdin.length + 1) g w
    let unbanked ← g.results.getUnbankedPlayers
    if unbanked.length = 0 then pure (dice, rd, true, g, w)
    else
      let ((dice, keepRolling), rd, g) := g.roll rd
      Game.rollLoop fuel g dice keepRolling rd w

/-- Go `func (g *Game) startRound()`.  `round := g.rounds[g.currentRound]`
copies the array element: the rolls go to the copy. -/
def Game.startRound (fuel : Nat) (g : Game) (w : World) : Except Fault (Game × World) := do
  let rd ← indexRound g.rounds g.currentRound
  let w := w.print (.startingRound ((g.currentRound + 1) % 256))
  let ((dice, keepRolling), rd, g) := g.roll rd
  let (dice, rd, bankedRound, g, w) ← Game.rollLoop fuel g dice keepRolling rd w
  let w := if !bankedRound then
    (w.print (.dice dice)).print (.rollNumber rd.rolls.length) else w
  pure (g, w.print (.roundDone ((g.currentRound + 1) % 256)))

/-- The loop `for ; g.currentRound < MAX_ROUNDS; g.currentRound++` of
`StartGame`; the first argument is `MAX_ROUNDS - g.currentRound`. -/
def Game.runRounds (fuel : Nat) : Nat → Game → World → Except Fault (Game × World)
  | 0, g, w => if g.currentRound < MAX_ROUNDS then .error .fuel else .ok (g, w)
  | n + 1, g, w =>
    if g.currentRound < MAX_ROUNDS then do
      let (g, w) ← g.startRound fuel w
      let res ← g.results.unbankAllPlayers
      let g := { g with results := res }
      let rows ← g.results.standings
      let w := w.print (.standings rows)
      Game.runRounds fuel n { g with currentRound := (g.currentRound + 1) % 256 } w
    else .ok (g, w)

/-- Go `func (g *Game) StartGame() error`; `fuel` bounds the rolls of each
round. -/
def Game.StartGame (fuel : Nat) (g : Game) (w : World) :
    Except Fault (Option String × Game × World) :=
  if g.started then .ok (some GAME_HAS_STARTED_ERR_MSG, g, w)
  else do
    let g := { g with started := true }
    let (entries, w) := w.range g.players
    let rows := entries.map (fun e => (e.2.Name, e.2.AiAgent))
    let w := w.print .startingGame
    let w := w.print (.roster rows)
    let (g, w) ← Game.runRounds fuel (MAX_ROUNDS - g.currentRound) g w
    let first ← g.results.deref g.results.firstPlayer
    pure (none, g, w.print (.winner first.Name))

/-- Go `type BankDataSnapshot struct`. -/
structure BankDataSnapshot where
  CurrentRound : Nat
  RoundPoints : Nat
  Roll : Dice
  Players : List PlayerDataSnapshot
  Seed : Int
  deriving DecidableEq, Repr

/-- The `range g.players` loop of `GetData` over the entries in the order of
enumeration: `playerData = append(playerData, g.results.getPlayerData(player))`
for every name that is not the requestor's. -/
def Game.appendData (g : Game) (requestor : Player) :
    List (String × Player) → List PlayerDataSnapshot → Except Fault (List PlayerDataSnapshot)
  | [], playerData => .ok playerData
  | (name, player) :: rest, playerData =>
    if name ≠ requestor.Name then do
      let d ← g.results.getPlayerData player
      Game.appendData g requestor rest (playerData ++ [d])
    else Game.appendData g requestor rest playerData

/-- The slice `playerData` of `GetData` when its loop is done:
`make([]PlayerDataSnapshot, len(g.players)-1)` holds `len(g.players)-1` zero
records (a negative length panics), and the loop appends to it.  `order` is
the enumeration of the map by the loop. -/
def Game.playerData (g : Game) (order : List (String × Player)) (requestor : Player) :
    Except Fault (List PlayerDataSnapshot) :=
  if g.players.length = 0 then .error .panic
  else
    Game.appendData g requestor order
      (List.replicate (g.players.length - 1) { Name := "", Points := 0, Banked := false })

/-- Go `func (g *Game) GetData(requestor Player) BankDataSnapshot`. -/
def Game.GetData (g : Game) (order : List (String × Player)) (requestor : Player) :
    Except Fault BankDataSnapshot := do
  let rd ← indexRound g.rounds g.currentRound
  let playerData ← g.playerData order requestor
  match rd.rolls.getLast? with
  | none => .error .panic
  | some roll =>
    pure { CurrentRound := g.currentRound, RoundPoints := rd.points, Roll := roll,
           Players := playerData, Seed := g.seed }

/-! ## Specification vocabulary -/

/-- Standings built from the empty standings by the operations of results.go. -/
inductive Built : results → Prop where
  | new : Built results.new
  | add {r r' : results} (p : Player) : Built r → r.addPlayer p = .ok r' → Built r'
  | bank {r r' : results} (p : Player) (pts : Nat) (b : Bool) :
      Built r → r.playerBanks p pts = .ok (r', b) → Built r'
  | unbank {r r' : results} : Built r → r.unbankAllPlayers = .ok r' → Built r'

/-- No node has an `ahead` link. -/
def NoAhead (r : results) : Prop := ∀ e ∈ r.players, e.2.ahead = none

/-- The standings after `playerBanks` when nothing is relinked. -/
def bankedResults (r : results) (key : String) (pts : Nat) (ai : Bool) : results :=
  let r := r.set key (fun n => { n with pts := (n.pts + pts) % UINT_MOD })
  let r := r.set key (fun n => { n with banked := true })
  if !ai then { r with bankedHumanPlayers := wrapInt (r.bankedHumanPlayers + 1) } else r

/-- The node `addPlayer` creates for a player. -/
def freshNode (p : Player) : playerNode :=
  { Name := p.Name, AiAgent := p.AiAgent, pts := 0, banked := false, ahead := none,
    behind := none }


/-! ## Example rosters and runs -/

/-- A human player named A. -/
def playerA : Player := NewHumanPlayer "A"

/-- A human player named B. -/
def playerB : Player := NewHumanPlayer "B"

/-- A human player named C. -/
def playerC : Player := NewHumanPlayer "C"

/-- An agent named Z whose `Bank` answers true at every call. -/
def agentZ : Player := { Name := "Z", AiAgent := true, Bank := fun _ _ => true, calls := 0 }

/-- A generator whose every draw is 0: every roll shows (1, 1). -/
def allOnes : Rand := { draws := fun _ => 0, pos := 0 }

/-- A generator that rolls (1, 1) three times and then (2, 5), over and over. -/
def sevenOnFourth : Rand :=
  { draws := fun i => if i % 8 = 6 then 1 else if i % 8 = 7 then 4 else 0, pos := 0 }

/-- A terminal with the given lines on standard input, whose map loops
enumerate in insertion order. -/
def terminal (lines : List String) : World :=
  { stdin := lines, stdout := [], mapOrder := fun _ m => m, ranged := 0 }

/-- `AddPlayer` of each player of the list, in list order. -/
def addPlayers : Game → List Player → Except Fault Game
  | g, [] => .ok g
  | g, p :: ps => do
    let (_, g) ← g.AddPlayer (some p)
    addPlayers g ps

/-- The game `NewGame` makes with generator `rng` and seed 42, after
`AddPlayer` of each player of the list in list order. -/
def gameWith (rng : Rand) (ps : List Player) : Except Fault Game :=
  addPlayers (NewGame (fun _ => rng) 42) ps

/-- The standings after `addPlayer` of A and then of B. -/
def standingsAB : results :=
  { players :=
      [("A", { Name := "A", AiAgent := false, pts := 0, banked := false, ahead := none,
               behind := some "B" }),
       ("B", { Name := "B", AiAgent := false, pts := 0, banked := false, ahead := none,
               behind := none })],
    firstPlayer := some "A", largestName := 1, humanPlayers := 2, bankedHumanPlayers := 0 }

/-- The standings after `addPlayer` of A and of B and `playerBanks(B, 10)`: B
has banked 10 points and is counted as a banked human. -/
def standingsBanked : results :=
  { players :=
      [("A", { Name := "A", AiAgent := false, pts := 0, banked := false, ahead := none,
               behind := some "B" }),
       ("B", { Name := "B", AiAgent := false, pts := 10, banked := true, ahead := none,
               behind := none })],
    firstPlayer := some "A", largestName := 1, humanPlayers := 2, bankedHumanPlayers := 1 }

/-- Name and points of the nodes in standings order. -/
def results.table (r : results) : Except Fault (List (String × Nat)) := do
  let rows ← r.standings
  pure (rows.map (fun n => (n.Name, n.pts)))

/-- Name and banked flag of the nodes in standings order. -/
def results.flags (r : results) : Except Fault (List (String × Bool)) := do
  let rows ← r.standings
  pure (rows.map (fun n => (n.Name, n.banked)))

/-! ## Well linked standings -/

/-- The `behind` link of every entry of the list points to the entry after it,
and that of the last entry is nil. -/
def chained : List (String × playerNode) → Prop
  | [] => True
  | e :: rest => e.2.behind = rest.head?.map Prod.fst ∧ chained rest

/-- The standings are the list of the map entries in insertion order: keys are
distinct, every node is stored under its name, the leader is the first entry
and the `behind` links follow the list. -/
structure WellLinked (r : results) : Prop where
  nodup : (r.players.map Prod.fst).Nodup
  names : ∀ e ∈ r.players, e.2.Name = e.1
  first : r.firstPlayer = r.players.head?.map Prod.fst
  chain : chained r.players

/-- The key of the last entry of `(k, _) :: l`. -/
def lastKey : String → List (String × playerNode) → String
  | k, [] => k
  | _, e :: rest => lastKey e.1 rest

/-! ## Sequences of operations on the standings -/

/-- An operation on the standings. -/
inductive Op where
  | add (p : Player)
  | bank (p : Player) (pts : Nat)
  | unbankAll

/-- The standings after one operation. -/
def results.step (r : results) : Op → Except Fault results
  | .add p => r.addPlayer p
  | .bank p pts => do
    let (r', _) ← r.playerBanks p pts
    pure r'
  | .unbankAll => r.unbankAllPlayers

/-- The standings after a sequence of operations, first to last. -/
def results.run : results → List Op → Except Fault results
  | r, [] => .ok r
  | r, op :: ops => do
    let r' ← r.step op
    results.run r' ops

/-- The names of the players the operations of the list add. -/
def addedNames : List Op → List String
  | [] => []
  | .add p :: ops => p.Name :: addedNames ops
  | _ :: ops => addedNames ops

/-! ## Rolls of a round -/

/-- The scoring function applied left to right to a list of rolls: `points` is
the running total before the list and `pos` the number of rolls before it, so
the first roll of the list has roll number `pos + 1`. -/
def scoreFrom : List Dice → Nat → Nat → Nat
  | [], points, _ => points
  | d :: rest, points, pos => scoreFrom rest (d.Points ((pos + 1 : Nat) : Int) points).1 (pos + 1)

/-- The scoring function applied left to right to the rolls of a round. -/
def scoreRolls (rolls : List Dice) : Nat := scoreFrom rolls 0 0

/-- Up to `n` calls of `g.roll(&round)` as the round driver makes them: a call
follows the one before it only when that one returned true.  The flag tells
whether the last call made returned true. -/
def Game.rollTimes : Nat → Game → round → Bool × round × Game
  | 0, g, rd => (true, rd, g)
  | n + 1, g, rd =>
    match g.roll rd with
    | ((_, true), rd', g') => Game.rollTimes n g' rd'
    | ((_, false), rd', g') => (false, rd', g')

/-- A game that has not started, with no players. -/
def freshGame : Game := NewGame (fun _ => sevenOnFourth) 42

/-- A started game with no players. -/
def startedGame : Game := { freshGame with started := true }

/-! ## Games being set up -/

/-- Games that have not been started: `NewGame`, then any calls of `SetSeed`
and `AddPlayer`. -/
inductive Setup : Game → Prop where
  | new (source : Int → Rand) (seed : Int) : Setup (NewGame source seed)
  | setSeed {g : Game} (source : Int → Rand) (seed : Int) :
      Setup g → Setup (g.SetSeed source seed).2
  | addPlayer {g g' : Game} (player : Option Player) (err : Option String) :
      Setup g → g.AddPlayer player = .ok (err, g') → Setup g'

/-- The roster and the standings of a game agree. -/
structure Ready (g : Game) : Prop where
  built : Built g.results
  keys : g.players.map Prod.fst = g.results.players.map Prod.fst
  names : ∀ e ∈ g.players, e.2.Name = e.1
  agents : g.onlyAI = true ↔ ∀ e ∈ g.players, e.2.AiAgent = true

/-- Name, points and banked flag of a node. -/
def playerNode.row (n : playerNode) : String × Nat × Bool := (n.Name, n.pts, n.banked)

/-! ## Rounds ended by a seven -/

/-- Every participant of `r` whose banked flag is not set has the cumulative
points it has in `r0`. -/
def Kept (r0 r : results) : Prop :=
  ∀ key n, r.node key = some n → n.banked = false →
    ∃ n0, r0.node key = some n0 ∧ n0.pts = n.pts

/-- The game of the humans A and B, not started, with the generator that rolls
(1, 1) three times and then (2, 5). -/
def gameAB : Game :=
  { NewGame (fun _ => sevenOnFourth) 42 with
    players := [("A", playerA), ("B", playerB)], results := standingsAB, onlyAI := false }

/-- The game of A and B when three rolls of the round have been made: the next
roll is (2, 5). -/
def gameABLate : Game := { gameAB with started := true, r := { sevenOnFourth with pos := 6 } }

/-- A round after three rolls of (1, 1). -/
def roundOfThree : round := { points := 6, rolls := [⟨1, 1⟩, ⟨1, 1⟩, ⟨1, 1⟩] }

/-! ## The bank sub-prompt -/

/-- The terminal after the announcements "AI Agent banked" for the names of the list. -/
def World.announce (w : World) (names : List String) : World :=
  { w with stdout := w.stdout ++ names.map Event.agentBanked }

/-- Whether a consultation of `p` in the game `g` banks `p`: `p` is an agent,
has not banked, and answers true when it is handed `g`. -/
def banksNow (g : Game) (p : Player) : Bool :=
  p.AiAgent &&
    (match g.results.node p.Name with
     | some n => !n.banked && p.Bank g.view p.calls
     | none => false)

/-- The standings after one consultation of `p` that returns, with `pts` the
points of the stored round. -/
def resultsAfter (pts : Nat) (g : Game) (p : Player) : results :=
  if banksNow g p then
    match g.results.node p.Name with
    | some n => bankedResults g.results p.Name pts n.AiAgent
    | none => g.results
  else g.results

/-- The roster after one consultation of `p`: an agent has been called once
more. -/
def playersAfter (l : List (String × Player)) (p : Player) : List (String × Player) :=
  if p.AiAgent then updatePlayer (fun q => { q with calls := q.calls + 1 }) l p.Name else l

/-- The game after one consultation of `p` that returns. -/
def consult (pts : Nat) (g : Game) (p : Player) : Game :=
  { g with players := playersAfter g.players p, results := resultsAfter pts g p }

/-- The announcement one consultation of `p` makes. -/
def said (g : Game) (p : Player) : List String :=
  if banksNow g p then [p.Name] else []

/-- An entry of the roster as a player named `name` sees it when it does not
look at the others: the number of calls of another player is blanked out. -/
def hideCalls (name : String) (e : String × Bool × Nat) : String × Bool × Nat :=
  if e.1 = name then e else (e.1, e.2.1, 0)

/-- A node of the standings as a player named `name` sees it when it does not
look at the other agents: the points and the banked flag of the node of
another agent are blanked out. -/
def hideNode (name : String) (e : String × playerNode) : String × playerNode :=
  if e.1 ≠ name ∧ e.2.AiAgent = true then (e.1, { e.2 with pts := 0, banked := false }) else e

/-- The game as handed to `Bank`, with what the consultations of the other
agents change blanked out for the player named `name`: the number of calls of
every other player, and the points and the banked flag of the node of every
other agent.  The nodes of the humans and the node of the player itself stay
as they are. -/
def GameView.hideOthers (v : GameView) (name : String) : GameView :=
  { v with
    roster := v.roster.map (hideCalls name),
    results := { v.results with players := v.results.players.map (hideNode name) } }

/-- A player whose answer does not depend on what has been done with the other
agents: on how often the other players have been asked, and on the points and
the banked flags of the other agents. -/
def IgnoresOthers (p : Player) : Prop :=
  ∀ (v : GameView) (k : Nat), p.Bank v k = p.Bank (v.hideOthers p.Name) k

/-! ## Runs under different map orders -/

/-- Two transcripts that differ at most in the order of the rows of a roster
table and in the order of the announcements of one consultation pass. -/
inductive SameTranscript : List Event → List Event → Prop where
  | refl (l : List Event) : SameTranscript l l
  | event (e : Event) {l l' : List Event} :
      SameTranscript l l' → SameTranscript (l ++ [e]) (l' ++ [e])
  | roster {rows rows' : List (String × Bool)} {l l' : List Event} :
      rows.Perm rows' → SameTranscript l l' →
      SameTranscript (l ++ [Event.roster rows]) (l' ++ [Event.roster rows'])
  | agents {names names' : List String} {l l' : List Event} :
      names.Perm names' → SameTranscript l l' →
      SameTranscript (l ++ names.map Event.agentBanked) (l' ++ names'.map Event.agentBanked)

/-- Two terminals of runs that differ only in the order in which maps are
enumerated, `mo` in the one and `mo'` in the other. -/
structure Related (mo mo' : Nat → List (String × Player) → List (String × Player))
    (w w' : World) : Prop where
  stdin : w.stdin = w'.stdin
  ranged : w.ranged = w'.ranged
  stdout : SameTranscript w.stdout w'.stdout
  order : w.mapOrder = mo
  order' : w'.mapOrder = mo'

/-- An enumeration of maps: every map is enumerated as a permutation of its
entries. -/
def Shuffles (mo : Nat → List (String × Player) → List (String × Player)) : Prop :=
  ∀ k m, (mo k m).Perm m

/-- A game in play whose consultation passes are well defined and do not
depend on the order of the agents: no node has an `ahead` link, the names of
the roster are distinct, the node of an agent of the roster is marked as an
agent, and every agent of the roster ignores the other agents. -/
structure Sound (g : Game) : Prop where
  noAhead : NoAhead g.results
  names : (g.players.map (fun e => e.2.Name)).Nodup
  marked : ∀ e ∈ g.players, e.2.AiAgent = true →
    ∀ n, g.results.node e.2.Name = some n → n.AiAgent = true
  quiet : ∀ e ∈ g.players, e.2.AiAgent = true → IgnoresOthers e.2

/-- An agent named Y whose `Bank` answers true at every call. -/
def agentY : Player := { Name := "Y", AiAgent := true, Bank := fun _ _ => true, calls := 0 }

/-- The game of the agents Z and Y, not started. -/
def gameZY : Game :=
  { NewGame (fun _ => allOnes) 42 with
    players := [("Z", agentZ), ("Y", agentY)],
    results :=
      { players :=
          [("Z", { Name := "Z", AiAgent := true, pts := 0, banked := false, ahead := none,
                   behind := some "Y" }),
           ("Y", { Name := "Y", AiAgent := true, pts := 0, banked := false, ahead := none,
                   behind := none })],
        firstPlayer := some "Z", largestName := 1, humanPlayers := 0, bankedHumanPlayers := 0 } }

/-- An agent named W that answers true exactly when the node of Z is marked as
banked in the game it is handed. -/
def agentW : Player :=
  { Name := "W", AiAgent := true,
    Bank := fun v _ =>
      match lookupNode v.results.players "Z" with
      | some n => n.banked
      | none => false,
    calls := 0 }

/-- The game of the agents Z and W, not started. -/
def gameZW : Game :=
  { NewGame (fun _ => allOnes) 42 with
    players := [("Z", agentZ), ("W", agentW)],
    results :=
      { players :=
          [("Z", { Name := "Z", AiAgent := true, pts := 0, banked := false, ahead := none,
                   behind := some "W" }),
           ("W", { Name := "W", AiAgent := true, pts := 0, banked := false, ahead := none,
                   behind := none })],
        firstPlayer := some "Z", largestName := 1, humanPlayers := 0, bankedHumanPlayers := 0 } }

/-- A terminal with the given lines on standard input whose map loops
enumerate in the order `mo`. -/
def terminalWith (mo : Nat → List (String × Player) → List (String × Player))
    (lines : List String) : World :=
  { stdin := lines, stdout := [], mapOrder := mo, ranged := 0 }

/-- The enumeration of a map in insertion order. -/
def inOrder : Nat → List (String × Player) → List (String × Player) := fun _ m => m

/-- The enumeration of a map in reverse insertion order. -/
def reversed : Nat → List (String × Player) → List (String × Player) := fun _ m => m.reverse

/-! ## fmt.Sprintf and table/table.go -/

/-- An operand of `fmt.Sprintf`: a Go `int`, a Go `string` or a Go `rune`. -/
inductive Arg where
  | int (v : Int)
  | str (s : String)
  | rune (c : Char)
  deriving DecidableEq, Repr

/-- Go fmt `tooLarge` (`fmt/print.go`): `const max int = 1e6; return x > max ||
x < -max`, for the numbers `parsenum` reads, which are not negative. -/
def tooLarge (x : Nat) : Bool := decide (x > 1000000)

/-- Go fmt `parsenum` (`fmt/print.go`), continued from the number `num` read so
far: `for ; newi < end && '0' <= s[newi] && s[newi] <= '9'; newi++ { if
tooLarge(num) { return 0, false, end }; num = num*10 + int(s[newi]-'0');
isnum = true }`.  It stops at the first character that is not a digit; when
the number read so far is too large as one more digit comes, it gives up with
the position at the end of the format. -/
def parsenum : Nat → Bool → List Char → Nat × Bool × List Char
  | num, isnum, [] => (num, isnum, [])
  | num, isnum, c :: rest =>
    if 48 ≤ c.toNat ∧ c.toNat ≤ 57 then
      if tooLarge num then (0, false, [])
      else parsenum (num * 10 + (c.toNat - 48)) true rest
    else (num, isnum, c :: rest)

/-- Go fmt `padString`: `s` padded with spaces to `wid` runes, on the left
unless `minus`. -/
def padString (wid : Nat) (widPresent minus : Bool) (s : List Char) : List Char :=
  if !widPresent || wid = 0 then s
  else if !minus then List.replicate (wid - s.length) ' ' ++ s
  else s ++ List.replicate (wid - s.length) ' '

/-- Go fmt `printArg` for the verbs this program uses: `%s` of a string with
an optional width, `%d` of an integer and `%c` of a rune without width, and
`%v` without width.  `none` is a combination that is not modelled. -/
def printArg (arg : Arg) (verb : Char) (wid : Nat) (widPresent minus zero : Bool) :
    Option (List Char) :=
  match arg with
  | .str s =>
    if verb = 's' ∨ verb = 'v' then
      if zero && widPresent then none else some (padString wid widPresent minus s.data)
    else none
  | .int v =>
    if (verb = 'd' ∨ verb = 'v') ∧ widPresent = false then some (toString v).data else none
  | .rune c =>
    if verb = 'c' ∧ widPresent = false then some [c]
    else if (verb = 'd' ∨ verb = 'v') ∧ widPresent = false then some (toString c.toNat).data
    else none

/-- The operands left over, as fmt lists them: `type=value` joined by commas. -/
def extraList : List Arg → List Char
  | [] => []
  | [.int v] => "int=".data ++ (toString v).data
  | [.str s] => "string=".data ++ s.data
  | [.rune c] => "int32=".data ++ (toString c.toNat).data
  | .int v :: rest => "int=".data ++ (toString v).data ++ ", ".data ++ extraList rest
  | .str s :: rest => "string=".data ++ s.data ++ ", ".data ++ extraList rest
  | .rune c :: rest => "int32=".data ++ (toString c.toNat).data ++ ", ".data ++ extraList rest

/-- The end of Go fmt `doPrintf`: operands that no verb used are reported. -/
def extraArgs (a : List Arg) : List Char :=
  match a with
  | [] => []
  | _ :: _ => "%!(EXTRA ".data ++ extraList a ++ [')']

/-- The flags loop of Go fmt `doPrintf` for the flags `-` and `0`: the flags
`minus` and `zero`, and the format from the first character that is not one of
these two. -/
def scanFlags : Bool → Bool → List Char → Bool × Bool × List Char
  | minus, zero, [] => (minus, zero, [])
  | minus, zero, c :: rest =>
    if c = '-' then scanFlags true false rest
    else if c = '0' then scanFlags minus (!minus) rest
    else (minus, zero, c :: rest)

/-- Go fmt `doPrintf` (`fmt/print.go`), for formats made of text, the flags `-`
and `0`, a width and the verbs `%`, `s`, `d`, `c` and `v`; `none` is a format
outside this fragment (other flags, precision, `*`, argument indexes, other
verbs).  Text up to the next `%` is copied.  After the flags, a lower case
letter is the verb at once when an operand is left; otherwise a width is read
and the next character is the verb.  A format that ends before its verb
gives `%!(NOVERB)`, a verb without operand gives `%!v(MISSING)`, and operands
left over at the end are listed as `%!(EXTRA ...)`.  Every turn of the loop
consumes a `%`, so the length of the format plus one is a budget that is
never used up. -/
def doPrintf : Nat → List Char → List Arg → Option (List Char)
  | 0, _, _ => none
  | fuel + 1, format, a =>
    let text := format.takeWhile (fun c => c != '%')
    match format.dropWhile (fun c => c != '%') with
    | [] => some (text ++ extraArgs a)
    | _ :: rest =>
      match scanFlags false false rest, a with
      | (_, _, []), _ => some (text ++ "%!(NOVERB)".data ++ extraArgs a)
      | (_, _, c :: rest), [] =>
        if c = '#' ∨ c = '+' ∨ c = ' ' ∨ c = '[' ∨ c = '*' ∨ c = '.' then none
        else
          match parsenum 0 false (c :: rest) with
          | (_, _, []) => some (text ++ "%!(NOVERB)".data)
          | (_, _, verb :: rest) =>
            if verb = '.' ∨ verb = '[' then none
            else if verb = '%' then (doPrintf fuel rest []).map (fun more => text ++ '%' :: more)
            else (doPrintf fuel rest []).map
              (fun more => text ++ "%!".data ++ verb :: "(MISSING)".data ++ more)
      | (minus, zero, c :: rest), arg :: args =>
        if c = '#' ∨ c = '+' ∨ c = ' ' ∨ c = '[' ∨ c = '*' ∨ c = '.' then none
        else if 97 ≤ c.toNat ∧ c.toNat ≤ 122 then
          match printArg arg c 0 false minus zero, doPrintf fuel rest args with
          | some out, some more => some (text ++ out ++ more)
          | _, _ => none
        else
          match parsenum 0 false (c :: rest) with
          | (_, _, []) => some (text ++ "%!(NOVERB)".data ++ extraArgs (arg :: args))
          | (wid, widPresent, verb :: rest) =>
            if verb = '.' ∨ verb = '[' then none
            else if verb = '%' then
              (doPrintf fuel rest (arg :: args)).map (fun more => text ++ '%' :: more)
            else
              match printArg arg verb wid widPresent minus zero, doPrintf fuel rest args with
              | some out, some more => some (text ++ out ++ more)
              | _, _ => none

/-- Go `fmt.Sprintf(format, a...)`. -/
def Sprintf (format : String) (a : List Arg) : Option String :=
  (doPrintf (format.length + 1) format.data a).map String.mk

/-- Go `type Alignment int` of package `table`. -/
abbrev Alignment : Type := Int

/-- Go `LEFT Alignment = iota`. -/
def LEFT : Alignment := 0

/-- Go `CENTER`. -/
def CENTER : Alignment := 1

/-- Go `RIGHT`. -/
def RIGHT : Alignment := 2

/-- Go `func formatColEntry(val string, alignment Alignment, width int) string`
of `table/table.go`: the format is made by a first `Sprintf` and applied to
`val` and the empty string by a second one.  `len(val)` is the number of
bytes of `val`; `none` stands for a format outside the fragment of
`doPrintf`. -/
def formatColEntry (val : String) (alignment : Alignment) (width : Int) : Option String := do
  let valFmt ←
    if alignment = RIGHT then Sprintf "%%%ds%%s" [.int width]
    else if alignment = CENTER then
      let valWidth : Int := val.utf8ByteSize
      let left := (wrapInt (width - valWidth)).tdiv 2
      let right := wrapInt (wrapInt (width - valWidth) - left)
      Sprintf "%%%ds%%%ds" [.int (wrapInt (valWidth + left)), .int right]
    else Sprintf "%%-%ds%%s" [.int width]
  Sprintf valFmt [.str val, .str ""]

/-- A string of `n` spaces. -/
def blanks (n : Nat) : String := String.mk (List.replicate n ' ')

/-! ## The picture of a roll (dice_roll.go, Dice.String) -/

/-- Go `const DOT rune = '●'`. -/
def DOT : Char := '●'

/-- The `switch num` of `Dice.String`: the cells `(row, col)` of a die that are
set to `DOT` for the face `num`; no cell for a value that is not a face. -/
def dotCells (num : Nat) : List (Nat × Nat) :=
  match num with
  | 1 => [(1, 1)]
  | 2 => [(0, 0), (2, 2)]
  | 3 => [(0, 0), (1, 1), (2, 2)]
  | 4 => [(0, 0), (0, 2), (2, 0), (2, 2)]
  | 5 => [(0, 0), (0, 2), (1, 1), (2, 0), (2, 2)]
  | 6 => [(0, 0), (0, 2), (1, 0), (1, 2), (2, 0), (2, 2)]
  | _ => []

/-- The array `c` of `Dice.String` after its two loops: `c[die][row][col]` is a
space unless the `switch` on the face of that die set it to `DOT`. -/
def Dice.cell (d : Dice) (die row col : Nat) : Char :=
  if (row, col) ∈ dotCells (if die = 0 then d.d0 else d.d1) then DOT else ' '

/-- Go `func (d Dice) String() string`: the five `Fprintf` calls into the
buffer. -/
def Dice.String (d : Dice) : Option String := do
  let c := fun die row col => Arg.rune (d.cell die row col)
  let l0 ← Sprintf "┌─────────┐ ┌─────────┐\n" []
  let l1 ← Sprintf "│ %c     %c │ │ %c     %c │\n" [c 0 0 0, c 0 0 2, c 1 0 0, c 1 0 2]
  let l2 ← Sprintf "│ %c  %c  %c │ │ %c  %c  %c │\n"
    [c 0 1 0, c 0 1 1, c 0 1 2, c 1 1 0, c 1 1 1, c 1 1 2]
  let l3 ← Sprintf "│ %c     %c │ │ %c     %c │\n" [c 0 2 0, c 0 2 2, c 1 2 0, c 1 2 2]
  let l4 ← Sprintf "└─────────┘ └─────────┘\n" []
  pure (l0 ++ l1 ++ l2 ++ l3 ++ l4)

/-- The lines of a text: a line feed ends a line, and what follows the last
line feed, if anything, is a last line. -/
def textLines : List Char → List (List Char)
  | [] => []
  | c :: rest =>
    if c = '\n' then [] :: textLines rest
    else
      match textLines rest with
      | [] => [[c]]
      | l :: ls => (c :: l) :: ls

/-! ## main.go -/

/-- Go `func addAiAgents(game *game.Game)` of `main.go`: its body is a `TODO`
and adds nobody. -/
def addAiAgents (g : Game) : Game := g

/-- The first loop of `main` over the lines `GetInput("Enter Player Name > ",
false)` delivers: a line `d` or `done` ends it, an empty line is skipped, any
other line is the name of a human player to add (the error of `AddPlayer` only
prints a message).  At end of input the empty string is read for ever and the
loop never ends. -/
def addNamedPlayers : List String → Game → Except Fault (Game × List String)
  | [], _ => .error .diverge
  | line :: rest, g =>
    let input := TrimSpace line
    if input = "d" ∨ input = "D" ∨ input = "done" ∨ input = "Done" ∨ input = "DONE" then
      .ok (g, rest)
    else if input.utf8ByteSize = 0 then addNamedPlayers rest g
    else do
      let (_, g) ← g.AddPlayer (some (NewHumanPlayer input))
      addNamedPlayers rest g

/-- The second loop of `main` over the lines `GetInput("Add AI Agents (y/n) >
", true)` delivers.  At end of input the loop never ends. -/
def askAddAgents : List String → Game → Except Fault (Game × List String)
  | [], _ => .error .diverge
  | line :: rest, g =>
    let input := ToLower (TrimSpace line)
    if input = "no" ∨ input = "n" then .ok (g, rest)
    else if input = "yes" ∨ input = "y" then .ok (addAiAgents g, rest)
    else askAddAgents rest g

/-- Go `func main()`; `seed` and `source` are as in `NewGame`, `fuel` bounds
the rolls of each round.  The result is what `StartGame` returns. -/
def main (source : Int → Rand) (seed : Int) (fuel : Nat) (w : World) :
    Except Fault (Option String × Game × World) := do
  let bankGame := NewGame source seed
  let (bankGame, rest) ← addNamedPlayers w.stdin bankGame
  let (bankGame, rest) ← askAddAgents rest bankGame
  bankGame.StartGame fuel { w with stdin := rest }

/-! ## Agents and kinds of nodes -/

/-- The nodes of `r` are marked as agents or humans as those of `r0` are. -/
def SameKinds (r0 r : results) : Prop :=
  ∀ k, (r.node k).map playerNode.AiAgent = (r0.node k).map playerNode.AiAgent

/-- Name, agent flag and decision method of the players of a roster. -/
def shape (l : List (String × Player)) : List (String × Bool × (GameView → Nat → Bool)) :=
  l.map (fun e => (e.2.Name, e.2.AiAgent, e.2.Bank))

/-- An agent named V that answers true in the rounds with an even index of the
game it is handed. -/
def agentV : Player :=
  { Name := "V", AiAgent := true, Bank := fun v _ => v.currentRound % 2 = 0, calls := 0 }

/-- The game of the agents Z and V, not started, with the generator that rolls
(1, 1) three times and then (2, 5). -/
def gameZV : Game :=
  { NewGame (fun _ => sevenOnFourth) 42 with
    players := [("Z", agentZ), ("V", agentV)],
    results :=
      { players :=
          [("Z", { Name := "Z", AiAgent := true, pts := 0, banked := false, ahead := none,
                   behind := some "V" }),
           ("V", { Name := "V", AiAgent := true, pts := 0, banked := false, ahead := none,
                   behind := none })],
        firstPlayer := some "Z", largestName := 1, humanPlayers := 0, bankedHumanPlayers := 0 } }

/-! ## Texts of fmt for a width it does not read -/

/-- The text fmt gives when it cannot read the width of the first verb:
`%!(NOVERB)` and the two operands listed as left over. -/
def noVerbText (val : String) : String :=
  "%!(NOVERB)%!(EXTRA string=" ++ val ++ ", string=)"

/-- The text fmt gives when it cannot read the width of the second verb, after
the first verb has written `s`. -/
def noSecondVerbText (s : String) : String := s ++ "%!(NOVERB)%!(EXTRA string=)"

/-! ## Lemmas on the node map -/

theorem lookupNode_mem {l : List (String × playerNode)} {k : String} {n : playerNode}
    (h : lookupNode l k = some n) : (k, n) ∈ l := by
  induction l with
  | nil => simp [lookupNode] at h
  | cons e rest ih =>
    obtain ⟨k', n'⟩ := e
    by_cases hk : k' = k
    · simp [lookupNode, hk] at h
      subst h; subst hk; simp
    · simp [lookupNode, hk] at h
      exact List.mem_cons_of_mem _ (ih h)

theorem lookupNode_updateNode (f : playerNode → playerNode) (l : List (String × playerNode))
    (k q : String) :
    lookupNode (updateNode f l k) q
      = if q = k then (lookupNode l k).map f else lookupNode l q := by
  induction l with
  | nil => simp [lookupNode, updateNode]
  | cons e rest ih =>
    obtain ⟨k', n'⟩ := e
    by_cases hk : k' = k
    · subst hk
      by_cases hq : q = k'
      · subst hq; simp [lookupNode, updateNode]
      · have hq' : ¬ k' = q := fun h => hq h.symm
        simp [lookupNode, updateNode, hq, hq']
    · by_cases hq : q = k
      · subst hq
        simp [lookupNode, updateNode, hk, ih]
      · by_cases hq' : k' = q
        · simp [lookupNode, updateNode, hk, hq, hq']
        · simp [lookupNode, updateNode, hk, hq, hq', ih]

theorem mem_updateNode {f : playerNode → playerNode} {l : List (String × playerNode)}
    {k : String} {e : String × playerNode} (h : e ∈ updateNode f l k) :
    e ∈ l ∨ ∃ n, (e.1, n) ∈ l ∧ e.2 = f n := by
  induction l with
  | nil => simp [updateNode] at h
  | cons e' rest ih =>
    obtain ⟨k', n'⟩ := e'
    by_cases hk : k' = k
    · simp [updateNode, hk] at h
      rcases h with h | h
      · right; exact ⟨n', by subst h; simp [hk], by subst h; rfl⟩
      · left; exact List.mem_cons_of_mem _ h
    · simp [updateNode, hk] at h
      rcases h with h | h
      · left; subst h; simp
      · rcases ih h with h' | ⟨n, hn, he⟩
        · left; exact List.mem_cons_of_mem _ h'
        · right; exact ⟨n, List.mem_cons_of_mem _ hn, he⟩

theorem NoAhead.set {r : results} (h : NoAhead r) (k : String) (f : playerNode → playerNode)
    (hf : ∀ n, (f n).ahead = n.ahead) : NoAhead (r.set k f) := by
  intro e he
  rcases mem_updateNode he with h' | ⟨n, hn, hfe⟩
  · exact h e h'
  · rw [hfe, hf]; exact h (e.1, n) hn

theorem walkAhead_none (r : results) (pts fuel : Nat) : walkAhead r pts fuel none = .ok none := by
  cases fuel <;> rfl

theorem playerBanks_of_noAhead (r : results) (p : Player) (pts : Nat) (n : playerNode)
    (hn : r.node p.Name = some n) (hinv : NoAhead r) :
    r.playerBanks p pts = .ok (bankedResults r p.Name pts n.AiAgent,
      (bankedResults r p.Name pts n.AiAgent).humanPlayers
        == (bankedResults r p.Name pts n.AiAgent).bankedHumanPlayers) := by
  have hah : n.ahead = none := hinv (p.Name, n) (lookupNode_mem hn)
  have hnode : lookupNode r.players p.Name = some n := hn
  unfold results.playerBanks
  cases hai : n.AiAgent <;>
    simp [results.deref, results.node, results.set, hnode, lookupNode_updateNode, hah,
      walkAhead_none, bind, Except.bind, pure, Except.pure, bankedResults, hai]


theorem NoAhead.bankedResults {r : results} (h : NoAhead r) (key : String) (pts : Nat)
    (ai : Bool) : NoAhead (bankedResults r key pts ai) := by
  have h1 := NoAhead.set h key (fun n => { n with pts := (n.pts + pts) % UINT_MOD })
    (fun _ => rfl)
  have h2 := NoAhead.set h1 key (fun n => { n with banked := true }) (fun _ => rfl)
  cases ai
  · exact h2
  · exact h2

theorem addPlayer_players {r r' : results} {p : Player} (hadd : r.addPlayer p = .ok r') :
    r'.players = r.players ∨ r'.players = r.players ++ [(p.Name, freshNode p)] ∨
    ∃ last, r'.players = updateNode (fun n => { n with behind := some p.Name })
      (r.players ++ [(p.Name, freshNode p)]) last := by
  unfold results.addPlayer at hadd
  cases hnode : r.node p.Name with
  | some n =>
    simp [hnode] at hadd
    subst hadd; exact Or.inl rfl
  | none =>
    right
    simp only [hnode] at hadd
    by_cases hl : r.largestName < (p.Name.utf8ByteSize : Int) <;>
    cases hai : p.AiAgent <;>
    cases hfirst : r.firstPlayer <;>
    simp [hl, hai, hfirst, bind, Except.bind] at hadd
    all_goals first
      | (subst hadd; left; simp [freshNode, hai])
      | (split at hadd
         · simp at hadd
         · simp at hadd
           subst hadd
           right
           simp [results.set, freshNode, hai])

theorem NoAhead.addPlayer {r r' : results} (h : NoAhead r) (p : Player)
    (hadd : r.addPlayer p = .ok r') : NoAhead r' := by
  have hbase : ∀ e ∈ r.players ++ [(p.Name, freshNode p)], e.2.ahead = none := by
    intro e he
    rcases List.mem_append.mp he with h1 | h1
    · exact h e h1
    · simp at h1; subst h1; rfl
  intro e he
  rcases addPlayer_players hadd with h1 | h1 | ⟨last, h1⟩
  · rw [h1] at he; exact h e he
  · rw [h1] at he; exact hbase e he
  · rw [h1] at he
    rcases mem_updateNode he with h2 | ⟨n, hn, hfe⟩
    · exact hbase e h2
    · rw [hfe]; exact hbase (e.1, n) hn

theorem NoAhead.unbankLoop (fuel : Nat) : ∀ (r r' : results) (cur : Option String),
    NoAhead r → unbankLoop fuel r cur = .ok r' → NoAhead r' := by
  induction fuel with
  | zero =>
    intro r r' cur h hrun
    cases cur with
    | none => simp [game.unbankLoop] at hrun; subst hrun; exact h
    | some k => simp [game.unbankLoop] at hrun
  | succ fuel ih =>
    intro r r' cur h hrun
    cases cur with
    | none => simp [game.unbankLoop] at hrun; subst hrun; exact h
    | some k =>
      simp only [game.unbankLoop] at hrun
      cases hnode : r.node k with
      | none => simp [hnode] at hrun
      | some n =>
        simp only [hnode] at hrun
        exact ih _ _ _ (NoAhead.set h k (fun m => { m with banked := false }) (fun _ => rfl)) hrun

theorem Built.noAhead {r : results} (h : Built r) : NoAhead r := by
  induction h with
  | new => intro e he; simp [results.new] at he
  | add p _ hadd ih => exact ih.addPlayer p hadd
  | @bank r r' p pts b _ hbank ih =>
    cases hnode : r.node p.Name with
    | none => simp [results.playerBanks, results.deref, hnode, bind, Except.bind] at hbank
    | some n =>
      rw [playerBanks_of_noAhead r p pts n hnode ih] at hbank
      simp at hbank
      rw [← hbank.1]
      exact ih.bankedResults _ _ _
  | @unbank r r' _ hun ih =>
    unfold results.unbankAllPlayers at hun
    exact NoAhead.unbankLoop _ { r with bankedHumanPlayers := 0 } _ _ (fun e he => ih e he) hun


/-! ## Faults and budgets

No function of results.go fails for want of budget, and the budget
`stdin.length + 1` of the prompt loop always suffices. -/

theorem promptFrom_length (lines : List String) :
    (promptFrom lines).2.length < lines.length ∨
      (lines = [] ∧ promptFrom lines = (.ROLL_DICE, [])) := by
  induction lines with
  | nil => right; exact ⟨rfl, rfl⟩
  | cons line rest ih =>
    left
    have hrest : (promptFrom rest).2.length < (line :: rest).length := by
      rcases ih with h | ⟨h, h'⟩
      · exact Nat.lt_succ_of_lt h
      · subst h; rw [h']; simp
    simp only [promptFrom]
    split_ifs <;> first | exact hrest | simp

theorem bankingLoop_length (playerMap : List String) (posPlayerMap : List (String × String)) :
    ∀ (lines acc out rest : List String),
      bankingLoop playerMap posPlayerMap acc lines = .ok (out, rest) →
      rest.length < lines.length := by
  intro lines
  induction lines with
  | nil => intro acc out rest h; simp [bankingLoop] at h
  | cons line tail ih =>
    intro acc out rest h
    simp only [bankingLoop] at h
    split_ifs at h
    · exact Nat.lt_succ_of_lt (ih _ _ _ h)
    · exact Nat.lt_succ_of_lt (ih _ _ _ h)
    · simp only [Except.ok.injEq, Prod.mk.injEq] at h
      rw [← h.2]; simp
    · exact Nat.lt_succ_of_lt (ih _ _ _ h)

theorem bankingLoop_fault (playerMap : List String) (posPlayerMap : List (String × String)) :
    ∀ (lines acc : List String),
      bankingLoop playerMap posPlayerMap acc lines ≠ .error .fuel := by
  intro lines
  induction lines with
  | nil => intro acc; simp [bankingLoop]
  | cons line tail ih =>
    intro acc
    simp only [bankingLoop]
    split_ifs
    · exact ih _
    · exact ih _
    · simp
    · exact ih _

theorem noFuel_bind {α β : Type} {x : Except Fault α} {f : α → Except Fault β}
    (hx : x ≠ .error .fuel) (hf : ∀ a, f a ≠ .error .fuel) : (x >>= f) ≠ .error .fuel := by
  cases x with
  | error e => simpa [bind, Except.bind] using hx
  | ok a => simpa [bind, Except.bind] using hf a

theorem deref_noFuel (r : results) (k : Option String) : r.deref k ≠ .error .fuel := by
  cases k with
  | none => simp [results.deref]
  | some key =>
    simp only [results.deref]
    cases r.node key <;> simp

theorem nonNil_noFuel (k : Option String) : nonNil k ≠ .error .fuel := by
  cases k <;> simp [nonNil]

theorem walkAhead_noFuel (r : results) (pts : Nat) :
    ∀ (fuel : Nat) (k : Option String), walkAhead r pts fuel k ≠ .error .fuel := by
  intro fuel
  induction fuel with
  | zero => intro k; cases k <;> simp [walkAhead]
  | succ fuel ih =>
    intro k
    cases k with
    | none => simp [walkAhead]
    | some key =>
      simp only [walkAhead]
      cases r.node key with
      | none => simp
      | some n =>
        simp only
        split_ifs
        · exact ih _
        · simp

theorem traverse_noFuel (r : results) :
    ∀ (fuel : Nat) (k : Option String), traverse r fuel k ≠ .error .fuel := by
  intro fuel
  induction fuel with
  | zero => intro k; cases k <;> simp [traverse]
  | succ fuel ih =>
    intro k
    cases k with
    | none => simp [traverse]
    | some key =>
      simp only [traverse]
      cases r.node key with
      | none => simp
      | some n => exact noFuel_bind (ih _) (fun _ => by simp [pure, Except.pure, bind, Except.bind])

theorem playerBanks_noFuel (r : results) (p : Player) (pts : Nat) :
    r.playerBanks p pts ≠ .error .fuel := by
  unfold results.playerBanks
  refine noFuel_bind (deref_noFuel _ _) (fun pn => ?_)
  refine noFuel_bind (deref_noFuel _ _) (fun pn' => ?_)
  refine noFuel_bind (walkAhead_noFuel _ _ _ _) (fun pa => ?_)
  dsimp only
  by_cases hmove : pa ≠ pn'.ahead
  · rw [if_pos hmove]
    refine noFuel_bind (deref_noFuel _ _) (fun _ => ?_)
    refine noFuel_bind (nonNil_noFuel _) (fun _ => ?_)
    refine noFuel_bind (deref_noFuel _ _) (fun _ => ?_)
    refine noFuel_bind (nonNil_noFuel _) (fun _ => ?_)
    cases pa with
    | none =>
      exact noFuel_bind (nonNil_noFuel _) (fun _ => by simp [pure, Except.pure, bind, Except.bind])
    | some k =>
      refine noFuel_bind (deref_noFuel _ _) (fun _ => ?_)
      refine noFuel_bind (deref_noFuel _ _) (fun _ => ?_)
      exact noFuel_bind (nonNil_noFuel _) (fun _ => by simp [pure, Except.pure, bind, Except.bind])
  · rw [if_neg hmove]
    simp [pure, Except.pure, bind, Except.bind]

theorem standings_noFuel (r : results) : r.standings ≠ .error .fuel :=
  traverse_noFuel r _ _

theorem getUnbankedPlayers_noFuel (r : results) : r.getUnbankedPlayers ≠ .error .fuel :=
  noFuel_bind (standings_noFuel r) (fun _ => by simp [pure, Except.pure, bind, Except.bind])

theorem askOne_noFuel (g : Game) (w : World) (player : Player) :
    g.askOne w player ≠ .error .fuel := by
  unfold Game.askOne
  split_ifs
  · refine noFuel_bind (noFuel_bind (deref_noFuel _ _) (fun _ => by simp [pure, Except.pure, bind, Except.bind]))
      (fun banked => ?_)
    split_ifs
    · refine noFuel_bind ?_ (fun rd => ?_)
      · unfold indexRound; split <;> simp
      · exact noFuel_bind (playerBanks_noFuel _ _ _) (fun _ => by simp [pure, Except.pure, bind, Except.bind])
    · simp [pure, Except.pure, bind, Except.bind]
  · simp [pure, Except.pure, bind, Except.bind]

theorem askOne_stdin (g g' : Game) (w w' : World) (player : Player)
    (h : g.askOne w player = .ok (g', w')) : w'.stdin = w.stdin := by
  unfold Game.askOne at h
  split_ifs at h
  · simp only [bind, Except.bind, pure, Except.pure] at h
    repeat' split at h
    all_goals first
      | (simp at h; done)
      | (simp only [Except.ok.injEq, Prod.mk.injEq] at h; rw [← h.2]; rfl)
      | (simp only [Except.ok.injEq, Prod.mk.injEq] at h; rw [← h.2])
  · simp only [pure, Except.pure, Except.ok.injEq, Prod.mk.injEq] at h
    rw [← h.2]

theorem askEach_noFuel : ∀ (entries : List (String × Player)) (g : Game) (w : World),
    Game.askEach entries g w ≠ .error .fuel := by
  intro entries
  induction entries with
  | nil => intro g w; simp [Game.askEach]
  | cons e rest ih =>
    intro g w
    obtain ⟨k, player⟩ := e
    simp only [Game.askEach]
    exact noFuel_bind (askOne_noFuel _ _ _) (fun a => ih _ _)

theorem askEach_stdin : ∀ (entries : List (String × Player)) (g g' : Game) (w w' : World),
    Game.askEach entries g w = .ok (g', w') → w'.stdin = w.stdin := by
  intro entries
  induction entries with
  | nil =>
    intro g g' w w' h
    simp only [Game.askEach, Except.ok.injEq, Prod.mk.injEq] at h
    rw [← h.2]
  | cons e rest ih =>
    intro g g' w w' h
    obtain ⟨k, player⟩ := e
    simp only [Game.askEach, bind, Except.bind] at h
    cases hone : g.askOne w player with
    | error e => simp [hone] at h
    | ok a =>
      obtain ⟨g1, w1⟩ := a
      simp only [hone] at h
      rw [ih _ _ _ _ h, askOne_stdin _ _ _ _ _ hone]

theorem askAiAgentsToBank_noFuel (g : Game) (w : World) :
    g.askAiAgentsToBank w ≠ .error .fuel := askEach_noFuel _ _ _

theorem askAiAgentsToBank_stdin (g g' : Game) (w w' : World)
    (h : g.askAiAgentsToBank w = .ok (g', w')) : w'.stdin = w.stdin := by
  unfold Game.askAiAgentsToBank World.range at h
  exact askEach_stdin _ _ _ { w with ranged := w.ranged + 1 } _ h

theorem bankEach_noFuel (pts : Nat) : ∀ (names : List String) (g : Game) (kp : Bool),
    Game.bankEach pts names g kp ≠ .error .fuel := by
  intro names
  induction names with
  | nil => intro g kp; simp [Game.bankEach]
  | cons name rest ih =>
    intro g kp
    simp only [Game.bankEach]
    split
    · simp
    · exact noFuel_bind (playerBanks_noFuel _ _ _) (fun _ => ih _ _)


theorem getBankingPlayers_noFuel (players : List playerNode) (w : World) :
    getBankingPlayers players w ≠ .error .fuel := by
  unfold getBankingPlayers
  exact noFuel_bind (bankingLoop_fault _ _ _ _)
    (fun _ => by simp [pure, Except.pure, bind, Except.bind])

theorem getBankingPlayers_stdin (players : List playerNode) (w w' : World) (out : List String)
    (h : getBankingPlayers players w = .ok (out, w')) : w'.stdin.length < w.stdin.length := by
  unfold getBankingPlayers at h
  simp only [bind, Except.bind, pure, Except.pure] at h
  split at h
  · simp at h
  · rename_i v hv
    simp only [Except.ok.injEq, Prod.mk.injEq] at h
    rw [← h.2]
    exact bankingLoop_length _ _ _ _ _ _ hv

/-- The budget `stdin.length + 1` of the prompt loop is never used up. -/
theorem promptLoop_noFuel (rd : round) : ∀ (fuel : Nat) (g : Game) (w : World),
    w.stdin.length < fuel → Game.promptLoop rd fuel g w ≠ .error .fuel := by
  intro fuel
  induction fuel with
  | zero => intro g w h; omega
  | succ fuel ih =>
    intro g w hlen
    have hp := promptFrom_length w.stdin
    simp only [Game.promptLoop, prompt]
    cases hreq : promptFrom w.stdin with
    | mk req rest =>
      rw [hreq] at hp
      have hrest : req = .ROLL_DICE ∨ rest.length < fuel := by
        rcases hp with h | ⟨_, h⟩
        · right; simp only at h; omega
        · left; simp only [Prod.mk.injEq] at h; exact h.1
      cases req with
      | ROLL_DICE => simp
      | PRINT_POINTS =>
        have hlt : rest.length < fuel := by
          rcases hrest with h | h
          · cases h
          · exact h
        exact noFuel_bind (standings_noFuel _) (fun rows => ih _ _ (by simpa [World.print] using hlt))
      | PLAYERS_BANK =>
        have hlt : rest.length < fuel := by
          rcases hrest with h | h
          · cases h
          · exact h
        refine noFuel_bind (getUnbankedPlayers_noFuel _) (fun unbanked => ?_)
        simp only [bind, Except.bind]
        cases hb : getBankingPlayers unbanked { w with stdin := rest } with
        | error e =>
          intro h
          simp only [Except.error.injEq] at h
          exact getBankingPlayers_noFuel _ _ (h ▸ hb)
        | ok a =>
          obtain ⟨names, w1⟩ := a
          have h1 : w1.stdin.length < rest.length := getBankingPlayers_stdin _ _ _ _ hb
          simp only
          cases hbank : Game.bankEach rd.points names g true with
          | error e =>
            intro h
            simp only [Except.error.injEq] at h
            exact bankEach_noFuel _ _ _ _ (h ▸ hbank)
          | ok a2 =>
            obtain ⟨g2, kp⟩ := a2
            simp only
            by_cases hlen2 : names.length > 0
            · simp only [hlen2, if_true]
              cases hask : g2.askAiAgentsToBank w1 with
              | error e =>
                intro h
                simp only [Except.error.injEq] at h
                exact askAiAgentsToBank_noFuel _ _ (h ▸ hask)
              | ok a3 =>
                obtain ⟨g3, w3⟩ := a3
                have h3 := askAiAgentsToBank_stdin _ _ _ _ hask
                simp only
                cases kp with
                | true => simp only [if_true]; exact ih _ _ (by rw [h3]; omega)
                | false => simp [pure, Except.pure]
            · simp only [hlen2, if_false, pure, Except.pure]
              cases kp with
              | true => simp only [if_true]; exact ih _ _ (by omega)
              | false => simp

/-! ## Scoring (dice_roll.go) -/

theorem UINT_MOD_eq : UINT_MOD = 18446744073709551616 := by
  norm_num [UINT_MOD]

/-- C1: for dice with both faces in 1..6 and a running total `p` that does not
overflow `uint`, `Dice.Points` returns the row of the scoring table, for every
roll number `n` (so for every `n ≥ 1`): `(p + 70, true)` if `n ≤ 3` and the
face sum is 7; `(p + d0 + d1, true)` if `n ≤ 3` and the face sum is not 7;
`(0, false)` if `n ≥ 4` and the face sum is 7; `(2 * p, true)` if `n ≥ 4` and
`d0 = d1`; `(p + d0 + d1, true)` otherwise. -/
theorem Points_matches_table (d : Dice) (n : Int) (p : Nat)
    (h0 : 1 ≤ d.d0 ∧ d.d0 ≤ 6) (h1 : 1 ≤ d.d1 ∧ d.d1 ≤ 6)
    (hadd : p + 70 < UINT_MOD) (hdbl : 2 * p < UINT_MOD) :
    (n ≤ 3 → d.d0 + d.d1 = 7 → d.Points n p = (p + 70, true)) ∧
    (n ≤ 3 → d.d0 + d.d1 ≠ 7 → d.Points n p = (p + d.d0 + d.d1, true)) ∧
    (4 ≤ n → d.d0 + d.d1 = 7 → d.Points n p = (0, false)) ∧
    (4 ≤ n → d.d0 = d.d1 → d.Points n p = (2 * p, true)) ∧
    (4 ≤ n → d.d0 + d.d1 ≠ 7 → d.d0 ≠ d.d1 → d.Points n p = (p + d.d0 + d.d1, true)) := by
  obtain ⟨a, b⟩ := d
  obtain ⟨ha1, ha6⟩ := h0
  obtain ⟨hb1, hb6⟩ := h1
  rw [UINT_MOD_eq] at hadd hdbl
  simp only at ha1 ha6 hb1 hb6
  have hsum : (a + b) % 256 = a + b := Nat.mod_eq_of_lt (by omega)
  refine ⟨?_, ?_, ?_, ?_, ?_⟩
  · intro hn hs
    simp only [Dice.Points, hsum, UINT_MOD_eq, hn, hs, if_true]
    simp only [Prod.mk.injEq, and_true]
    omega
  · intro hn hs
    simp only [Dice.Points, hsum, UINT_MOD_eq, hn, hs, if_true, if_false]
    simp only [Prod.mk.injEq, and_true]
    omega
  · intro hn hs
    have hn' : ¬ n ≤ 3 := by omega
    simp only [Dice.Points, hsum, hn', hs, if_true, if_false]
  · intro hn he
    have hn' : ¬ n ≤ 3 := by omega
    simp only at he
    subst he
    have hs : ¬ a + a = 7 := by omega
    simp only [Dice.Points, hsum, UINT_MOD_eq, hn', hs, if_true, if_false]
    simp only [Prod.mk.injEq, and_true]
    omega
  · intro hn hs he
    have hn' : ¬ n ≤ 3 := by omega
    simp only at he hs
    simp only [Dice.Points, hsum, UINT_MOD_eq, hn', hs, he, if_true, if_false]
    simp only [Prod.mk.injEq, and_true]
    omega

theorem Points_matches_table_witness :
    ((1 ≤ (3 : Nat) ∧ (3 : Nat) ≤ 6) ∧ (1 ≤ (4 : Nat) ∧ (4 : Nat) ≤ 6) ∧
      10 + 70 < UINT_MOD ∧ 2 * 10 < UINT_MOD) ∧
    ((⟨3, 4⟩ : Dice).Points 4 10 = (0, false) ∧ (⟨3, 4⟩ : Dice).Points 2 10 = (80, true)) :=
  ⟨⟨by decide, by decide, by decide, by decide⟩,
   ⟨(Points_matches_table ⟨3, 4⟩ 4 10 (by decide) (by decide) (by decide) (by decide)).2.2.1
      (by decide) (by decide),
    (Points_matches_table ⟨3, 4⟩ 2 10 (by decide) (by decide) (by decide) (by decide)).1
      (by decide) (by decide)⟩⟩

/-! ## Standings (results.go) -/

/-- On standings built by the operations of results.go, `playerBanks` relinks
nothing: the leader and every `ahead` and `behind` link stay as they were. -/
theorem playerBanks_keeps_links {r r' : results} (hr : Built r) (p : Player) (pts : Nat)
    (b : Bool) (hbank : r.playerBanks p pts = .ok (r', b)) :
    r'.firstPlayer = r.firstPlayer ∧
    ∀ q, (r'.node q).map (fun m => (m.ahead, m.behind))
      = (r.node q).map (fun m => (m.ahead, m.behind)) := by
  cases hnode : r.node p.Name with
  | none => simp [results.playerBanks, results.deref, hnode, bind, Except.bind] at hbank
  | some n =>
    rw [playerBanks_of_noAhead r p pts n hnode hr.noAhead] at hbank
    simp only [Except.ok.injEq, Prod.mk.injEq] at hbank
    rw [← hbank.1]
    constructor
    · cases n.AiAgent <;> rfl
    · intro q
      have hnode' : lookupNode r.players p.Name = some n := hnode
      by_cases hq : q = p.Name
      · cases hai : n.AiAgent <;>
          simp [bankedResults, results.node, results.set, lookupNode_updateNode, hq, hnode']
      · cases hai : n.AiAgent <;>
          simp [bankedResults, results.node, results.set, lookupNode_updateNode, hq]

/-- C5: on standings built by Add, Bank and UnbankAll, `playerBanks` for an
added participant `p` returns, adds exactly `pts` to the cumulative points of
`p` (when the sum does not overflow `uint`), sets the banked flag of `p`, and
leaves the cumulative points and the banked flag of every other participant
as they were. -/
theorem playerBanks_awards_and_frames {r : results} (hr : Built r) (p : Player) (pts : Nat)
    (n : playerNode) (hn : r.node p.Name = some n) (hov : n.pts + pts < UINT_MOD) :
    ∃ r' b, r.playerBanks p pts = .ok (r', b) ∧
      (∃ n', r'.node p.Name = some n' ∧ n'.pts = n.pts + pts ∧ n'.banked = true) ∧
      ∀ q, q ≠ p.Name →
        (r'.node q).map (fun m => (m.pts, m.banked))
          = (r.node q).map (fun m => (m.pts, m.banked)) := by
  have hnode : lookupNode r.players p.Name = some n := hn
  refine ⟨_, _, playerBanks_of_noAhead r p pts n hn hr.noAhead, ?_, ?_⟩
  · refine ⟨{ n with pts := n.pts + pts, banked := true }, ?_, rfl, rfl⟩
    cases hai : n.AiAgent <;>
      simp [bankedResults, results.node, results.set, lookupNode_updateNode, hnode,
        Nat.mod_eq_of_lt hov, hai]
  · intro q hq
    cases hai : n.AiAgent <;>
      simp [bankedResults, results.node, results.set, lookupNode_updateNode, hq]

theorem built_standingsAB : Built standingsAB :=
  Built.add playerB (Built.add playerA Built.new rfl) rfl

theorem playerBanks_awards_and_frames_witness :
    (Built standingsAB ∧
      standingsAB.node playerB.Name = some ⟨"B", false, 0, false, none, none⟩ ∧
      0 + 10 < UINT_MOD) ∧
    ∃ r' b, standingsAB.playerBanks playerB 10 = .ok (r', b) ∧
      (∃ n', r'.node playerB.Name = some n' ∧ n'.pts = 0 + 10 ∧ n'.banked = true) ∧
      ∀ q, q ≠ playerB.Name →
        (r'.node q).map (fun m => (m.pts, m.banked))
          = (standingsAB.node q).map (fun m => (m.pts, m.banked)) :=
  ⟨⟨built_standingsAB, rfl, by decide⟩,
   playerBanks_awards_and_frames built_standingsAB playerB 10 _ rfl (by decide)⟩

/-- C2 (defect of the code): after Add A, Add B and Bank(B, 10) the traversal
from the leader along `behind` reads A with 0 points and then B with 10
points, which is increasing: `addPlayer` never sets `ahead`, so `playerBanks`
finds nobody ahead of the banker and never moves it. -/
theorem bank_leaves_standings_unsorted :
    (do let r ← results.new.addPlayer playerA
        let r ← r.addPlayer playerB
        let (r, _) ← r.playerBanks playerB 10
        r.table) = .ok [("A", 0), ("B", 10)] := by decide

/-- C4 (defect of the code): after Add A, Add B, Add C and Bank(C, 5) nobody
ahead of C has 5 points or more, yet the leader is still A and C is still
last; and after Add A, Add B, Bank(B, 5), Bank(A, 5) the later banker A, who
reached the total of the earlier banker B, stands ahead of B. -/
theorem bank_does_not_move_banker :
    (do let r ← results.new.addPlayer playerA
        let r ← r.addPlayer playerB
        let r ← r.addPlayer playerC
        let (r, _) ← r.playerBanks playerC 5
        let rows ← r.table
        pure (r.firstPlayer, rows)) = .ok (some "A", [("A", 0), ("B", 0), ("C", 5)]) ∧
    (do let r ← results.new.addPlayer playerA
        let r ← r.addPlayer playerB
        let (r, _) ← r.playerBanks playerB 5
        let (r, _) ← r.playerBanks playerA 5
        r.table) = .ok [("A", 5), ("B", 5)] := by decide

/-- C6 (defect of the code): with the humans A and B added, the second of two
calls Bank(A, 5) returns true although B has not banked (one banked human of
two, counter at 2); and a third call, Bank(B, 5), returns false although now
every human has banked (counter at 3). -/
theorem bank_twice_miscounts_humans :
    (do let r ← results.new.addPlayer playerA
        let r ← r.addPlayer playerB
        let (r, _) ← r.playerBanks playerA 5
        let (r, all) ← r.playerBanks playerA 5
        let flags ← r.flags
        pure (all, flags, r.humanPlayers, r.bankedHumanPlayers))
      = .ok (true, [("A", true), ("B", false)], 2, 2) ∧
    (do let r ← results.new.addPlayer playerA
        let r ← r.addPlayer playerB
        let (r, _) ← r.playerBanks playerA 5
        let (r, _) ← r.playerBanks playerA 5
        let (r, all) ← r.playerBanks playerB 5
        let flags ← r.flags
        pure (all, flags, r.humanPlayers, r.bankedHumanPlayers))
      = .ok (false, [("A", true), ("B", true)], 2, 3) := by decide

/-! ## Rounds and games (game.go) -/

set_option maxRecDepth 100000 in
/-- C3 (defect of the code): a game of the humans A and B in which B banks 2
points in round 1 and A never banks runs its 20 rounds and ends with A at 0
and B at 2 points, and the winner announced is A, the first player added. -/
theorem StartGame_announces_first_added :
    (do let g ← gameWith sevenOnFourth [playerA, playerB]
        let (err, g, w) ← g.StartGame 4 (terminal ["b", "B", "d"])
        let rows ← g.results.table
        pure (err, g.currentRound, rows, w.stdout.getLast?))
      = .ok (none, 20, [("A", 0), ("B", 2)], some (Event.winner "A")) := by decide

/-- C7 (defect of the code): in a round of the single human A whose first roll
brings the running points to 2, the bank sub-prompt given the name A twice
banks A twice: the round ends with A at 4 points while the running points
were 2 throughout. -/
theorem name_entered_twice_banks_twice :
    (do let g ← gameWith allOnes [playerA]
        let (g, w) ← Game.startRound 1 { g with started := true }
          (terminal ["b", "A", "A", "d"])
        let rows ← g.results.table
        pure (rows, w.stdout))
      = .ok ([("A", 4)],
          [.startingRound 1, .dice ⟨1, 1⟩, .currentPoints 2, .rollNumber 1, .roundDone 1]) := by
  decide

/-- C8 (defect of the code): in a round of the agent Z, who answers true, and
the human A, the first roll brings the running points to 2 ("Current Points:
2"); Z is banked at that moment and receives 0 points, while A, banking at
the same running points, receives 2. -/
theorem agent_banks_zero_points :
    (do let g ← gameWith allOnes [agentZ, playerA]
        let (g, w) ← Game.startRound 1 { g with started := true }
          (terminal ["b", "A", "d"])
        let rows ← g.results.table
        pure (rows, w.stdout))
      = .ok ([("Z", 0), ("A", 2)],
          [.startingRound 1, .dice ⟨1, 1⟩, .currentPoints 2, .rollNumber 1, .agentBanked "Z",
           .roundDone 1]) := by
  decide

/-- `GetData` cannot return while the stored round has no rolls. -/
theorem GetData_fails_without_rolls (g : Game) (order : List (String × Player))
    (requestor : Player) (rd : round) (hrd : indexRound g.rounds g.currentRound = .ok rd)
    (hrolls : rd.rolls = []) (snap : BankDataSnapshot) :
    g.GetData order requestor ≠ .ok snap := by
  unfold Game.GetData
  rw [hrd]
  cases hdata : g.playerData order requestor <;>
    simp [bind, Except.bind, hdata, hrolls]

/-- C9 (defect of the code): in round 1 of a game of the agent Z and the human
A, after the first roll the round of the driver holds 2 points and one roll,
the round stored in the game still holds 0 points and no roll, and
`GetData(Z)` panics. -/
theorem GetData_panics_after_first_roll :
    (do let g ← gameWith allOnes [agentZ, playerA]
        let g := { g with started := true }
        let rd ← indexRound g.rounds g.currentRound
        let (_, rd, g) := g.roll rd
        let stored ← indexRound g.rounds g.currentRound
        pure (rd, stored, g.GetData g.players agentZ))
      = .ok ({ points := 2, rolls := [⟨1, 1⟩] }, { points := 0, rolls := [] },
          .error .panic) := by
  decide

/-- C10 (defect of the code): for the roster Z, A, B and the requestor Z the
slice `playerData` that `GetData` builds holds four records, not two: two
zero records with the empty name, then the records of A and B. -/
theorem playerData_has_zero_records :
    (do let g ← gameWith allOnes [agentZ, playerA, playerB]
        g.playerData g.players agentZ)
      = .ok [⟨"", 0, false⟩, ⟨"", 0, false⟩, ⟨"A", 0, false⟩, ⟨"B", 0, false⟩] := by
  decide

/-! ## Well linked standings (results.go) -/

theorem lookupNode_append_of_not_mem (pre l : List (String × playerNode)) (k : String)
    (hk : k ∉ pre.map Prod.fst) : lookupNode (pre ++ l) k = lookupNode l k := by
  induction pre with
  | nil => rfl
  | cons e pre ih =>
    obtain ⟨k', n'⟩ := e
    simp only [List.map_cons, List.mem_cons, not_or] at hk
    have hne : ¬ k' = k := fun h => hk.1 h.symm
    simp [lookupNode, hne, ih hk.2]

theorem updateNode_append_of_not_mem (f : playerNode → playerNode)
    (pre l : List (String × playerNode)) (k : String) (hk : k ∉ pre.map Prod.fst) :
    updateNode f (pre ++ l) k = pre ++ updateNode f l k := by
  induction pre with
  | nil => rfl
  | cons e pre ih =>
    obtain ⟨k', n'⟩ := e
    simp only [List.map_cons, List.mem_cons, not_or] at hk
    have hne : ¬ k' = k := fun h => hk.1 h.symm
    simp [updateNode, hne, ih hk.2]

theorem keys_updateNode (f : playerNode → playerNode) (l : List (String × playerNode))
    (k : String) : (updateNode f l k).map Prod.fst = l.map Prod.fst := by
  induction l with
  | nil => rfl
  | cons e rest ih =>
    obtain ⟨k', n'⟩ := e
    by_cases hk : k' = k <;> simp [updateNode, hk, ih]

theorem lookupNode_eq_none {l : List (String × playerNode)} {k : String} :
    lookupNode l k = none ↔ k ∉ l.map Prod.fst := by
  induction l with
  | nil => simp [lookupNode]
  | cons e rest ih =>
    obtain ⟨k', n'⟩ := e
    by_cases hk : k' = k
    · simp [lookupNode, hk]
    · have hk' : ¬ k = k' := fun h => hk h.symm
      simp [lookupNode, hk, hk', ih]

theorem head_keys (l : List (String × playerNode)) :
    l.head?.map Prod.fst = (l.map Prod.fst).head? := by
  cases l <;> rfl

theorem chained_updateNode (f : playerNode → playerNode) (hf : ∀ n, (f n).behind = n.behind)
    (k : String) : ∀ l : List (String × playerNode), chained l → chained (updateNode f l k) := by
  intro l
  induction l with
  | nil => intro h; exact h
  | cons e rest ih =>
    intro h
    obtain ⟨k', n'⟩ := e
    by_cases hk : k' = k
    · simp only [updateNode, hk, if_true]
      exact ⟨by rw [hf]; exact h.1, h.2⟩
    · simp only [updateNode, hk, if_false]
      refine ⟨?_, ih h.2⟩
      rw [head_keys, keys_updateNode, ← head_keys]
      exact h.1

theorem traverse_none (r : results) (fuel : Nat) : traverse r fuel none = .ok [] := by
  cases fuel <;> rfl

theorem unbankLoop_none (r : results) (fuel : Nat) : unbankLoop fuel r none = .ok r := by
  cases fuel <;> rfl

theorem traverse_chain (r : results) (hnd : (r.players.map Prod.fst).Nodup) :
    ∀ (suf pre : List (String × playerNode)) (fuel : Nat),
      r.players = pre ++ suf → chained suf → suf.length ≤ fuel →
      traverse r fuel (suf.head?.map Prod.fst) = .ok (suf.map Prod.snd) := by
  intro suf
  induction suf with
  | nil => intro pre fuel _ _ _; exact traverse_none r fuel
  | cons e rest ih =>
    intro pre fuel hpl hch hlen
    obtain ⟨k, n⟩ := e
    cases fuel with
    | zero => simp at hlen
    | succ fuel =>
      have hk : k ∉ pre.map Prod.fst := by
        rw [hpl, List.map_append, List.nodup_append] at hnd
        intro hmem
        exact hnd.2.2 hmem (by simp)
      have hnode : r.node k = some n := by
        simp [results.node, hpl, lookupNode_append_of_not_mem _ _ _ hk, lookupNode]
      have hrest := ih (pre ++ [(k, n)]) fuel (by simp [hpl]) hch.2
        (by simp only [List.length_cons] at hlen; omega)
      simp only [List.head?_cons, Option.map_some', traverse, hnode]
      rw [hch.1, hrest]
      rfl

theorem WellLinked.standings {r : results} (h : WellLinked r) :
    r.standings = .ok (r.players.map Prod.snd) := by
  unfold results.standings
  rw [h.first]
  exact traverse_chain r h.nodup r.players [] _ rfl h.chain (Nat.le_refl _)

theorem unbankLoop_chain : ∀ (suf pre : List (String × playerNode)) (fuel : Nat) (r : results),
    r.players = pre ++ suf → (r.players.map Prod.fst).Nodup → chained suf → suf.length ≤ fuel →
    unbankLoop fuel r (suf.head?.map Prod.fst)
      = .ok { r with players := pre ++ suf.map (fun e => (e.1, { e.2 with banked := false })) } := by
  intro suf
  induction suf with
  | nil =>
    intro pre fuel r hpl _ _ _
    simp only [List.head?_nil, Option.map_none', unbankLoop_none, List.map_nil]
    rw [← hpl]
  | cons e rest ih =>
    intro pre fuel r hpl hnd hch hlen
    obtain ⟨k, n⟩ := e
    cases fuel with
    | zero => simp at hlen
    | succ fuel =>
      have hk : k ∉ pre.map Prod.fst := by
        rw [hpl, List.map_append, List.nodup_append] at hnd
        intro hmem
        exact hnd.2.2 hmem (by simp)
      have hnode : r.node k = some n := by
        simp [results.node, hpl, lookupNode_append_of_not_mem _ _ _ hk, lookupNode]
      have hset : (r.set k (fun m => { m with banked := false })).players
          = (pre ++ [(k, { n with banked := false })]) ++ rest := by
        simp [results.set, hpl, updateNode_append_of_not_mem _ _ _ _ hk, updateNode]
      have hnd' : ((r.set k (fun m => { m with banked := false })).players.map Prod.fst).Nodup := by
        simp only [results.set, keys_updateNode]; exact hnd
      have hrest := ih (pre ++ [(k, { n with banked := false })]) fuel _ hset hnd' hch.2
        (by simp only [List.length_cons] at hlen; omega)
      simp only [List.head?_cons, Option.map_some', unbankLoop, hnode]
      rw [hch.1, hrest]
      simp [results.set]

theorem lastKey_mem (l : List (String × playerNode)) : ∀ k, lastKey k l ∈ k :: l.map Prod.fst := by
  induction l with
  | nil => intro k; simp [lastKey]
  | cons e rest ih =>
    intro k
    simp only [lastKey, List.map_cons]
    exact List.mem_cons_of_mem _ (ih e.1)

theorem lastPlayerFrom_chain (r : results) (hnd : (r.players.map Prod.fst).Nodup) :
    ∀ (suf pre post : List (String × playerNode)) (k : String) (n : playerNode) (fuel : Nat),
      r.players = pre ++ ((k, n) :: suf) ++ post → chained ((k, n) :: suf) → suf.length < fuel →
      lastPlayerFrom r fuel k = .ok (lastKey k suf) := by
  intro suf
  induction suf with
  | nil =>
    intro pre post k n fuel hpl hch hlen
    have hk : k ∉ pre.map Prod.fst := by
      rw [hpl, List.append_assoc, List.map_append, List.nodup_append] at hnd
      intro hmem
      exact hnd.2.2 hmem (by simp)
    have hnode : r.node k = some n := by
      simp [results.node, hpl, lookupNode_append_of_not_mem _ _ _ hk, lookupNode]
    cases fuel with
    | zero => simp at hlen
    | succ fuel =>
      have hb : n.behind = none := hch.1
      simp [lastPlayerFrom, hnode, hb, lastKey]
  | cons e rest ih =>
    intro pre post k n fuel hpl hch hlen
    obtain ⟨k', n'⟩ := e
    have hk : k ∉ pre.map Prod.fst := by
      rw [hpl, List.append_assoc, List.map_append, List.nodup_append] at hnd
      intro hmem
      exact hnd.2.2 hmem (by simp)
    have hnode : r.node k = some n := by
      simp [results.node, hpl, lookupNode_append_of_not_mem _ _ _ hk, lookupNode]
    cases fuel with
    | zero => simp at hlen
    | succ fuel =>
      have hb : n.behind = some k' := hch.1
      have hrest := ih (pre ++ [(k, n)]) post k' n' fuel (by simp [hpl]) hch.2
        (by simp only [List.length_cons] at hlen; omega)
      simp only [lastPlayerFrom, hnode, hb, lastKey]
      exact hrest

theorem chained_snoc (f : playerNode → playerNode) (new : String × playerNode)
    (hf : ∀ n, (f n).behind = some new.1) (hnew : new.2.behind = none) :
    ∀ (l : List (String × playerNode)) (k : String) (n : playerNode),
      (((k, n) :: l).map Prod.fst).Nodup → chained ((k, n) :: l) →
      chained (updateNode f (((k, n) :: l) ++ [new]) (lastKey k l)) := by
  intro l
  induction l with
  | nil =>
    intro k n _ _
    simp only [lastKey, List.cons_append, List.nil_append, updateNode, if_true]
    exact ⟨by simp [hf], by simp [hnew], trivial⟩
  | cons e rest ih =>
    intro k n hnd hch
    obtain ⟨k', n'⟩ := e
    have hne : ¬ k = lastKey k' rest := by
      intro h
      have hmem := lastKey_mem rest k'
      rw [← h] at hmem
      simp only [List.map_cons, List.nodup_cons] at hnd
      exact hnd.1 (by simpa using hmem)
    have hrest := ih k' n' (by simp only [List.map_cons, List.nodup_cons] at hnd ⊢; exact hnd.2)
      hch.2
    simp only [lastKey, List.cons_append, updateNode, hne, if_false]
    refine ⟨?_, ?_⟩
    · have h1 := hch.1
      simp only [List.head?_cons, Option.map_some'] at h1
      rw [head_keys]
      split_ifs <;> simp [h1]
    · simpa [List.cons_append, updateNode] using hrest

theorem addPlayer_absent {r : results} {p : Player} (hnode : r.node p.Name = none) :
    ∃ r1 : results, r1.players = r.players ++ [(p.Name, freshNode p)] ∧
      r1.firstPlayer = r.firstPlayer ∧ r1.bankedHumanPlayers = r.bankedHumanPlayers ∧
      r.addPlayer p =
        (match r.firstPlayer with
         | none => .ok { r1 with firstPlayer := some p.Name }
         | some first =>
           lastPlayerFrom r1 r1.players.length first >>= fun lastPlayer =>
             .ok (r1.set lastPlayer (fun n => { n with behind := some p.Name }))) := by
  unfold results.addPlayer
  simp only [hnode]
  by_cases hl : r.largestName < (p.Name.utf8ByteSize : Int) <;> cases hai : p.AiAgent
  · refine ⟨{ r with players := r.players ++ [(p.Name, freshNode p)],
                      humanPlayers := wrapInt (r.humanPlayers + 1),
                      largestName := p.Name.utf8ByteSize }, rfl, rfl, rfl, ?_⟩
    cases hf : r.firstPlayer <;> simp [hl, hai, hf, freshNode, bind, Except.bind]
  · refine ⟨{ r with players := r.players ++ [(p.Name, freshNode p)],
                      largestName := p.Name.utf8ByteSize }, rfl, rfl, rfl, ?_⟩
    cases hf : r.firstPlayer <;> simp [hl, hai, hf, freshNode, bind, Except.bind]
  · refine ⟨{ r with players := r.players ++ [(p.Name, freshNode p)],
                      humanPlayers := wrapInt (r.humanPlayers + 1) }, rfl, rfl, rfl, ?_⟩
    cases hf : r.firstPlayer <;> simp [hl, hai, hf, freshNode, bind, Except.bind]
  · refine ⟨{ r with players := r.players ++ [(p.Name, freshNode p)] }, rfl, rfl, rfl, ?_⟩
    cases hf : r.firstPlayer <;> simp [hl, hai, hf, freshNode, bind, Except.bind]

theorem map_updateNode {β : Type} (g : playerNode → β) (f : playerNode → playerNode)
    (hg : ∀ n, g (f n) = g n) (k : String) : ∀ l : List (String × playerNode),
    (updateNode f l k).map (fun e => (e.1, g e.2)) = l.map (fun e => (e.1, g e.2)) := by
  intro l
  induction l with
  | nil => rfl
  | cons e rest ih =>
    obtain ⟨k', n'⟩ := e
    by_cases hk : k' = k <;> simp [updateNode, hk, ih, hg]

/-- What `addPlayer` does for a name that is not in well linked standings: it
returns well linked standings whose entries are the old ones, unchanged but
for `behind`, followed by the fresh node. -/
theorem addPlayer_absent_spec {r : results} (h : WellLinked r) (p : Player)
    (hnode : r.node p.Name = none) :
    ∃ r', r.addPlayer p = .ok r' ∧ WellLinked r' ∧
      r'.bankedHumanPlayers = r.bankedHumanPlayers ∧
      r'.players.map (fun e => (e.1, e.2.Name, e.2.AiAgent, e.2.pts, e.2.banked, e.2.ahead))
        = (r.players ++ [(p.Name, freshNode p)]).map
            (fun e => (e.1, e.2.Name, e.2.AiAgent, e.2.pts, e.2.banked, e.2.ahead)) := by
  obtain ⟨r1, hpl, hfirst, hcount, hadd⟩ := addPlayer_absent hnode
  have hname : p.Name ∉ r.players.map Prod.fst := lookupNode_eq_none.mp hnode
  have hnd1 : (r1.players.map Prod.fst).Nodup := by
    rw [hpl, List.map_append, List.nodup_append]
    refine ⟨h.nodup, by simp, ?_⟩
    intro a ha hb
    simp only [List.map_cons, List.map_nil, List.mem_singleton] at hb
    exact hname (hb ▸ ha)
  cases hlist : r.players with
  | nil =>
    have hf : r.firstPlayer = none := by rw [h.first, hlist]; rfl
    rw [hf] at hadd
    refine ⟨_, hadd, ⟨?_, ?_, ?_, ?_⟩, hcount, ?_⟩
    · simp [hpl, hlist]
    · intro e he
      simp only [hpl, hlist, List.nil_append, List.mem_singleton] at he
      subst he; rfl
    · simp [hpl, hlist]
    · simp only [hpl, hlist, List.nil_append]
      exact ⟨rfl, trivial⟩
    · simp [hpl, hlist]
  | cons e l =>
    obtain ⟨k, n⟩ := e
    have hf : r.firstPlayer = some k := by rw [h.first, hlist]; rfl
    have hch : chained ((k, n) :: l) := by rw [← hlist]; exact h.chain
    have hlast : lastPlayerFrom r1 r1.players.length k = .ok (lastKey k l) :=
      lastPlayerFrom_chain r1 hnd1 l [] [(p.Name, freshNode p)] k n _
        (by simp [hpl, hlist]) hch (by simp only [hpl, hlist, List.length_append,
          List.length_cons, List.length_singleton, List.length_nil]; omega)
    rw [hf] at hadd
    simp only [hlast, bind, Except.bind] at hadd
    have hnd : (((k, n) :: l).map Prod.fst).Nodup := by rw [← hlist]; exact h.nodup
    refine ⟨_, hadd, ⟨?_, ?_, ?_, ?_⟩, hcount, ?_⟩
    · simp only [results.set, keys_updateNode]; exact hnd1
    · intro e he
      simp only [results.set] at he
      have hall : ∀ e ∈ r1.players, e.2.Name = e.1 := by
        intro e he
        rw [hpl] at he
        rcases List.mem_append.mp he with h1 | h1
        · exact h.names e h1
        · simp only [List.mem_singleton] at h1; subst h1; rfl
      rcases mem_updateNode he with h1 | ⟨m, hm, hfe⟩
      · exact hall e h1
      · rw [hfe]; exact hall (e.1, m) hm
    · simp only [results.set, hfirst, hf, head_keys, keys_updateNode]
      simp [hpl, hlist]
    · simp only [results.set, hpl, hlist]
      exact chained_snoc _ (p.Name, freshNode p) (fun _ => rfl) rfl l k n hnd hch
    · simp only [results.set]
      rw [map_updateNode (fun n => (n.Name, n.AiAgent, n.pts, n.banked, n.ahead))
        (fun n => { n with behind := some p.Name }) (fun _ => rfl), hpl, hlist]

theorem WellLinked.of_addPlayer {r r' : results} (h : WellLinked r) (p : Player)
    (hadd : r.addPlayer p = .ok r') : WellLinked r' := by
  cases hnode : r.node p.Name with
  | some n =>
    simp [results.addPlayer, hnode] at hadd
    subst hadd; exact h
  | none =>
    obtain ⟨r2, h2, hw, _⟩ := addPlayer_absent_spec h p hnode
    rw [h2] at hadd
    simp only [Except.ok.injEq] at hadd
    subst hadd; exact hw

theorem WellLinked.of_set {r : results} (h : WellLinked r) (k : String) (f : playerNode → playerNode)
    (hb : ∀ n, (f n).behind = n.behind) (hn : ∀ n, (f n).Name = n.Name) :
    WellLinked (r.set k f) := by
  refine ⟨?_, ?_, ?_, ?_⟩
  · simp only [results.set, keys_updateNode]; exact h.nodup
  · intro e he
    rcases mem_updateNode he with h1 | ⟨m, hm, hfe⟩
    · exact h.names e h1
    · rw [hfe, hn]; exact h.names (e.1, m) hm
  · simp only [results.set, head_keys, keys_updateNode]
    rw [← head_keys]; exact h.first
  · exact chained_updateNode f hb k _ h.chain

theorem WellLinked.of_bankedResults {r : results} (h : WellLinked r) (key : String) (pts : Nat)
    (ai : Bool) : WellLinked (bankedResults r key pts ai) := by
  have h1 := WellLinked.of_set h key (fun n => { n with pts := (n.pts + pts) % UINT_MOD })
    (fun _ => rfl) (fun _ => rfl)
  have h2 := WellLinked.of_set h1 key (fun n => { n with banked := true }) (fun _ => rfl)
    (fun _ => rfl)
  cases ai
  · exact ⟨h2.nodup, h2.names, h2.first, h2.chain⟩
  · exact h2

/-- What `unbankAllPlayers` does on well linked standings. -/
theorem WellLinked.unbankAllPlayers {r : results} (h : WellLinked r) :
    r.unbankAllPlayers = .ok { r with
      bankedHumanPlayers := 0,
      players := r.players.map (fun e => (e.1, { e.2 with banked := false })) } := by
  unfold results.unbankAllPlayers
  have := unbankLoop_chain r.players [] r.players.length { r with bankedHumanPlayers := 0 }
    rfl h.nodup h.chain (Nat.le_refl _)
  rw [← h.first] at this
  simpa using this

theorem chained_map (f : playerNode → playerNode) (hf : ∀ n, (f n).behind = n.behind) :
    ∀ l : List (String × playerNode), chained l → chained (l.map (fun e => (e.1, f e.2))) := by
  intro l
  induction l with
  | nil => intro h; exact h
  | cons e rest ih =>
    intro h
    refine ⟨?_, ih h.2⟩
    simp only [hf, h.1]
    cases rest <;> rfl

theorem Built.wellLinked {r : results} (h : Built r) : WellLinked r := by
  induction h with
  | new => exact ⟨by simp [results.new], by simp [results.new], rfl, trivial⟩
  | add p _ hadd ih => exact ih.of_addPlayer p hadd
  | @bank r r' p pts b hb hbank ih =>
    cases hnode : r.node p.Name with
    | none => simp [results.playerBanks, results.deref, hnode, bind, Except.bind] at hbank
    | some n =>
      rw [playerBanks_of_noAhead r p pts n hnode hb.noAhead] at hbank
      simp only [Except.ok.injEq, Prod.mk.injEq] at hbank
      rw [← hbank.1]
      exact ih.of_bankedResults _ _ _
  | @unbank r r' _ hun ih =>
    rw [ih.unbankAllPlayers] at hun
    simp only [Except.ok.injEq] at hun
    subst hun
    refine ⟨?_, ?_, ?_, ?_⟩
    · simp only [List.map_map]
      exact ih.nodup
    · intro e he
      simp only [List.mem_map] at he
      obtain ⟨e0, he0, rfl⟩ := he
      exact ih.names e0 he0
    · simp only [ih.first]
      cases r.players <;> rfl
    · exact chained_map (fun n => { n with banked := false }) (fun _ => rfl) _ ih.chain

/-! ## Unbanking and traversal (results.go) -/

theorem lookupNode_map (f : playerNode → playerNode) (k : String) :
    ∀ l : List (String × playerNode),
      lookupNode (l.map (fun e => (e.1, f e.2))) k = (lookupNode l k).map f := by
  intro l
  induction l with
  | nil => rfl
  | cons e rest ih =>
    obtain ⟨k', n'⟩ := e
    by_cases hk : k' = k <;> simp [lookupNode, hk, ih]

/-- C13: on standings built by Add, Bank and UnbankAll, `unbankAllPlayers`
returns; afterwards the banked flag of every participant is false and the
counter of banked humans is 0, the cumulative points of every participant
are what they were, and the traversal from the leader yields the same nodes
in the same order as before, with the banked flag cleared and nothing else
changed. -/
theorem unbankAllPlayers_resets_flags_only {r : results} (hr : Built r) :
    ∃ r' rows, r.unbankAllPlayers = .ok r' ∧ r.standings = .ok rows ∧
      (∀ key n', r'.node key = some n' → n'.banked = false) ∧
      r'.bankedHumanPlayers = 0 ∧
      (∀ key, (r'.node key).map playerNode.pts = (r.node key).map playerNode.pts) ∧
      r'.standings = .ok (rows.map (fun n => { n with banked := false })) := by
  have hw := hr.wellLinked
  have hw' := (Built.unbank hr hw.unbankAllPlayers).wellLinked
  have hlk : ∀ key, lookupNode
      (r.players.map (fun e => (e.1, { e.2 with banked := false }))) key
        = (lookupNode r.players key).map (fun n => { n with banked := false }) :=
    fun key => lookupNode_map (fun n => { n with banked := false }) key r.players
  refine ⟨_, _, hw.unbankAllPlayers, hw.standings, ?_, rfl, ?_, ?_⟩
  · intro key n' hn'
    have hn2 : (lookupNode r.players key).map (fun n => { n with banked := false }) = some n' :=
      (hlk key).symm.trans hn'
    cases hl : lookupNode r.players key with
    | none => simp [hl] at hn2
    | some n => simp [hl] at hn2; rw [← hn2]
  · intro key
    refine (congrArg (Option.map playerNode.pts) (hlk key)).trans ?_
    rw [Option.map_map]
    rfl
  · rw [hw'.standings]
    simp [List.map_map, Function.comp]

theorem built_standingsBanked : Built standingsBanked :=
  Built.bank playerB 10 false built_standingsAB rfl

theorem unbankAllPlayers_resets_flags_only_witness :
    (Built standingsBanked ∧
      standingsBanked.flags = .ok [("A", false), ("B", true)] ∧
      standingsBanked.table = .ok [("A", 0), ("B", 10)] ∧
      standingsBanked.bankedHumanPlayers = 1) ∧
    (do let r ← standingsBanked.unbankAllPlayers
        let flags ← r.flags
        let table ← r.table
        pure (flags, table, r.bankedHumanPlayers))
      = .ok ([("A", false), ("B", false)], [("A", 0), ("B", 10)], 0) ∧
    ∃ r' rows, standingsBanked.unbankAllPlayers = .ok r' ∧ standingsBanked.standings = .ok rows ∧
      (∀ key n', r'.node key = some n' → n'.banked = false) ∧
      r'.bankedHumanPlayers = 0 ∧
      (∀ key, (r'.node key).map playerNode.pts = (standingsBanked.node key).map playerNode.pts) ∧
      r'.standings = .ok (rows.map (fun n => { n with banked := false })) :=
  ⟨⟨built_standingsBanked, by decide, by decide, rfl⟩, by decide,
   unbankAllPlayers_resets_flags_only built_standingsBanked⟩

theorem Built.step {r r' : results} (h : Built r) (op : Op) (hs : r.step op = .ok r') :
    Built r' := by
  cases op with
  | add p => exact Built.add p h hs
  | bank p pts =>
    simp only [results.step, bind, Except.bind, pure, Except.pure] at hs
    split at hs
    · simp at hs
    · rename_i v hv
      obtain ⟨r1, b⟩ := v
      simp only [Except.ok.injEq] at hs
      subst hs
      exact Built.bank p pts b h hv
  | unbankAll => exact Built.unbank h hs

theorem Built.run : ∀ (ops : List Op) {r r' : results}, Built r → r.run ops = .ok r' →
    Built r' := by
  intro ops
  induction ops with
  | nil =>
    intro r r' h hrun
    simp only [results.run, Except.ok.injEq] at hrun
    subst hrun; exact h
  | cons op ops ih =>
    intro r r' h hrun
    simp only [results.run, bind, Except.bind] at hrun
    split at hrun
    · simp at hrun
    · rename_i r1 h1
      exact ih (h.step op h1) hrun

theorem step_keys {r r' : results} (h : Built r) (op : Op) (hs : r.step op = .ok r')
    (name : String) :
    name ∈ r'.players.map Prod.fst ↔
      name ∈ r.players.map Prod.fst ∨ name ∈ addedNames [op] := by
  cases op with
  | add p =>
    simp only [addedNames, List.mem_singleton]
    cases hnode : r.node p.Name with
    | some n =>
      have hr : r' = r := by
        simp [results.step, results.addPlayer, hnode] at hs
        exact hs.symm
      have hmem : p.Name ∈ r.players.map Prod.fst :=
        List.mem_map.mpr ⟨(p.Name, n), lookupNode_mem hnode, rfl⟩
      subst hr
      constructor
      · exact Or.inl
      · rintro (h1 | h1)
        · exact h1
        · rw [h1]; exact hmem
    | none =>
      obtain ⟨r2, h2, _, _, hmap⟩ := addPlayer_absent_spec h.wellLinked p hnode
      have hr : r' = r2 := by
        simp only [results.step] at hs
        rw [h2] at hs
        simp only [Except.ok.injEq] at hs
        exact hs.symm
      have hkeys : r2.players.map Prod.fst = (r.players ++ [(p.Name, freshNode p)]).map Prod.fst := by
        have := congrArg (List.map Prod.fst) hmap
        simpa [List.map_map, Function.comp] using this
      rw [hr, hkeys]
      simp
  | bank p pts =>
    simp only [addedNames, List.not_mem_nil, or_false]
    simp only [results.step, bind, Except.bind, pure, Except.pure] at hs
    split at hs
    · simp at hs
    · rename_i v hv
      obtain ⟨r1, b⟩ := v
      simp only [Except.ok.injEq] at hs
      subst hs
      cases hnode : r.node p.Name with
      | none => simp [results.playerBanks, results.deref, hnode, bind, Except.bind] at hv
      | some n =>
        rw [playerBanks_of_noAhead r p pts n hnode h.noAhead] at hv
        simp only [Except.ok.injEq, Prod.mk.injEq] at hv
        rw [← hv.1]
        cases n.AiAgent <;> simp [bankedResults, results.set, keys_updateNode]
  | unbankAll =>
    simp only [addedNames, List.not_mem_nil, or_false]
    simp only [results.step] at hs
    rw [h.wellLinked.unbankAllPlayers] at hs
    simp only [Except.ok.injEq] at hs
    subst hs
    simp [List.map_map, Function.comp]

theorem addedNames_cons (op : Op) (ops : List Op) (name : String) :
    name ∈ addedNames (op :: ops) ↔ name ∈ addedNames [op] ∨ name ∈ addedNames ops := by
  cases op <;> simp [addedNames]

theorem run_keys : ∀ (ops : List Op) {r r' : results}, Built r → r.run ops = .ok r' →
    ∀ name, name ∈ r'.players.map Prod.fst ↔
      name ∈ r.players.map Prod.fst ∨ name ∈ addedNames ops := by
  intro ops
  induction ops with
  | nil =>
    intro r r' _ hrun name
    simp only [results.run, Except.ok.injEq] at hrun
    subst hrun; simp [addedNames]
  | cons op ops ih =>
    intro r r' h hrun name
    simp only [results.run, bind, Except.bind] at hrun
    split at hrun
    · simp at hrun
    · rename_i r1 h1
      rw [ih (h.step op h1) hrun name, step_keys h op h1 name, addedNames_cons op ops name]
      exact or_assoc

theorem WellLinked.standings_names {r : results} (h : WellLinked r) :
    (r.players.map Prod.snd).map playerNode.Name = r.players.map Prod.fst := by
  rw [List.map_map]
  apply List.map_congr_left
  intro e he
  exact h.names e he

/-- C14: for standings built from the empty standings by any sequence of Add,
Bank and UnbankAll operations, the traversal from the leader along `behind`
ends, no name occurs twice in it, and the names it visits are exactly the
names added. -/
theorem standings_visit_each_added_once (ops : List Op) (r : results)
    (h : results.new.run ops = .ok r) :
    ∃ rows, r.standings = .ok rows ∧ (rows.map playerNode.Name).Nodup ∧
      ∀ name, name ∈ rows.map playerNode.Name ↔ name ∈ addedNames ops := by
  have hb : Built r := Built.run ops Built.new h
  have hw := hb.wellLinked
  refine ⟨_, hw.standings, ?_, ?_⟩
  · rw [hw.standings_names]; exact hw.nodup
  · intro name
    rw [hw.standings_names, run_keys ops Built.new h name]
    simp [results.new]

theorem standings_visit_each_added_once_witness :
    results.new.run [.add playerA, .add playerB, .bank playerB 10, .unbankAll, .bank playerA 3]
      = .ok { standingsAB with
          players :=
            [("A", { Name := "A", AiAgent := false, pts := 3, banked := true, ahead := none,
                     behind := some "B" }),
             ("B", { Name := "B", AiAgent := false, pts := 10, banked := false, ahead := none,
                     behind := none })],
          bankedHumanPlayers := 1 } ∧
    ∃ rows, ({ standingsAB with
          players :=
            [("A", { Name := "A", AiAgent := false, pts := 3, banked := true, ahead := none,
                     behind := some "B" }),
             ("B", { Name := "B", AiAgent := false, pts := 10, banked := false, ahead := none,
                     behind := none })],
          bankedHumanPlayers := 1 } : results).standings = .ok rows ∧
      (rows.map playerNode.Name).Nodup ∧
      ∀ name, name ∈ rows.map playerNode.Name ↔
        name ∈ addedNames [.add playerA, .add playerB, .bank playerB 10, .unbankAll,
          .bank playerA 3] :=
  ⟨by decide, standings_visit_each_added_once _ _ (by decide)⟩

/-! ## Rolling and starting (dice_roll.go, game.go) -/

/-- C11 (defect of the code): whatever the random source yields, both dice of
`Dice.roll` show a value from 1 to 5: `r.Intn(5) + 1` never gives 6, so no
pair with a 6, such as (6, 6), is ever produced. -/
theorem roll_never_shows_six (r : Rand) :
    (1 ≤ (Dice.roll r).1.d0 ∧ (Dice.roll r).1.d0 ≤ 5) ∧
    (1 ≤ (Dice.roll r).1.d1 ∧ (Dice.roll r).1.d1 ≤ 5) := by
  have h0 : r.draws r.pos % 5 < 5 := Nat.mod_lt _ (by decide)
  have h1 : r.draws (r.pos + 1) % 5 < 5 := Nat.mod_lt _ (by decide)
  simp only [Dice.roll, Rand.Intn]
  omega

/-- C16: on a started game `SetSeed`, `AddPlayer` and `StartGame` each return
the error "game has already started" and the game (and the terminal) as it
was; on a game that is not started `SetSeed(s)` returns nil and the game with
seed `s` and the random source made from `s`, nothing else changed. -/
theorem started_game_is_frozen (source : Int → Rand) (g : Game) (seed : Int)
    (player : Option Player) (fuel : Nat) (w : World) :
    (g.started = true →
      g.SetSeed source seed = (some GAME_HAS_STARTED_ERR_MSG, g) ∧
      g.AddPlayer player = .ok (some GAME_HAS_STARTED_ERR_MSG, g) ∧
      g.StartGame fuel w = .ok (some GAME_HAS_STARTED_ERR_MSG, g, w)) ∧
    (g.started = false →
      g.SetSeed source seed = (none, { g with seed := seed, r := source seed })) := by
  constructor
  · intro h
    simp [Game.SetSeed, Game.AddPlayer, Game.StartGame, h]
  · intro h
    simp [Game.SetSeed, h]

theorem started_game_is_frozen_witness :
    (startedGame.started = true ∧
      startedGame.SetSeed (fun _ => allOnes) 7 = (some GAME_HAS_STARTED_ERR_MSG, startedGame) ∧
      startedGame.AddPlayer (some playerA) = .ok (some GAME_HAS_STARTED_ERR_MSG, startedGame) ∧
      startedGame.StartGame 4 (terminal []) =
        .ok (some GAME_HAS_STARTED_ERR_MSG, startedGame, terminal [])) ∧
    (freshGame.started = false ∧
      freshGame.SetSeed (fun _ => allOnes) 7 = (none, { freshGame with seed := 7, r := allOnes })) :=
  ⟨⟨rfl, (started_game_is_frozen (fun _ => allOnes) startedGame 7 (some playerA) 4
      (terminal [])).1 rfl⟩,
   ⟨rfl, (started_game_is_frozen (fun _ => allOnes) freshGame 7 none 0 (terminal [])).2 rfl⟩⟩

/-- C18 (defect of the code): after Add A and Add B the leader is A and the
`behind` link of A is B, but the `ahead` link of B is nil, not A:
`addPlayer` sets `lastPlayer.behind` and never `pn.ahead`. -/
theorem added_player_has_no_ahead_link :
    (do let r ← results.new.addPlayer playerA
        let r ← r.addPlayer playerB
        pure (r.firstPlayer, (r.node "A").map playerNode.behind,
          (r.node "B").map playerNode.ahead))
      = .ok (some "A", some (some "B"), some none) := by decide

theorem scoreFrom_append (rolls : List Dice) (d : Dice) : ∀ (points pos : Nat),
    scoreFrom (rolls ++ [d]) points pos
      = (d.Points ((pos + rolls.length + 1 : Nat) : Int) (scoreFrom rolls points pos)).1 := by
  induction rolls with
  | nil => intro points pos; simp [scoreFrom]
  | cons e rest ih =>
    intro points pos
    have hpos : pos + 1 + rest.length + 1 = pos + (rest.length + 1) + 1 := by omega
    show scoreFrom (rest ++ [d]) (e.Points ((pos + 1 : Nat) : Int) points).1 (pos + 1) = _
    rw [ih, hpos]
    rfl

theorem scoreRolls_append (rolls : List Dice) (d : Dice) :
    scoreRolls (rolls ++ [d])
      = (d.Points ((rolls.length + 1 : Nat) : Int) (scoreRolls rolls)).1 := by
  simp [scoreRolls, scoreFrom_append]

/-- C17, counterexample: on a fresh round the rolls (1,1), (1,1), (1,1), (2,5)
leave the round with 6 points and the four rolls recorded, while the scoring
function applied left to right to these four rolls gives 0. -/
theorem ending_roll_keeps_points :
    (freshGame.rollTimes 4 { points := 0, rolls := [] }).2.1
        = { points := 6, rolls := [⟨1, 1⟩, ⟨1, 1⟩, ⟨1, 1⟩, ⟨2, 5⟩] } ∧
    scoreRolls [⟨1, 1⟩, ⟨1, 1⟩, ⟨1, 1⟩, ⟨2, 5⟩] = 0 ∧
    (freshGame.rollTimes 4 { points := 0, rolls := [] }).2.1.points
      ≠ scoreRolls (freshGame.rollTimes 4 { points := 0, rolls := [] }).2.1.rolls := by decide

theorem Points_false (d : Dice) (n : Int) (p : Nat) (h : (d.Points n p).2 = false) :
    d.Points n p = (0, false) := by
  unfold Dice.Points at h ⊢
  dsimp only at h ⊢
  split_ifs at h ⊢
  simp_all

theorem roll_eq (g : Game) (rd : round) :
    g.roll rd =
      (((Dice.roll g.r).1,
        ((Dice.roll g.r).1.Points ((rd.rolls.length + 1 : Nat) : Int) rd.points).2),
       { points :=
           if ((Dice.roll g.r).1.Points ((rd.rolls.length + 1 : Nat) : Int) rd.points).2 then
             ((Dice.roll g.r).1.Points ((rd.rolls.length + 1 : Nat) : Int) rd.points).1
           else rd.points,
         rolls := rd.rolls ++ [(Dice.roll g.r).1] },
       { g with r := (Dice.roll g.r).2 }) := by
  simp only [Game.roll, List.length_append, List.length_singleton]
  cases ((Dice.roll g.r).1.Points ((rd.rolls.length + 1 : Nat) : Int) rd.points).2 <;> simp

theorem rollTimes_scored : ∀ (n : Nat) (g : Game) (rd : round),
    rd.points = scoreRolls rd.rolls →
    ((g.rollTimes n rd).1 = true →
      (g.rollTimes n rd).2.1.points = scoreRolls (g.rollTimes n rd).2.1.rolls) ∧
    ((g.rollTimes n rd).1 = false →
      ∃ init last, (g.rollTimes n rd).2.1.rolls = init ++ [last] ∧
        (g.rollTimes n rd).2.1.points = scoreRolls init ∧
        last.Points (((g.rollTimes n rd).2.1.rolls.length : Nat) : Int) (scoreRolls init)
          = (0, false)) := by
  intro n
  induction n with
  | zero =>
    intro g rd h
    simp [Game.rollTimes, h]
  | succ n ih =>
    intro g rd h
    simp only [Game.rollTimes, roll_eq]
    cases hc : ((Dice.roll g.r).1.Points ((rd.rolls.length + 1 : Nat) : Int) rd.points).2 with
    | true =>
      simp only [if_true]
      apply ih
      simp only [scoreRolls_append, ← h]
    | false =>
      simp only [Bool.false_eq_true, if_false, false_implies, true_and, forall_const]
      refine ⟨rd.rolls, (Dice.roll g.r).1, rfl, h, ?_⟩
      rw [← h]
      simp only [List.length_append, List.length_singleton]
      exact Points_false _ _ _ hc

/-- C17, amended: `roll` appends the roll and passes the new length of `rolls`
as roll number to the scoring function, whose flag it returns; it stores the
new points when the flag is true and leaves `points` as it was when the flag
is false.  So after any rolls of the round driver on a fresh round: while no
roll has ended the round, `points` is the scoring function applied left to
right to `rolls`; after a roll that ended the round, `points` is that score of
the rolls before it, and the ending roll itself scores `(0, false)`. -/
theorem roll_points_follow_scoring (n : Nat) (g : Game) (rd : round) :
    ((g.roll rd).2.1.rolls = rd.rolls ++ [(g.roll rd).1.1] ∧
      (g.roll rd).1.2
        = ((g.roll rd).1.1.Points (((g.roll rd).2.1.rolls.length : Nat) : Int) rd.points).2 ∧
      (g.roll rd).2.1.points
        = if (g.roll rd).1.2 = true then
            ((g.roll rd).1.1.Points (((g.roll rd).2.1.rolls.length : Nat) : Int) rd.points).1
          else rd.points) ∧
    ((g.rollTimes n { points := 0, rolls := [] }).1 = true →
      (g.rollTimes n { points := 0, rolls := [] }).2.1.points
        = scoreRolls (g.rollTimes n { points := 0, rolls := [] }).2.1.rolls) ∧
    ((g.rollTimes n { points := 0, rolls := [] }).1 = false →
      ∃ init last, (g.rollTimes n { points := 0, rolls := [] }).2.1.rolls = init ++ [last] ∧
        (g.rollTimes n { points := 0, rolls := [] }).2.1.points = scoreRolls init ∧
        last.Points (((g.rollTimes n { points := 0, rolls := [] }).2.1.rolls.length : Nat) : Int)
          (scoreRolls init) = (0, false)) := by
  refine ⟨?_, rollTimes_scored n g { points := 0, rolls := [] } rfl⟩
  rw [roll_eq]
  simp

theorem roll_points_follow_scoring_witness :
    (freshGame.rollTimes 3 { points := 0, rolls := [] }).1 = true ∧
    (freshGame.rollTimes 3 { points := 0, rolls := [] }).2.1.points
      = scoreRolls (freshGame.rollTimes 3 { points := 0, rolls := [] }).2.1.rolls ∧
    (freshGame.rollTimes 4 { points := 0, rolls := [] }).1 = false ∧
    ∃ init last, (freshGame.rollTimes 4 { points := 0, rolls := [] }).2.1.rolls = init ++ [last] ∧
      (freshGame.rollTimes 4 { points := 0, rolls := [] }).2.1.points = scoreRolls init ∧
      last.Points (((freshGame.rollTimes 4 { points := 0, rolls := [] }).2.1.rolls.length : Nat) : Int)
        (scoreRolls init) = (0, false) :=
  ⟨by decide,
   (roll_points_follow_scoring 3 freshGame { points := 0, rolls := [] }).2.1 (by decide),
   by decide,
   (roll_points_follow_scoring 4 freshGame { points := 0, rolls := [] }).2.2 (by decide)⟩

/-! ## Adding players (game.go) -/

theorem lookupPlayer_eq_none {l : List (String × Player)} {k : String} :
    lookupPlayer l k = none ↔ k ∉ l.map Prod.fst := by
  induction l with
  | nil => simp [lookupPlayer]
  | cons e rest ih =>
    obtain ⟨k', p'⟩ := e
    by_cases hk : k' = k
    · simp [lookupPlayer, hk]
    · have hk' : ¬ k = k' := fun h => hk h.symm
      simp [lookupPlayer, hk, hk', ih]

theorem lookupPlayer_append_new (l : List (String × Player)) (p : Player)
    (h : lookupPlayer l p.Name = none) : lookupPlayer (l ++ [(p.Name, p)]) p.Name = some p := by
  induction l with
  | nil => simp [lookupPlayer]
  | cons e rest ih =>
    obtain ⟨k', p'⟩ := e
    by_cases hk : k' = p.Name
    · simp [lookupPlayer, hk] at h
    · simp only [lookupPlayer, hk, if_false] at h
      simp [lookupPlayer, hk, ih h]

/-- What `AddPlayer` does on a game that is not started, for a player whose name
is not in the roster. -/
theorem AddPlayer_new_name {g : Game} (hr : Ready g) (hs : g.started = false) (p : Player)
    (hp : lookupPlayer g.players p.Name = none) :
    ∃ g', g.AddPlayer (some p) = .ok (none, g') ∧ Ready g' ∧ g'.started = false ∧
      g'.players = g.players ++ [(p.Name, p)] ∧
      g'.results.players.map (fun e => e.2.row)
        = g.results.players.map (fun e => e.2.row) ++ [(p.Name, 0, false)] := by
  have hnode : g.results.node p.Name = none := by
    rw [results.node, lookupNode_eq_none, ← hr.keys]
    exact lookupPlayer_eq_none.mp hp
  obtain ⟨r', hadd, hw, _, hmap⟩ := addPlayer_absent_spec hr.built.wellLinked p hnode
  have hkeys : r'.players.map Prod.fst = g.results.players.map Prod.fst ++ [p.Name] := by
    have := congrArg (List.map Prod.fst) hmap
    simpa [List.map_map, Function.comp] using this
  have hrows : r'.players.map (fun e => e.2.row)
      = g.results.players.map (fun e => e.2.row) ++ [(p.Name, 0, false)] := by
    have := congrArg (List.map (fun x : String × String × Bool × Nat × Bool × Option String =>
      (x.2.1, x.2.2.2.1, x.2.2.2.2.1))) hmap
    simpa [List.map_map, Function.comp, playerNode.row, freshNode] using this
  refine ⟨{ g with players := g.players ++ [(p.Name, p)], results := r',
                   onlyAI := g.onlyAI && p.AiAgent }, ?_, ⟨?_, ?_, ?_, ?_⟩, hs, rfl, hrows⟩
  · simp [Game.AddPlayer, hs, hp, hadd, bind, Except.bind, pure, Except.pure]
  · exact Built.add p hr.built hadd
  · simp [hkeys, hr.keys]
  · intro e he
    rcases List.mem_append.mp he with h1 | h1
    · exact hr.names e h1
    · simp only [List.mem_singleton] at h1; subst h1; rfl
  · simp only [Bool.and_eq_true, hr.agents, List.mem_append, List.mem_singleton]
    constructor
    · rintro ⟨h1, h2⟩ e (he | he)
      · exact h1 e he
      · subst he; exact h2
    · intro h
      exact ⟨fun e he => h e (Or.inl he), h _ (Or.inr rfl)⟩

theorem Setup.ready {g : Game} (h : Setup g) : Ready g ∧ g.started = false := by
  induction h with
  | new source seed =>
    exact ⟨⟨Built.new, rfl, by simp [NewGame], by simp [NewGame]⟩, rfl⟩
  | @setSeed g source seed _ ih =>
    obtain ⟨hr, hs⟩ := ih
    have hset : (g.SetSeed source seed).2 = { g with seed := seed, r := source seed } := by
      simp [Game.SetSeed, hs]
    rw [hset]
    exact ⟨⟨hr.built, hr.keys, hr.names, hr.agents⟩, hs⟩
  | @addPlayer g g' player err _ hadd ih =>
    obtain ⟨hr, hs⟩ := ih
    cases player with
    | none =>
      simp only [Game.AddPlayer, hs, Bool.false_eq_true, if_false, Except.ok.injEq,
        Prod.mk.injEq] at hadd
      rw [← hadd.2]; exact ⟨hr, hs⟩
    | some p =>
      cases hp : lookupPlayer g.players p.Name with
      | some q =>
        simp only [Game.AddPlayer, hs, Bool.false_eq_true, if_false, hp, Except.ok.injEq,
          Prod.mk.injEq] at hadd
        rw [← hadd.2]; exact ⟨hr, hs⟩
      | none =>
        obtain ⟨g2, h2, hr2, hs2, _⟩ := AddPlayer_new_name hr hs p hp
        rw [h2] at hadd
        simp only [Except.ok.injEq, Prod.mk.injEq] at hadd
        rw [← hadd.2]; exact ⟨hr2, hs2⟩

/-- C15: on every game that is either started or still being set up,
`AddPlayer(p)` returns, and it returns an error exactly when the game has
started, `p` is nil, or the roster holds a player named `p.Name()`.  With an
error the game is returned as it was.  Without an error the roster is the old
roster with `p` entered under `p.Name()`, the traversal of the standings is
the old traversal followed by `p` with 0 points and not banked, and the
only-agents flag is true exactly when every player of the roster is an
agent. -/
theorem AddPlayer_contract (g : Game) (player : Option Player)
    (hg : Setup g ∨ g.started = true) :
    ∃ err g', g.AddPlayer player = .ok (err, g') ∧
      (err.isSome = true ↔ (g.started = true ∨ player = none ∨
          ∃ p, player = some p ∧ (lookupPlayer g.players p.Name).isSome = true)) ∧
      (err.isSome = true → g' = g) ∧
      (err = none → ∃ p rows, player = some p ∧
          g'.players = g.players ++ [(p.Name, p)] ∧
          lookupPlayer g'.players p.Name = some p ∧
          g.results.standings = .ok rows ∧
          g'.results.standings.map (List.map playerNode.row)
            = .ok (rows.map playerNode.row ++ [(p.Name, 0, false)]) ∧
          (g'.onlyAI = true ↔ ∀ e ∈ g'.players, e.2.AiAgent = true)) := by
  by_cases hs : g.started = true
  · refine ⟨some GAME_HAS_STARTED_ERR_MSG, g, by simp [Game.AddPlayer, hs], ?_, fun _ => rfl, ?_⟩
    · simp [hs]
    · intro h; cases h
  · have hs' : g.started = false := by simpa using hs
    have hsetup : Setup g := hg.resolve_right hs
    obtain ⟨hr, _⟩ := hsetup.ready
    cases player with
    | none =>
      refine ⟨some "added nil player", g, by simp [Game.AddPlayer, hs'], ?_, fun _ => rfl, ?_⟩
      · simp
      · intro h; cases h
    | some p =>
      cases hp : lookupPlayer g.players p.Name with
      | some q =>
        refine ⟨some ("player already exists with that name: '" ++ p.Name ++ "'"), g,
          by simp [Game.AddPlayer, hs', hp], ?_, fun _ => rfl, ?_⟩
        · simp [hp]
        · intro h; cases h
      | none =>
        obtain ⟨g2, h2, hr2, _, hpl, hrows⟩ := AddPlayer_new_name hr hs' p hp
        refine ⟨none, g2, h2, ?_, ?_, ?_⟩
        · simp [hs', hp]
        · intro h; cases h
        · intro _
          refine ⟨p, _, rfl, hpl, ?_, hr.built.wellLinked.standings, ?_, hr2.agents⟩
          · rw [hpl]; exact lookupPlayer_append_new _ _ hp
          · rw [hr2.built.wellLinked.standings]
            simp only [Except.map, List.map_map]
            have : (List.map (playerNode.row ∘ Prod.snd) g2.results.players)
                = g2.results.players.map (fun e => e.2.row) := rfl
            rw [this, hrows]
            simp [List.map_map, Function.comp]

theorem AddPlayer_contract_witness :
    (Setup freshGame ∨ freshGame.started = true) ∧
    ∃ err g', freshGame.AddPlayer (some playerA) = .ok (err, g') ∧
      (err.isSome = true ↔ (freshGame.started = true ∨ some playerA = none ∨
          ∃ p, some playerA = some p ∧ (lookupPlayer freshGame.players p.Name).isSome = true)) ∧
      (err.isSome = true → g' = freshGame) ∧
      (err = none → ∃ p rows, some playerA = some p ∧
          g'.players = freshGame.players ++ [(p.Name, p)] ∧
          lookupPlayer g'.players p.Name = some p ∧
          freshGame.results.standings = .ok rows ∧
          g'.results.standings.map (List.map playerNode.row)
            = .ok (rows.map playerNode.row ++ [(p.Name, 0, false)]) ∧
          (g'.onlyAI = true ↔ ∀ e ∈ g'.players, e.2.AiAgent = true)) :=
  ⟨Or.inl (Setup.new _ _), AddPlayer_contract freshGame (some playerA) (Or.inl (Setup.new _ _))⟩

/-! ## Rounds (game.go) -/

theorem askOne_results (P : results → Prop)
    (hP : ∀ r p pts r' b, P r → r.playerBanks p pts = .ok (r', b) → P r')
    (g g' : Game) (w w' : World) (player : Player)
    (hg : P g.results) (h : g.askOne w player = .ok (g', w')) : P g'.results := by
  unfold Game.askOne at h
  split_ifs at h
  · simp only [bind, Except.bind, pure, Except.pure] at h
    split at h
    · simp at h
    · split at h
      · split at h
        · simp at h
        · split at h
          · simp at h
          · rename_i v hv
            simp only [Except.ok.injEq, Prod.mk.injEq] at h
            rw [← h.1]
            exact hP _ _ _ _ _ hg hv
      · simp only [Except.ok.injEq, Prod.mk.injEq] at h
        rw [← h.1]; exact hg
  · simp only [pure, Except.pure, Except.ok.injEq, Prod.mk.injEq] at h
    rw [← h.1]; exact hg

theorem askEach_results (P : results → Prop)
    (hP : ∀ r p pts r' b, P r → r.playerBanks p pts = .ok (r', b) → P r') :
    ∀ (entries : List (String × Player)) (g g' : Game) (w w' : World),
      P g.results → Game.askEach entries g w = .ok (g', w') → P g'.results := by
  intro entries
  induction entries with
  | nil =>
    intro g g' w w' hg h
    simp only [Game.askEach, Except.ok.injEq, Prod.mk.injEq] at h
    rw [← h.1]; exact hg
  | cons e rest ih =>
    intro g g' w w' hg h
    obtain ⟨k, player⟩ := e
    simp only [Game.askEach, bind, Except.bind] at h
    cases hone : g.askOne w player with
    | error e => simp [hone] at h
    | ok a =>
      obtain ⟨g1, w1⟩ := a
      simp only [hone] at h
      exact ih _ _ _ _ (askOne_results P hP _ _ _ _ _ hg hone) h

theorem askAiAgentsToBank_results (P : results → Prop)
    (hP : ∀ r p pts r' b, P r → r.playerBanks p pts = .ok (r', b) → P r')
    (g g' : Game) (w w' : World) (hg : P g.results)
    (h : g.askAiAgentsToBank w = .ok (g', w')) : P g'.results := by
  unfold Game.askAiAgentsToBank World.range at h
  exact askEach_results P hP _ _ _ { w with ranged := w.ranged + 1 } _ hg h

theorem bankEach_results (P : results → Prop)
    (hP : ∀ r p pts r' b, P r → r.playerBanks p pts = .ok (r', b) → P r') (pts : Nat) :
    ∀ (names : List String) (g g' : Game) (kp kp' : Bool),
      P g.results → Game.bankEach pts names g kp = .ok (g', kp') → P g'.results := by
  intro names
  induction names with
  | nil =>
    intro g g' kp kp' hg h
    simp only [Game.bankEach, Except.ok.injEq, Prod.mk.injEq] at h
    rw [← h.1]; exact hg
  | cons name rest ih =>
    intro g g' kp kp' hg h
    simp only [Game.bankEach] at h
    split at h
    · simp at h
    · rename_i player _
      simp only [bind, Except.bind] at h
      split at h
      · simp at h
      · rename_i v hv
        exact ih _ _ _ _ (hP _ _ _ _ _ hg hv) h

theorem promptLoop_results (P : results → Prop)
    (hP : ∀ r p pts r' b, P r → r.playerBanks p pts = .ok (r', b) → P r') (rd : round) :
    ∀ (fuel : Nat) (g g' : Game) (w w' : World),
      P g.results → Game.promptLoop rd fuel g w = .ok (g', w') → P g'.results := by
  intro fuel
  induction fuel with
  | zero => intro g g' w w' _ h; simp [Game.promptLoop] at h
  | succ fuel ih =>
    intro g g' w w' hg h
    simp only [Game.promptLoop] at h
    split at h
    · simp only [bind, Except.bind] at h
      split at h
      · simp at h
      · exact ih _ _ _ _ hg h
    · simp only [bind, Except.bind, pure, Except.pure] at h
      split at h
      · simp at h
      · split at h
        · simp at h
        · split at h
          · simp at h
          · rename_i v hv
            have hg2 := bankEach_results P hP _ _ _ _ _ _ hg hv
            split at h
            · split at h
              · simp at h
              · rename_i v3 hv3
                have hg3 := askAiAgentsToBank_results P hP _ _ _ _ hg2 hv3
                split at h
                · exact ih _ _ _ _ hg3 h
                · simp only [Except.ok.injEq, Prod.mk.injEq] at h
                  rw [← h.1]; exact hg3
            · split at h
              · exact ih _ _ _ _ hg2 h
              · simp only [Except.ok.injEq, Prod.mk.injEq] at h
                rw [← h.1]; exact hg2
    · simp only [Except.ok.injEq, Prod.mk.injEq] at h
      rw [← h.1]; exact hg

theorem roll_results (g : Game) (rd : round) : (g.roll rd).2.2.results = g.results := by
  rw [roll_eq]

theorem rollLoop_results (P : results → Prop)
    (hP : ∀ r p pts r' b, P r → r.playerBanks p pts = .ok (r', b) → P r') :
    ∀ (fuel : Nat) (g : Game) (dice : Dice) (keepRolling : Bool) (rd : round) (w : World)
      (out : Dice × round × Bool × Game × World),
      P g.results → Game.rollLoop fuel g dice keepRolling rd w = .ok out →
      P out.2.2.2.1.results := by
  intro fuel
  induction fuel with
  | zero =>
    intro g dice keepRolling rd w out hg h
    cases keepRolling with
    | false =>
      simp only [Game.rollLoop, Except.ok.injEq] at h
      rw [← h]; exact hg
    | true => simp [Game.rollLoop] at h
  | succ fuel ih =>
    intro g dice keepRolling rd w out hg h
    cases keepRolling with
    | false =>
      simp only [Game.rollLoop, Except.ok.injEq] at h
      rw [← h]; exact hg
    | true =>
      simp only [Game.rollLoop, bind, Except.bind, pure, Except.pure] at h
      split at h
      · simp at h
      · rename_i v1 hv1
        have hg1 := askAiAgentsToBank_results P hP _ _ _ _ hg hv1
        split at h
        · simp at h
        · rename_i v2 hv2
          have hg2 := promptLoop_results P hP _ _ _ _ _ _ hg1 hv2
          split at h
          · simp at h
          · split at h
            · simp only [Except.ok.injEq] at h
              rw [← h]; exact hg2
            · refine ih _ _ _ _ _ _ ?_ h
              rw [roll_results]; exact hg2

theorem startRound_results (P : results → Prop)
    (hP : ∀ r p pts r' b, P r → r.playerBanks p pts = .ok (r', b) → P r')
    (fuel : Nat) (g g' : Game) (w w' : World) (hg : P g.results)
    (h : g.startRound fuel w = .ok (g', w')) : P g'.results := by
  simp only [Game.startRound, bind, Except.bind, pure, Except.pure] at h
  split at h
  · simp at h
  · split at h
    · simp at h
    · rename_i v hv
      have := rollLoop_results P hP _ _ _ _ _ _ _ (by rw [roll_results]; exact hg) hv
      simp only [Except.ok.injEq, Prod.mk.injEq] at h
      rw [← h.1]; exact this

theorem Kept.refl (r : results) : Kept r r := fun _ n hn _ => ⟨n, hn, rfl⟩

theorem Kept.of_playerBanks {r0 r r' : results} (p : Player) (pts : Nat) (b : Bool)
    (h : Built r ∧ Kept r0 r) (hbank : r.playerBanks p pts = .ok (r', b)) :
    Built r' ∧ Kept r0 r' := by
  refine ⟨Built.bank p pts b h.1 hbank, ?_⟩
  cases hnode : r.node p.Name with
  | none => simp [results.playerBanks, results.deref, hnode, bind, Except.bind] at hbank
  | some n =>
    have hnode' : lookupNode r.players p.Name = some n := hnode
    rw [playerBanks_of_noAhead r p pts n hnode h.1.noAhead] at hbank
    simp only [Except.ok.injEq, Prod.mk.injEq] at hbank
    rw [← hbank.1]
    intro key m hm hmb
    by_cases hk : key = p.Name
    · exfalso
      subst hk
      cases hai : n.AiAgent <;>
        simp [bankedResults, results.node, results.set, lookupNode_updateNode, hnode', hai] at hm <;>
        (rw [← hm] at hmb; simp at hmb)
    · have hsame : (bankedResults r p.Name pts n.AiAgent).node key = r.node key := by
        cases hai : n.AiAgent <;>
          simp [bankedResults, results.node, results.set, lookupNode_updateNode, hk]
      rw [hsame] at hm
      exact h.2 key m hm hmb

theorem ok_of_isSome {α : Type} (x : Except Fault α) (h : x.toOption.isSome = true) :
    ∃ a, x = .ok a := by
  cases x with
  | error e => simp [Except.toOption] at h
  | ok a => exact ⟨a, rfl⟩

/-! ## The bank sub-prompt (prompt.go) -/

theorem wrapInt_of_range (x : Int) (h0 : 0 ≤ x) (h1 : x < 9223372036854775808) :
    wrapInt x = x := by
  unfold wrapInt
  norm_num
  omega

theorem digitChar_toNat (k : Nat) (hk : k < 10) : (Nat.digitChar k).toNat = 48 + k := by
  interval_cases k <;> rfl

theorem utf8Size_ascii (c : Char) (h : c.toNat < 128) : c.utf8Size = 1 := by
  unfold Char.utf8Size
  have : c.val ≤ UInt32.ofNatCore 127 (by decide) := by
    show c.val.toNat ≤ 127
    have : c.toNat = c.val.toNat := rfl
    omega
  simp only [this, if_true]

theorem utf8ByteSize_go_ascii : ∀ (l : List Char), (∀ c ∈ l, c.toNat < 128) →
    String.utf8ByteSize.go l = l.length
  | [], _ => rfl
  | c :: cs, h => by
    simp only [String.utf8ByteSize.go, List.length_cons]
    rw [utf8ByteSize_go_ascii cs (fun c hc => h c (List.mem_cons_of_mem _ hc)),
      utf8Size_ascii c (h c (List.mem_cons_self _ _))]

theorem utf8ByteSize_ascii (val : String) (h : ∀ c ∈ val.data, c.toNat < 128) :
    val.utf8ByteSize = val.length := by
  cases val with
  | mk l => exact utf8ByteSize_go_ascii l h

theorem toDigitsCore_head : ∀ (fuel n : Nat) (ds : List Char), 0 < n → n < fuel →
    ∃ c cs, Nat.toDigitsCore 10 fuel n ds = c :: cs ∧ 49 ≤ c.toNat ∧ c.toNat ≤ 57 := by
  intro fuel
  induction fuel with
  | zero => intro n ds _ h; omega
  | succ fuel ih =>
    intro n ds h0 h
    simp only [Nat.toDigitsCore]
    by_cases hz : n / 10 = 0
    · simp only [hz, if_true]
      refine ⟨_, _, rfl, ?_⟩
      rw [digitChar_toNat _ (Nat.mod_lt _ (by decide))]
      omega
    · simp only [hz, if_false]
      exact ih (n / 10) _ (by omega) (by omega)

theorem parsenum_toDigitsCore : ∀ (fuel n : Nat) (ds rest : List Char), 0 < n → n < fuel →
    n / 10 ≤ 1000000 →
    parsenum 0 false (Nat.toDigitsCore 10 fuel n ds ++ rest) = parsenum n true (ds ++ rest) := by
  intro fuel
  induction fuel with
  | zero => intro n ds rest _ h; omega
  | succ fuel ih =>
    intro n ds rest h0 h hn
    simp only [Nat.toDigitsCore]
    have hd := digitChar_toNat (n % 10) (Nat.mod_lt _ (by decide))
    by_cases hz : n / 10 = 0
    · simp only [hz, if_true, List.cons_append, parsenum, hd, tooLarge]
      have h1 : 48 ≤ 48 + n % 10 ∧ 48 + n % 10 ≤ 57 := by omega
      simp only [h1, and_self, if_true]
      have h2 : 0 * 10 + (48 + n % 10 - 48) = n := by omega
      rw [h2]
      rfl
    · simp only [hz, if_false]
      rw [ih (n / 10) _ rest (by omega) (by omega) (by omega)]
      simp only [List.cons_append, parsenum, hd, tooLarge]
      have h1 : 48 ≤ 48 + n % 10 ∧ 48 + n % 10 ≤ 57 := by omega
      have h3 : ¬ (n / 10 > 1000000) := by omega
      simp only [h1, and_self, if_true, h3, decide_False]
      have h2 : n / 10 * 10 + (48 + n % 10 - 48) = n := by omega
      rw [h2]
      rfl

theorem parsenum_toDigits (n : Nat) (c : Char) (rest : List Char) (h0 : 0 < n)
    (hn : n ≤ 10000009) (hc : ¬ (48 ≤ c.toNat ∧ c.toNat ≤ 57)) :
    parsenum 0 false (Nat.toDigits 10 n ++ c :: rest) = (n, true, c :: rest) := by
  unfold Nat.toDigits
  rw [parsenum_toDigitsCore (n + 1) n [] (c :: rest) h0 (by omega) (by omega)]
  simp only [List.nil_append, parsenum, hc, if_false]

theorem digit_head_facts (c : Char) (hlo : 49 ≤ c.toNat) (hhi : c.toNat ≤ 57) :
    c ≠ '-' ∧ c ≠ '0' ∧ ¬ (c = '#' ∨ c = '+' ∨ c = ' ' ∨ c = '[' ∨ c = '*' ∨ c = '.') ∧
    ¬ (97 ≤ c.toNat ∧ c.toNat ≤ 122) := by
  refine ⟨?_, ?_, ?_, by omega⟩
  · rintro rfl; revert hlo; decide
  · rintro rfl; revert hlo; decide
  · rintro (rfl | rfl | rfl | rfl | rfl | rfl) <;> revert hlo hhi <;> decide

theorem doPrintf_width (fuel w : Nat) (s : String) (rest : List Char) (args : List Arg)
    (h0 : 0 < w) (hw : w ≤ 10000009) :
    doPrintf (fuel + 1) ('%' :: (Nat.toDigits 10 w ++ 's' :: rest)) (.str s :: args)
      = (doPrintf fuel rest args).map (fun more => padString w true false s.data ++ more) := by
  obtain ⟨c, cs, hd, hlo, hhi⟩ := toDigitsCore_head (w + 1) w [] h0 (by omega)
  have hd' : Nat.toDigits 10 w = c :: cs := hd
  obtain ⟨h1, h2, h3, h4⟩ := digit_head_facts c hlo hhi
  have hp := parsenum_toDigits w 's' rest h0 hw (by decide)
  rw [hd'] at hp ⊢
  simp only [List.cons_append] at hp ⊢
  simp only [doPrintf, List.takeWhile, List.dropWhile, bne_self_eq_false, scanFlags, h1, h2, h3,
    h4, if_false, hp]
  have e1 : ¬ ('s' = '.' ∨ 's' = '[') := by decide
  have e2 : ¬ ('s' = '%') := by decide
  simp only [e1, e2, if_false, printArg, true_or, if_true, Bool.false_and, Bool.and_true,
    Bool.false_eq_true, List.nil_append]
  cases doPrintf fuel rest args <;> rfl

theorem doPrintf_minus_width (fuel w : Nat) (s : String) (rest : List Char) (args : List Arg)
    (h0 : 0 < w) (hw : w ≤ 10000009) :
    doPrintf (fuel + 1) ('%' :: '-' :: (Nat.toDigits 10 w ++ 's' :: rest)) (.str s :: args)
      = (doPrintf fuel rest args).map (fun more => padString w true true s.data ++ more) := by
  obtain ⟨c, cs, hd, hlo, hhi⟩ := toDigitsCore_head (w + 1) w [] h0 (by omega)
  have hd' : Nat.toDigits 10 w = c :: cs := hd
  obtain ⟨h1, h2, h3, h4⟩ := digit_head_facts c hlo hhi
  have hp := parsenum_toDigits w 's' rest h0 hw (by decide)
  rw [hd'] at hp ⊢
  simp only [List.cons_append] at hp ⊢
  simp only [doPrintf, List.takeWhile, List.dropWhile, bne_self_eq_false, scanFlags, h1, h2, h3,
    h4, if_false, if_true, hp]
  have e1 : ¬ ('s' = '.' ∨ 's' = '[') := by decide
  have e2 : ¬ ('s' = '%') := by decide
  simp only [e1, e2, if_false, printArg, true_or, if_true, Bool.false_and, Bool.and_true,
    Bool.false_eq_true, List.nil_append]
  cases doPrintf fuel rest args <;> rfl

theorem scanFlags_verb (minus zero : Bool) (rest : List Char) :
    scanFlags minus zero ('s' :: rest) = (minus, zero, 's' :: rest) := by
  rw [scanFlags]
  simp

theorem doPrintf_verb (fuel : Nat) (s : String) (flags rest : List Char) (args : List Arg)
    (minus zero : Bool) (h : scanFlags false false (flags ++ 's' :: rest) = (minus, zero, 's' :: rest)) :
    doPrintf (fuel + 1) ('%' :: (flags ++ 's' :: rest)) (.str s :: args)
      = (doPrintf fuel rest args).map (fun more => s.data ++ more) := by
  have e3 : ¬ ('s' = '#' ∨ 's' = '+' ∨ 's' = ' ' ∨ 's' = '[' ∨ 's' = '*' ∨ 's' = '.') := by decide
  have e4 : (97 ≤ 's'.toNat ∧ 's'.toNat ≤ 122) := by decide
  simp only [doPrintf, List.takeWhile, List.dropWhile, bne_self_eq_false, h, e3, e4, if_false,
    if_true, printArg, true_or, Bool.and_false, Bool.false_eq_true, padString, Bool.not_false,
    Bool.true_or, List.nil_append]
  cases doPrintf fuel rest args <;> rfl

theorem doPrintf_plain (fuel : Nat) (s : String) (rest : List Char) (args : List Arg) :
    doPrintf (fuel + 1) ('%' :: 's' :: rest) (.str s :: args)
      = (doPrintf fuel rest args).map (fun more => s.data ++ more) :=
  doPrintf_verb fuel s [] rest args false false (scanFlags_verb _ _ _)

theorem doPrintf_zero (fuel : Nat) (s : String) (rest : List Char) (args : List Arg) :
    doPrintf (fuel + 1) ('%' :: '0' :: 's' :: rest) (.str s :: args)
      = (doPrintf fuel rest args).map (fun more => s.data ++ more) :=
  doPrintf_verb fuel s ['0'] rest args false true (by
    show scanFlags false false ('0' :: 's' :: rest) = _
    rw [scanFlags]
    simp only [Char.reduceEq, if_false, if_true, Bool.not_false]
    exact scanFlags_verb _ _ _)

theorem doPrintf_minus_zero (fuel : Nat) (s : String) (rest : List Char) (args : List Arg) :
    doPrintf (fuel + 1) ('%' :: '-' :: '0' :: 's' :: rest) (.str s :: args)
      = (doPrintf fuel rest args).map (fun more => s.data ++ more) :=
  doPrintf_verb fuel s ['-', '0'] rest args true false (by
    show scanFlags false false ('-' :: '0' :: 's' :: rest) = _
    rw [scanFlags]
    simp only [if_true]
    rw [scanFlags]
    simp only [Char.reduceEq, if_false, if_true, Bool.not_true]
    exact scanFlags_verb _ _ _)

theorem doPrintf_end (fuel : Nat) : doPrintf (fuel + 1) [] [] = some [] := rfl

theorem Sprintf_right_format (w : Int) :
    Sprintf "%%%ds%%s" [.int w]
      = some (String.mk ('%' :: ((toString w).data ++ ['s', '%', 's']))) := by
  rfl

theorem Sprintf_left_format (w : Int) :
    Sprintf "%%-%ds%%s" [.int w]
      = some (String.mk ('%' :: '-' :: ((toString w).data ++ ['s', '%', 's']))) := by
  rfl

theorem Sprintf_center_format (a b : Int) :
    Sprintf "%%%ds%%%ds" [.int a, .int b]
      = some (String.mk ('%' :: ((toString a).data ++ 's' :: '%' :: ((toString b).data ++ ['s'])))) := by
  rfl

theorem toString_natCast (n : Nat) : (toString ((n : Nat) : Int)).data = Nat.toDigits 10 n := rfl

theorem toDigits_zero : Nat.toDigits 10 0 = ['0'] := rfl

theorem doPrintf_pad_left (k w : Nat) (hw : w ≤ 10000009) (val : String) :
    doPrintf (k + 3) ('%' :: (Nat.toDigits 10 w ++ ['s', '%', 's'])) [.str val, .str ""]
      = some (padString w true false val.data) := by
  rcases Nat.eq_zero_or_pos w with rfl | h0
  · rw [toDigits_zero]
    show doPrintf (k + 2 + 1) ('%' :: '0' :: 's' :: ['%', 's']) _ = _
    rw [doPrintf_zero, doPrintf_plain, doPrintf_end]
    simp [padString]
  · show doPrintf (k + 2 + 1) ('%' :: (Nat.toDigits 10 w ++ 's' :: ['%', 's'])) _ = _
    rw [doPrintf_width _ _ _ _ _ h0 hw, doPrintf_plain, doPrintf_end]
    simp

theorem doPrintf_pad_right (k w : Nat) (hw : w ≤ 10000009) (val : String) :
    doPrintf (k + 3) ('%' :: '-' :: (Nat.toDigits 10 w ++ ['s', '%', 's'])) [.str val, .str ""]
      = some (padString w true true val.data) := by
  rcases Nat.eq_zero_or_pos w with rfl | h0
  · rw [toDigits_zero]
    show doPrintf (k + 2 + 1) ('%' :: '-' :: '0' :: 's' :: ['%', 's']) _ = _
    rw [doPrintf_minus_zero, doPrintf_plain, doPrintf_end]
    simp [padString]
  · show doPrintf (k + 2 + 1) ('%' :: '-' :: (Nat.toDigits 10 w ++ 's' :: ['%', 's'])) _ = _
    rw [doPrintf_minus_width _ _ _ _ _ h0 hw, doPrintf_plain, doPrintf_end]
    simp

theorem doPrintf_pad_one (k w : Nat) (hw : w ≤ 10000009) (val : String) :
    doPrintf (k + 2) ('%' :: (Nat.toDigits 10 w ++ ['s'])) [.str val]
      = some (padString w true false val.data) := by
  rcases Nat.eq_zero_or_pos w with rfl | h0
  · rw [toDigits_zero]
    show doPrintf (k + 1 + 1) ('%' :: '0' :: 's' :: []) _ = _
    rw [doPrintf_zero, doPrintf_end]
    simp [padString]
  · show doPrintf (k + 1 + 1) ('%' :: (Nat.toDigits 10 w ++ 's' :: [])) _ = _
    rw [doPrintf_width _ _ _ _ _ h0 hw, doPrintf_end]
    simp

theorem doPrintf_pad_both (k a b : Nat) (ha : a ≤ 10000009) (hb : b ≤ 10000009) (val : String) :
    doPrintf (k + 3)
        ('%' :: (Nat.toDigits 10 a ++ 's' :: '%' :: (Nat.toDigits 10 b ++ ['s'])))
        [.str val, .str ""]
      = some (padString a true false val.data ++ padString b true false []) := by
  rcases Nat.eq_zero_or_pos a with rfl | h0
  · rw [toDigits_zero]
    show doPrintf (k + 2 + 1) ('%' :: '0' :: 's' :: ('%' :: (Nat.toDigits 10 b ++ ['s']))) _ = _
    rw [doPrintf_zero, doPrintf_pad_one k b hb]
    simp [padString]
  · rw [show k + 3 = k + 2 + 1 from rfl, doPrintf_width _ _ _ _ _ h0 ha, doPrintf_pad_one k b hb]
    simp

theorem Sprintf_mk (l : List Char) (a : List Arg) :
    Sprintf (String.mk l) a = (doPrintf (l.length + 1) l a).map String.mk := rfl

theorem padString_left (w : Nat) (s : List Char) (h : s.length ≤ w) :
    padString w true false s = List.replicate (w - s.length) ' ' ++ s := by
  rcases Nat.eq_zero_or_pos w with rfl | h0
  · have : s = [] := List.length_eq_zero.mp (by omega)
    subst this
    rfl
  · have : ¬ (w = 0) := by omega
    simp [padString, this]

theorem padString_right (w : Nat) (s : List Char) (h : s.length ≤ w) :
    padString w true true s = s ++ List.replicate (w - s.length) ' ' := by
  rcases Nat.eq_zero_or_pos w with rfl | h0
  · have : s = [] := List.length_eq_zero.mp (by omega)
    subst this
    rfl
  · have : ¬ (w = 0) := by omega
    simp [padString, this]

theorem formatColEntry_left (val : String) (pad : Nat)
    (hascii : ∀ c ∈ val.data, c.toNat < 128) (hmax : val.utf8ByteSize + pad ≤ 10000009) :
    formatColEntry val LEFT ((val.utf8ByteSize + pad : Nat) : Int) = some (val ++ blanks pad) := by
  have hl : val.data.length = val.utf8ByteSize := (utf8ByteSize_ascii val hascii).symm
  have h1 : (LEFT = RIGHT) = False := by simp [LEFT, RIGHT]
  have h2 : (LEFT = CENTER) = False := by simp [LEFT, CENTER]
  simp only [formatColEntry, h1, h2, if_false, Sprintf_left_format, Option.bind_eq_bind,
    Option.some_bind, Sprintf_mk, toString_natCast, List.length_cons, List.length_append,
    List.length_nil]
  rw [show (Nat.toDigits 10 (val.utf8ByteSize + pad)).length + (0 + 1 + 1 + 1) + 1 + 1 + 1
      = ((Nat.toDigits 10 (val.utf8ByteSize + pad)).length + 3) + 3 from by omega,
    doPrintf_pad_right _ _ hmax, padString_right _ _ (by omega), hl,
    Nat.add_sub_cancel_left]
  rfl

theorem formatColEntry_right (val : String) (pad : Nat)
    (hascii : ∀ c ∈ val.data, c.toNat < 128) (hmax : val.utf8ByteSize + pad ≤ 10000009) :
    formatColEntry val RIGHT ((val.utf8ByteSize + pad : Nat) : Int) = some (blanks pad ++ val) := by
  have hl : val.data.length = val.utf8ByteSize := (utf8ByteSize_ascii val hascii).symm
  simp only [formatColEntry, if_true, Sprintf_right_format, Option.bind_eq_bind,
    Option.some_bind, Sprintf_mk, toString_natCast, List.length_cons, List.length_append,
    List.length_nil]
  rw [show (Nat.toDigits 10 (val.utf8ByteSize + pad)).length + (0 + 1 + 1 + 1) + 1 + 1
      = ((Nat.toDigits 10 (val.utf8ByteSize + pad)).length + 2) + 3 from by omega,
    doPrintf_pad_left _ _ hmax, padString_left _ _ (by omega), hl,
    Nat.add_sub_cancel_left]
  rfl

theorem formatColEntry_center (val : String) (pad : Nat)
    (hascii : ∀ c ∈ val.data, c.toNat < 128) (hmax : val.utf8ByteSize + pad ≤ 10000009) :
    formatColEntry val CENTER ((val.utf8ByteSize + pad : Nat) : Int)
      = some (blanks (pad / 2) ++ val ++ blanks (pad - pad / 2)) := by
  have hl : val.data.length = val.utf8ByteSize := (utf8ByteSize_ascii val hascii).symm
  have h1 : (CENTER = RIGHT) = False := by simp [CENTER, RIGHT]
  have e1 : wrapInt (((val.utf8ByteSize + pad : Nat) : Int) - (val.utf8ByteSize : Int))
      = ((pad : Nat) : Int) := by
    rw [wrapInt_of_range] <;> push_cast <;> omega
  have e2 : ((pad : Nat) : Int).tdiv 2 = ((pad / 2 : Nat) : Int) := (Int.ofNat_tdiv pad 2).symm
  have e3 : wrapInt (((pad : Nat) : Int) - ((pad / 2 : Nat) : Int)) = ((pad - pad / 2 : Nat) : Int) := by
    rw [wrapInt_of_range] <;> omega
  have e4 : wrapInt ((val.utf8ByteSize : Int) + ((pad / 2 : Nat) : Int))
      = ((val.utf8ByteSize + pad / 2 : Nat) : Int) := by
    rw [wrapInt_of_range] <;> push_cast <;> omega
  simp only [formatColEntry, h1, if_false, if_true, e1, e2, e3, e4, Sprintf_center_format,
    Option.bind_eq_bind, Option.some_bind, Sprintf_mk, toString_natCast, List.length_cons,
    List.length_append, List.length_nil]
  rw [show (Nat.toDigits 10 (val.utf8ByteSize + pad / 2)).length +
        ((Nat.toDigits 10 (pad - pad / 2)).length + (0 + 1) + 1 + 1) + 1 + 1
      = ((Nat.toDigits 10 (val.utf8ByteSize + pad / 2)).length +
        (Nat.toDigits 10 (pad - pad / 2)).length + 2) + 3 from by omega,
    doPrintf_pad_both _ _ _ (by omega) (by omega), padString_left _ _ (by omega),
    padString_left _ [] (by simp), hl, Nat.add_sub_cancel_left]
  simp only [List.length_nil, Nat.sub_zero, List.append_nil, Option.map_some']
  rfl

theorem formatColEntry_default (val : String) (alignment : Alignment) (width : Int)
    (h1 : alignment ≠ RIGHT) (h2 : alignment ≠ CENTER) :
    formatColEntry val alignment width = formatColEntry val LEFT width := by
  have e1 : ¬ (LEFT = RIGHT) := by decide
  have e2 : ¬ (LEFT = CENTER) := by decide
  simp only [formatColEntry, h1, h2, e1, e2, if_false]

theorem length_blanks (n : Nat) : (blanks n).length = n := by
  simp [blanks, String.length]

/-- C21, counterexample: for the value `data` and the width 10000010 the
format `%10000010s%s` holds a width fmt refuses to read; the result for RIGHT
and for LEFT is an error text of 40 characters, not `data` between spaces, and
the same happens for CENTER at the width 20000030. -/
theorem formatColEntry_width_too_large :
    formatColEntry "data" RIGHT 10000010 = some "%!(NOVERB)%!(EXTRA string=data, string=)" ∧
    formatColEntry "data" LEFT 10000010 = some "%!(NOVERB)%!(EXTRA string=data, string=)" ∧
    formatColEntry "data" CENTER 20000030 = some "%!(NOVERB)%!(EXTRA string=data, string=)" ∧
    "%!(NOVERB)%!(EXTRA string=data, string=)".length = 40 := by
  decide

/-! ## The picture of a roll (dice_roll.go) -/

set_option maxRecDepth 100000 in
theorem dice_art_table : ∀ a ∈ [1, 2, 3, 4, 5, 6], ∀ b ∈ [1, 2, 3, 4, 5, 6],
    (Dice.String ⟨a, b⟩).map (fun s =>
        (s.data.count DOT, (textLines s.data).map List.length,
          ((textLines s.data).map (fun l => (l.take 11).count DOT)).sum,
          ((textLines s.data).map (fun l => (l.drop 12).count DOT)).sum))
      = some (a + b, [23, 23, 23, 23, 23], a, b) := by
  decide

/-- C23: for dice with both faces from 1 to 6, `Dice.String` returns a text of
five lines of 23 characters each; it holds `d0 + d1` dots, `d0` of them in
the columns of the left box (the first 11 of each line) and `d1` in the
columns of the right box (from the 13th on). -/
theorem dice_art_shows_faces (d : Dice) (h0 : 1 ≤ d.d0 ∧ d.d0 ≤ 6)
    (h1 : 1 ≤ d.d1 ∧ d.d1 ≤ 6) :
    ∃ s, d.String = some s ∧ s.data.count DOT = d.d0 + d.d1 ∧
      ((textLines s.data).map (fun l => (l.take 11).count DOT)).sum = d.d0 ∧
      ((textLines s.data).map (fun l => (l.drop 12).count DOT)).sum = d.d1 ∧
      (textLines s.data).length = 5 ∧ ∀ l ∈ textLines s.data, l.length = 23 := by
  obtain ⟨a, b⟩ := d
  have ha : a ∈ [1, 2, 3, 4, 5, 6] := by
    simp only [List.mem_cons, List.mem_singleton]; simp only at h0; omega
  have hb : b ∈ [1, 2, 3, 4, 5, 6] := by
    simp only [List.mem_cons, List.mem_singleton]; simp only at h1; omega
  have h := dice_art_table a ha b hb
  cases hs : Dice.String ⟨a, b⟩ with
  | none => rw [hs] at h; exact absurd h (by simp)
  | some s =>
    rw [hs] at h
    simp only [Option.map_some', Option.some.injEq, Prod.mk.injEq] at h
    obtain ⟨hc, hlines, hleft, hright⟩ := h
    refine ⟨s, rfl, hc, hleft, hright, ?_, ?_⟩
    · have := congrArg List.length hlines
      simpa using this
    · intro l hl
      have hmem : l.length ∈ (textLines s.data).map List.length := List.mem_map_of_mem _ hl
      rw [hlines] at hmem
      simpa using hmem

theorem dice_art_shows_faces_witness :
    ((1 ≤ 3 ∧ 3 ≤ 6) ∧ (1 ≤ 6 ∧ 6 ≤ 6)) ∧
    ∃ s, Dice.String ⟨3, 6⟩ = some s ∧ s.data.count DOT = 3 + 6 ∧
      ((textLines s.data).map (fun l => (l.take 11).count DOT)).sum = 3 ∧
      ((textLines s.data).map (fun l => (l.drop 12).count DOT)).sum = 6 ∧
      (textLines s.data).length = 5 ∧ ∀ l ∈ textLines s.data, l.length = 23 :=
  ⟨by decide, dice_art_shows_faces ⟨3, 6⟩ (by decide) (by decide)⟩

/-! ## The command line (main.go) -/

theorem askAiAgentsToBank_no_players (g : Game) (w : World) (hp : g.players = [])
    (hmo : w.mapOrder = fun _ m => m) :
    g.askAiAgentsToBank w = .ok (g, { w with ranged := w.ranged + 1 }) := by
  simp [Game.askAiAgentsToBank, World.range, hp, hmo, Game.askEach]

theorem promptLoop_end_of_input (rd : round) (k : Nat) (g : Game) (w : World)
    (hin : w.stdin = []) : Game.promptLoop rd (k + 1) g w = .ok (g, w) := by
  cases w with
  | mk stdin stdout mapOrder ranged =>
    simp only at hin
    subst hin
    rfl

theorem rollLoop_no_players (fuel : Nat) (g : Game) (dice : Dice) (rd : round) (w : World)
    (hp : g.players = []) (hr : g.results = results.new) (hin : w.stdin = [])
    (hmo : w.mapOrder = fun _ m => m) :
    ∃ w', Game.rollLoop (fuel + 1) g dice true rd w = .ok (dice, rd, true, g, w') ∧
      w'.stdin = [] ∧ w'.mapOrder = fun _ m => m := by
  have hu : g.results.getUnbankedPlayers = .ok [] := by rw [hr]; rfl
  refine ⟨{ (((w.print (.dice dice)).print (.currentPoints rd.points)).print
      (.rollNumber rd.rolls.length)) with ranged := w.ranged + 1 }, ?_, hin, hmo⟩
  rw [Game.rollLoop]
  simp only [askAiAgentsToBank_no_players g _ hp
    (show (((w.print (.dice dice)).print (.currentPoints rd.points)).print
      (.rollNumber rd.rolls.length)).mapOrder = fun _ m => m from hmo), bind, Except.bind]
  rw [show ({ (((w.print (.dice dice)).print (.currentPoints rd.points)).print
      (.rollNumber rd.rolls.length)) with ranged :=
        (((w.print (.dice dice)).print (.currentPoints rd.points)).print
          (.rollNumber rd.rolls.length)).ranged + 1 } : World).stdin.length + 1 = 0 + 1 from by
      simp [World.print, hin]]
  rw [promptLoop_end_of_input rd 0 g _ (by simp [World.print, hin])]
  simp only [hu, List.length_nil, if_true]
  rfl

theorem startRound_no_players (fuel : Nat) (g : Game) (w : World)
    (hp : g.players = []) (hr : g.results = results.new)
    (hrounds : g.rounds = List.replicate 20 { points := 0, rolls := [] })
    (hcur : g.currentRound < 20) (hin : w.stdin = []) (hmo : w.mapOrder = fun _ m => m) :
    ∃ w', g.startRound (fuel + 1) w = .ok ({ g with r := (Dice.roll g.r).2 }, w') ∧
      w'.stdin = [] ∧ w'.mapOrder = fun _ m => m := by
  have hrd : indexRound g.rounds g.currentRound = .ok { points := 0, rolls := [] } := by
    rw [hrounds]
    unfold indexRound
    rw [List.get?_eq_getElem?, List.getElem?_replicate]
    simp [hcur]
  have hroll := roll_eq g { points := 0, rolls := [] }
  have hcont : ((Dice.roll g.r).1.Points ((([] : List Dice).length + 1 : Nat) : Int) 0).2 = true := by
    simp [Dice.Points]
  simp only [hcont, if_true] at hroll
  obtain ⟨w', hloop, hin', hmo'⟩ := rollLoop_no_players fuel { g with r := (Dice.roll g.r).2 }
    (Dice.roll g.r).1
    { points := ((Dice.roll g.r).1.Points ((([] : List Dice).length + 1 : Nat) : Int) 0).1,
      rolls := [] ++ [(Dice.roll g.r).1] }
    (w.print (.startingRound ((g.currentRound + 1) % 256))) hp hr hin hmo
  refine ⟨w'.print (.roundDone ((g.currentRound + 1) % 256)), ?_, hin', hmo'⟩
  unfold Game.startRound
  simp only [hrd, bind, Except.bind, hroll, hloop]
  rfl

theorem runRounds_no_players (fuel : Nat) : ∀ (n : Nat) (g : Game) (w : World),
    g.currentRound + n = 20 → g.players = [] → g.results = results.new →
    g.rounds = List.replicate 20 { points := 0, rolls := [] } → w.stdin = [] →
    (w.mapOrder = fun _ m => m) →
    ∃ g' w', Game.runRounds (fuel + 1) n g w = .ok (g', w') ∧ g'.currentRound = 20 ∧
      g'.players = [] ∧ g'.results = results.new := by
  intro n
  induction n with
  | zero =>
    intro g w hn hp hr _ _ _
    refine ⟨g, w, ?_, by omega, hp, hr⟩
    have : ¬ g.currentRound < MAX_ROUNDS := by simp only [MAX_ROUNDS]; omega
    simp only [Game.runRounds, this, if_false]
  | succ n ih =>
    intro g w hn hp hr hrounds hin hmo
    have hlt : g.currentRound < MAX_ROUNDS := by simp only [MAX_ROUNDS]; omega
    obtain ⟨w1, hstart, hin1, hmo1⟩ :=
      startRound_no_players fuel g w hp hr hrounds (by omega) hin hmo
    have hun : results.new.unbankAllPlayers = .ok results.new := rfl
    have hst : results.new.standings = .ok [] := rfl
    obtain ⟨g', w', hrun, hcur, hp', hr'⟩ :=
      ih { g with r := (Dice.roll g.r).2, currentRound := (g.currentRound + 1) % 256 }
        (w1.print (.standings [])) (by simp only; omega) hp hr hrounds hin1 hmo1
    refine ⟨g', w', ?_, hcur, hp', hr'⟩
    rw [← hrun]
    simp only [Game.runRounds, hlt, if_true, hstart, bind, Except.bind, hr, hun, hst]

/-- C22 (defect of the code): when no name is entered before `done` and no
agent is added, `main` calls `StartGame` on a game without players.  The loop
of the 20 rounds returns, each round ending after its first roll, and leaves
the leader of the standings nil; the announcement of the winner then
dereferences it in `g.results.firstPlayer.Name()`: `StartGame` panics and
does not return nil.  This holds for every seed and every random source. -/
theorem StartGame_without_players_panics (source : Int → Rand) (seed : Int) (fuel : Nat) :
    addNamedPlayers ["done", "n"] (NewGame source seed) = .ok (NewGame source seed, ["n"]) ∧
    askAddAgents ["n"] (NewGame source seed) = .ok (NewGame source seed, []) ∧
    (NewGame source seed).players = [] ∧
    (∃ g w, Game.runRounds (fuel + 1) 20 { NewGame source seed with started := true }
        (terminal []) = .ok (g, w) ∧ g.currentRound = 20 ∧ g.results.firstPlayer = none) ∧
    (NewGame source seed).StartGame (fuel + 1) (terminal []) = .error .panic ∧
    main source seed (fuel + 1) (terminal ["done", "n"]) = .error .panic := by
  have h1 : addNamedPlayers ["done", "n"] (NewGame source seed)
      = .ok (NewGame source seed, ["n"]) := by
    simp only [addNamedPlayers]
    rw [if_pos (by decide)]
  have h2 : askAddAgents ["n"] (NewGame source seed) = .ok (NewGame source seed, []) := by
    simp only [askAddAgents]
    rw [if_pos (by decide)]
  obtain ⟨g0, w0, hrun0, hcur0, _, hr0⟩ := runRounds_no_players fuel 20
    { NewGame source seed with started := true } (terminal []) rfl rfl rfl rfl rfl rfl
  obtain ⟨g, w, hrun, _, _, hr⟩ := runRounds_no_players fuel 20
    { NewGame source seed with started := true }
    ((((terminal []).range []).2.print .startingGame).print (.roster []))
    rfl rfl rfl rfl rfl rfl
  have h3 : (NewGame source seed).StartGame (fuel + 1) (terminal []) = .error .panic := by
    change (Game.runRounds (fuel + 1) 20 { NewGame source seed with started := true }
          ((((terminal []).range []).2.print .startingGame).print (.roster []))
        >>= fun out => (out.1.results.deref out.1.results.firstPlayer >>= fun first =>
          pure (none, out.1, out.2.print (.winner first.Name)))) = _
    rw [hrun]
    simp only [bind, Except.bind, hr]
    rfl
  refine ⟨h1, h2, rfl, ⟨g0, w0, hrun0, hcur0, by rw [hr0]; rfl⟩, h3, ?_⟩
  simp only [main, terminal, h1, h2, bind, Except.bind]
  exact h3

/-! ## Rounds ended by a seven (game.go) -/

/-- C12: a roll at position 4 or later (at least three rolls recorded before
it) whose face sum is 7 ends the round.  Such a roll returns false from
`roll`, is recorded as one more roll, and leaves the points of the round and
the standings as they were.  A turn of the round loop in which the agents and
the prompt have returned, someone has not banked, and the roll then made is
such a roll, returns right after that roll with `bankedRound` false: the
terminal is as the prompt left it, so nothing more is printed or read in the
loop, and the game is the game the prompt left but for the generator, so every
participant has the points it had before that roll, banked or not.  When the
loop has returned in this way, `startRound` prints the dice, the roll number
and the end of the round, and returns that game.  And in every round on
standings built by the game, a participant whose banked flag is not set when
the round is over has the cumulative points it had when the round began. -/
theorem late_seven_ends_round (fuel : Nat) (g : Game) (dice : Dice) (rd : round) (w : World) :
    (3 ≤ rd.rolls.length → (Dice.roll g.r).1.d0 + (Dice.roll g.r).1.d1 = 7 →
      g.roll rd = (((Dice.roll g.r).1, false),
        { points := rd.points, rolls := rd.rolls ++ [(Dice.roll g.r).1] },
        { g with r := (Dice.roll g.r).2 })) ∧
    (∀ (ga g1 : Game) (wa w1 : World) (unbanked : List playerNode),
      3 ≤ rd.rolls.length →
      g.askAiAgentsToBank (((w.print (.dice dice)).print (.currentPoints rd.points)).print
        (.rollNumber rd.rolls.length)) = .ok (ga, wa) →
      Game.promptLoop rd (wa.stdin.length + 1) ga wa = .ok (g1, w1) →
      g1.results.getUnbankedPlayers = .ok unbanked → unbanked ≠ [] →
      (Dice.roll g1.r).1.d0 + (Dice.roll g1.r).1.d1 = 7 →
      Game.rollLoop (fuel + 1) g dice true rd w
        = .ok ((Dice.roll g1.r).1,
            { points := rd.points, rolls := rd.rolls ++ [(Dice.roll g1.r).1] }, false,
            { g1 with r := (Dice.roll g1.r).2 }, w1)) ∧
    (∀ (rd0 rd1 : round) (dice1 : Dice) (g1 : Game) (w1 : World),
      indexRound g.rounds g.currentRound = .ok rd0 →
      Game.rollLoop fuel (g.roll rd0).2.2 (g.roll rd0).1.1 (g.roll rd0).1.2 (g.roll rd0).2.1
          (w.print (.startingRound ((g.currentRound + 1) % 256)))
        = .ok (dice1, rd1, false, g1, w1) →
      g.startRound fuel w
        = .ok (g1, ((w1.print (.dice dice1)).print (.rollNumber rd1.rolls.length)).print
            (.roundDone ((g1.currentRound + 1) % 256)))) ∧
    (Built g.results → ∀ g' w', g.startRound fuel w = .ok (g', w') →
      Kept g.results g'.results) := by
  have hroll : ∀ (g0 : Game), 3 ≤ rd.rolls.length →
      (Dice.roll g0.r).1.d0 + (Dice.roll g0.r).1.d1 = 7 →
      g0.roll rd = (((Dice.roll g0.r).1, false),
        { points := rd.points, rolls := rd.rolls ++ [(Dice.roll g0.r).1] },
        { g0 with r := (Dice.roll g0.r).2 }) := by
    intro g0 hpos hseven
    rw [roll_eq]
    have hn : ¬ (((rd.rolls.length + 1 : Nat) : Int) ≤ 3) := by omega
    have hp : (Dice.roll g0.r).1.Points ((rd.rolls.length + 1 : Nat) : Int) rd.points
        = (0, false) := by
      simp only [Dice.Points, hseven, hn, if_false]
      simp
    simp only [hp, Bool.false_eq_true, if_false]
  refine ⟨hroll g, ?_, ?_, ?_⟩
  · intro ga g1 wa w1 unbanked hpos hask hprompt hunb hne hseven
    have hlen : ¬ (unbanked.length = 0) := fun h => hne (List.length_eq_zero.mp h)
    rw [Game.rollLoop]
    simp only [hask, hprompt, hunb, bind, Except.bind, hlen, if_false, hroll g1 hpos hseven]
    cases fuel <;> rfl
  · intro rd0 rd1 dice1 g1 w1 hrd hloop
    unfold Game.startRound
    simp only [hrd, bind, Except.bind, hloop]
    rfl
  · intro hb g' w' hrun
    exact (startRound_results (fun r => Built r ∧ Kept g.results r)
      (fun r p pts r' b h hbank => Kept.of_playerBanks p pts b h hbank)
      fuel g g' w w' ⟨hb, Kept.refl _⟩ hrun).2

set_option maxRecDepth 100000 in
theorem late_seven_ends_round_witness :
    (3 ≤ roundOfThree.rolls.length ∧
      (Dice.roll gameABLate.r).1.d0 + (Dice.roll gameABLate.r).1.d1 = 7 ∧
      Built gameAB.results) ∧
    gameABLate.roll roundOfThree
      = ((⟨2, 5⟩, false), { points := 6, rolls := [⟨1, 1⟩, ⟨1, 1⟩, ⟨1, 1⟩, ⟨2, 5⟩] },
          { gameABLate with r := { sevenOnFourth with pos := 8 } }) ∧
    (∃ ga wa w1 unbanked,
      gameABLate.askAiAgentsToBank ((((terminal []).print (.dice ⟨1, 1⟩)).print
        (.currentPoints 6)).print (.rollNumber 3)) = .ok (ga, wa) ∧
      Game.promptLoop roundOfThree (wa.stdin.length + 1) ga wa = .ok (gameABLate, w1) ∧
      gameABLate.results.getUnbankedPlayers = .ok unbanked ∧ unbanked ≠ [] ∧
      Game.rollLoop 1 gameABLate ⟨1, 1⟩ true roundOfThree (terminal [])
        = .ok (⟨2, 5⟩, { points := 6, rolls := [⟨1, 1⟩, ⟨1, 1⟩, ⟨1, 1⟩, ⟨2, 5⟩] }, false,
            { gameABLate with r := { sevenOnFourth with pos := 8 } }, w1)) ∧
    ∃ g' w', gameAB.startRound 4 (terminal ["b", "B", "d"]) = .ok (g', w') ∧
      g'.results.table = .ok [("A", 0), ("B", 2)] ∧
      w'.stdout.drop 10 = [.dice ⟨2, 5⟩, .rollNumber 4, .roundDone 1] ∧ w'.stdin = [] ∧
      Kept gameAB.results g'.results :=
  ⟨⟨by decide, by decide, built_standingsAB⟩,
   (late_seven_ends_round 0 gameABLate ⟨1, 1⟩ roundOfThree (terminal [])).1
     (by decide) (by decide),
   ⟨gameABLate,
    { (((terminal []).print (.dice ⟨1, 1⟩)).print (.currentPoints 6)).print (.rollNumber 3)
      with ranged := 1 },
    { (((terminal []).print (.dice ⟨1, 1⟩)).print (.currentPoints 6)).print (.rollNumber 3)
      with ranged := 1 },
    [⟨"A", false, 0, false, none, some "B"⟩, ⟨"B", false, 0, false, none, none⟩], rfl, rfl, rfl, by decide,
    (late_seven_ends_round 0 gameABLate ⟨1, 1⟩ roundOfThree (terminal [])).2.1
      gameABLate gameABLate _ _ _ (by decide) rfl rfl rfl (by decide) (by decide)⟩,
   (ok_of_isSome (gameAB.startRound 4 (terminal ["b", "B", "d"])) (by decide)).elim
     (fun a h => ⟨a.1, a.2, h,
       by
         have h2 : (do let (g', _) ← gameAB.startRound 4 (terminal ["b", "B", "d"])
                       g'.results.table) = .ok [("A", 0), ("B", 2)] := by decide
         rw [h] at h2
         exact h2,
       by
         have h2 : (do let (_, w') ← gameAB.startRound 4 (terminal ["b", "B", "d"])
                       pure (w'.stdout.drop 10, w'.stdin))
             = .ok ([.dice ⟨2, 5⟩, .rollNumber 4, .roundDone 1], []) := by decide
         rw [h] at h2
         simp only [bind, Except.bind, pure, Except.pure, Except.ok.injEq, Prod.mk.injEq] at h2
         exact h2.1,
       by
         have h2 : (do let (_, w') ← gameAB.startRound 4 (terminal ["b", "B", "d"])
                       pure w'.stdin) = .ok [] := by decide
         rw [h] at h2
         simp only [bind, Except.bind, pure, Except.pure, Except.ok.injEq] at h2
         exact h2,
       (late_seven_ends_round 4 gameAB ⟨1, 1⟩ roundOfThree (terminal ["b", "B", "d"])).2.2.2
         built_standingsAB a.1 a.2 h⟩)⟩

/-! ## Consultation passes (game.go) -/

theorem World.announce_nil (w : World) : w.announce [] = w := by
  simp [World.announce]

theorem World.announce_append (w : World) (a b : List String) :
    (w.announce a).announce b = w.announce (a ++ b) := by
  simp [World.announce]

theorem askOne_askable (g g' : Game) (w w' : World) (p : Player) (hai : p.AiAgent = true)
    (h : g.askOne w p = .ok (g', w')) : ∃ n, g.results.node p.Name = some n := by
  unfold Game.askOne at h
  simp only [hai, if_true, bind, Except.bind, results.playerBanked, results.deref] at h
  cases hn : g.results.node p.Name with
  | none => simp [hn] at h
  | some n => exact ⟨n, rfl⟩

/-- What one consultation does on standings without `ahead` links, when the
stored round exists and the node of an agent exists. -/
theorem askOne_eq_consult (g : Game) (w : World) (p : Player) (rd : round)
    (hinv : NoAhead g.results) (hrd : indexRound g.rounds g.currentRound = .ok rd)
    (hnode : p.AiAgent = true → ∃ n, g.results.node p.Name = some n) :
    g.askOne w p = .ok (consult rd.points g p, w.announce (said g p)) := by
  cases hai : p.AiAgent with
  | false =>
    simp [Game.askOne, consult, resultsAfter, playersAfter, said, banksNow, hai, pure,
      Except.pure, World.announce]
  | true =>
    obtain ⟨n, hn⟩ := hnode hai
    have hbank := playerBanks_of_noAhead g.results p rd.points n hn hinv
    cases hb : (!n.banked && p.Bank g.view p.calls) with
    | false =>
      simp [Game.askOne, consult, resultsAfter, playersAfter, said, banksNow, hai, hn, hb, bind,
        Except.bind, pure, Except.pure, results.playerBanked, results.deref, World.announce]
    | true =>
      simp [Game.askOne, consult, resultsAfter, playersAfter, said, banksNow, hai, hn, hb, bind,
        Except.bind, pure, Except.pure, results.playerBanked, results.deref, World.announce,
        hrd, hbank, World.print]

theorem updateNode_comm (f f' : playerNode → playerNode) (a b : String) (hab : a ≠ b) :
    ∀ l : List (String × playerNode),
      updateNode f' (updateNode f l a) b = updateNode f (updateNode f' l b) a := by
  intro l
  induction l with
  | nil => rfl
  | cons e rest ih =>
    obtain ⟨k, n⟩ := e
    have hba : ¬ b = a := fun h => hab h.symm
    by_cases hka : k = a
    · subst hka
      simp [updateNode, hab, hba]
    · by_cases hkb : k = b
      · subst hkb
        simp [updateNode, hab, hba]
      · simp [updateNode, hka, hkb, ih]

theorem updatePlayer_comm (f f' : Player → Player) (a b : String) (hab : a ≠ b) :
    ∀ l : List (String × Player),
      updatePlayer f' (updatePlayer f l a) b = updatePlayer f (updatePlayer f' l b) a := by
  intro l
  induction l with
  | nil => rfl
  | cons e rest ih =>
    obtain ⟨k, n⟩ := e
    have hba : ¬ b = a := fun h => hab h.symm
    by_cases hka : k = a
    · subst hka
      simp [updatePlayer, hab, hba]
    · by_cases hkb : k = b
      · subst hkb
        simp [updatePlayer, hab, hba]
      · simp [updatePlayer, hka, hkb, ih]

theorem node_bankedResults_ne (r : results) (a k : String) (pts : Nat) (ai : Bool)
    (hk : k ≠ a) : (bankedResults r a pts ai).node k = r.node k := by
  cases ai <;> simp [bankedResults, results.node, results.set, lookupNode_updateNode, hk]

theorem node_bankedResults_kind (r : results) (a k : String) (pts : Nat) (ai : Bool) :
    ((bankedResults r a pts ai).node k).map playerNode.AiAgent
      = (r.node k).map playerNode.AiAgent := by
  by_cases hk : k = a
  · subst hk
    cases ai <;> cases h : lookupNode r.players k <;>
      simp [bankedResults, results.node, results.set, lookupNode_updateNode, h]
  · rw [node_bankedResults_ne r a k pts ai hk]

theorem bankedResults_comm (r : results) (a b : String) (pa pb : Nat) (ai bi : Bool)
    (hab : a ≠ b) :
    bankedResults (bankedResults r a pa ai) b pb bi
      = bankedResults (bankedResults r b pb bi) a pa ai := by
  have h1 := fun (f f' : playerNode → playerNode) (l : List (String × playerNode)) =>
    updateNode_comm f f' a b hab l
  cases ai <;> cases bi <;> simp [bankedResults, results.set, h1]

theorem node_resultsAfter_ne (pts : Nat) (g : Game) (p : Player) (k : String)
    (hk : k ≠ p.Name) : (resultsAfter pts g p).node k = g.results.node k := by
  unfold resultsAfter
  split_ifs
  · split
    · exact node_bankedResults_ne _ _ _ _ _ hk
    · rfl
  · rfl

theorem node_resultsAfter_kind (pts : Nat) (g : Game) (p : Player) (k : String) :
    ((resultsAfter pts g p).node k).map playerNode.AiAgent
      = (g.results.node k).map playerNode.AiAgent := by
  unfold resultsAfter
  split_ifs
  · split
    · exact node_bankedResults_kind _ _ _ _ _
    · rfl
  · rfl

theorem node_resultsAfter_isSome (pts : Nat) (g : Game) (p : Player) (k : String) :
    ((resultsAfter pts g p).node k).isSome = (g.results.node k).isSome := by
  have h := congrArg Option.isSome (node_resultsAfter_kind pts g p k)
  simpa using h

theorem NoAhead.resultsAfter {g : Game} (h : NoAhead g.results) (pts : Nat) (p : Player) :
    NoAhead (resultsAfter pts g p) := by
  unfold game.resultsAfter
  split_ifs
  · split
    · exact h.bankedResults _ _ _
    · exact h
  · exact h

theorem map_updatePlayer_of_eq {β : Type} (F : String × Player → β) (f : Player → Player)
    (key : String) (hF : ∀ x, F (key, f x) = F (key, x)) : ∀ l : List (String × Player),
    (updatePlayer f l key).map F = l.map F := by
  intro l
  induction l with
  | nil => rfl
  | cons e rest ih =>
    obtain ⟨k, x⟩ := e
    by_cases hk : k = key
    · subst hk; simp [updatePlayer, hF]
    · simp [updatePlayer, hk, ih]

theorem map_updateNode_of_eq {β : Type} (F : String × playerNode → β)
    (f : playerNode → playerNode) (key : String) : ∀ l : List (String × playerNode),
    (∀ x, lookupNode l key = some x → F (key, f x) = F (key, x)) →
    (updateNode f l key).map F = l.map F := by
  intro l
  induction l with
  | nil => intro _; rfl
  | cons e rest ih =>
    intro hF
    obtain ⟨k, x⟩ := e
    by_cases hk : k = key
    · subst hk
      have := hF x (by simp [lookupNode])
      simp [updateNode, this]
    · have hrest : ∀ y, lookupNode rest key = some y → F (key, f y) = F (key, y) := by
        intro y hy
        exact hF y (by simp [lookupNode, hk, hy])
      simp [updateNode, hk, ih hrest]

/-- A consultation of `q` changes nothing of what a player with another name
sees, once the other agents are blanked out. -/
theorem view_consult_hide (pts : Nat) (g : Game) (p q : Player) (hne : q.Name ≠ p.Name)
    (hmark : q.AiAgent = true → ∀ n, g.results.node q.Name = some n → n.AiAgent = true) :
    (consult pts g q).view.hideOthers p.Name = g.view.hideOthers p.Name := by
  have hroster : (playersAfter g.players q).map
        (fun e : String × Player => hideCalls p.Name (e.1, e.2.AiAgent, e.2.calls))
      = g.players.map
        (fun e : String × Player => hideCalls p.Name (e.1, e.2.AiAgent, e.2.calls)) := by
    unfold playersAfter
    split_ifs
    · apply map_updatePlayer_of_eq
      intro x
      simp [hideCalls, hne]
    · rfl
  have hres : (resultsAfter pts g q).players.map (hideNode p.Name)
      = g.results.players.map (hideNode p.Name) ∧
      (resultsAfter pts g q).firstPlayer = g.results.firstPlayer ∧
      (resultsAfter pts g q).largestName = g.results.largestName ∧
      (resultsAfter pts g q).humanPlayers = g.results.humanPlayers ∧
      (resultsAfter pts g q).bankedHumanPlayers = g.results.bankedHumanPlayers := by
    unfold resultsAfter
    by_cases hb : banksNow g q = true
    · have hq : q.AiAgent = true := by
        unfold banksNow at hb
        simp only [Bool.and_eq_true] at hb
        exact hb.1
      simp only [hb, if_true]
      cases hn : g.results.node q.Name with
      | none => simp
      | some n =>
        have hai := hmark hq n hn
        have hn' : lookupNode g.results.players q.Name = some n := hn
        simp only [hai, bankedResults, results.set, Bool.not_true, Bool.false_eq_true, if_false]
        refine ⟨?_, trivial, trivial, trivial, trivial⟩
        rw [map_updateNode_of_eq, map_updateNode_of_eq]
        · intro x hx
          rw [hn'] at hx
          cases hx
          simp [hideNode, hne, hai]
        · intro x hx
          rw [lookupNode_updateNode] at hx
          simp only [if_true, hn', Option.map_some', Option.some.injEq] at hx
          subst hx
          simp [hideNode, hne, hai]
    · simp [hb]
  obtain ⟨h1, h2, h3, h4, h5⟩ := hres
  simp only [GameView.hideOthers, Game.view, consult, List.map_map, Function.comp_def]
  simp only [hroster, h1, h2, h3, h4, h5]

theorem banksNow_consult_ne (pts : Nat) (g : Game) (p q : Player) (hne : q.Name ≠ p.Name)
    (hmark : q.AiAgent = true → ∀ n, g.results.node q.Name = some n → n.AiAgent = true)
    (hquiet : p.AiAgent = true → IgnoresOthers p) :
    banksNow (consult pts g q) p = banksNow g p := by
  unfold banksNow
  cases hp : p.AiAgent with
  | false => rfl
  | true =>
    have hnode : (consult pts g q).results.node p.Name = g.results.node p.Name :=
      node_resultsAfter_ne pts g q p.Name (fun h => hne h.symm)
    have hbank : p.Bank (consult pts g q).view p.calls = p.Bank g.view p.calls := by
      rw [hquiet hp (consult pts g q).view, hquiet hp g.view,
        view_consult_hide pts g p q hne hmark]
    rw [hnode, hbank]

theorem said_consult_ne (pts : Nat) (g : Game) (p q : Player) (hne : q.Name ≠ p.Name)
    (hmark : q.AiAgent = true → ∀ n, g.results.node q.Name = some n → n.AiAgent = true)
    (hquiet : p.AiAgent = true → IgnoresOthers p) :
    said (consult pts g q) p = said g p := by
  simp only [said, banksNow_consult_ne pts g p q hne hmark hquiet]

theorem resultsAfter_def (pts : Nat) (g : Game) (p : Player) :
    resultsAfter pts g p
      = if banksNow g p then
          match g.results.node p.Name with
          | some n => bankedResults g.results p.Name pts n.AiAgent
          | none => g.results
        else g.results := rfl

theorem playersAfter_comm (l : List (String × Player)) (p q : Player) (h : p.Name ≠ q.Name) :
    playersAfter (playersAfter l p) q = playersAfter (playersAfter l q) p := by
  unfold playersAfter
  cases p.AiAgent <;> cases q.AiAgent <;> simp [updatePlayer_comm _ _ _ _ h]

theorem consult_eq (pts : Nat) (g : Game) (p : Player) :
    consult pts g p = Game.mk g.started g.currentRound g.rounds (playersAfter g.players p)
      (resultsAfter pts g p) g.seed g.r g.onlyAI := rfl

/-- Two consultations of players with different names commute, when each of
the two ignores the other agents and the node of each is marked as it is. -/
theorem consult_comm (pts : Nat) (g : Game) (p q : Player) (h : p.Name ≠ q.Name)
    (hmp : p.AiAgent = true → ∀ n, g.results.node p.Name = some n → n.AiAgent = true)
    (hmq : q.AiAgent = true → ∀ n, g.results.node q.Name = some n → n.AiAgent = true)
    (hqp : p.AiAgent = true → IgnoresOthers p) (hqq : q.AiAgent = true → IgnoresOthers q) :
    consult pts (consult pts g p) q = consult pts (consult pts g q) p := by
  have hqp' : q.Name ≠ p.Name := fun e => h e.symm
  have h1 : resultsAfter pts (consult pts g p) q
      = if banksNow g q then
          match g.results.node q.Name with
          | some n => bankedResults (resultsAfter pts g p) q.Name pts n.AiAgent
          | none => resultsAfter pts g p
        else resultsAfter pts g p := by
    rw [resultsAfter_def pts (consult pts g p) q, banksNow_consult_ne pts g q p h hmp hqq]
    have : (consult pts g p).results.node q.Name = g.results.node q.Name :=
      node_resultsAfter_ne pts g p q.Name hqp'
    rw [this]
    rfl
  have h2 : resultsAfter pts (consult pts g q) p
      = if banksNow g p then
          match g.results.node p.Name with
          | some n => bankedResults (resultsAfter pts g q) p.Name pts n.AiAgent
          | none => resultsAfter pts g q
        else resultsAfter pts g q := by
    rw [resultsAfter_def pts (consult pts g q) p, banksNow_consult_ne pts g p q hqp' hmq hqp]
    have : (consult pts g q).results.node p.Name = g.results.node p.Name :=
      node_resultsAfter_ne pts g q p.Name h
    rw [this]
    rfl
  have hres : resultsAfter pts (consult pts g p) q = resultsAfter pts (consult pts g q) p := by
    rw [h1, h2]
    unfold resultsAfter
    cases banksNow g p <;> cases banksNow g q <;> cases g.results.node p.Name <;>
      cases g.results.node q.Name <;> simp [bankedResults_comm _ _ _ _ _ _ _ h]
  have hpl : playersAfter (consult pts g p).players q = playersAfter (consult pts g q).players p :=
    playersAfter_comm g.players p q h
  rw [consult_eq pts (consult pts g p) q, consult_eq pts (consult pts g q) p, hres, hpl]
  rfl

theorem node_resultsAfter_exists (pts : Nat) (g : Game) (p : Player) (k : String) :
    (∃ n, (resultsAfter pts g p).node k = some n) ↔ ∃ n, g.results.node k = some n := by
  rw [← Option.isSome_iff_exists, ← Option.isSome_iff_exists, node_resultsAfter_isSome]

/-- The nodes of the agents of `l` are marked as agents in the game `g`. -/
theorem marked_consult (pts : Nat) (g : Game) (p : Player) (l : List (String × Player))
    (h : ∀ e ∈ l, e.2.AiAgent = true → ∀ n, g.results.node e.2.Name = some n → n.AiAgent = true) :
    ∀ e ∈ l, e.2.AiAgent = true →
      ∀ n, (consult pts g p).results.node e.2.Name = some n → n.AiAgent = true := by
  intro e he hai n hn
  have hk := node_resultsAfter_kind pts g p e.2.Name
  have hn' : (resultsAfter pts g p).node e.2.Name = some n := hn
  rw [hn'] at hk
  cases h0 : g.results.node e.2.Name with
  | none => rw [h0] at hk; simp at hk
  | some n0 =>
    rw [h0] at hk
    simp only [Option.map_some', Option.some.injEq] at hk
    rw [hk]
    exact h e he hai n0 h0

theorem flatMap_said_after (pts : Nat) (g : Game) (p : Player)
    (hmark : p.AiAgent = true → ∀ n, g.results.node p.Name = some n → n.AiAgent = true) :
    ∀ l : List (String × Player), (∀ e ∈ l, e.2.Name ≠ p.Name) →
      (∀ e ∈ l, e.2.AiAgent = true → IgnoresOthers e.2) →
      l.flatMap (fun e => said (consult pts g p) e.2) = l.flatMap (fun e => said g e.2) := by
  intro l
  induction l with
  | nil => intro _ _; rfl
  | cons e rest ih =>
    intro h hq
    simp only [List.flatMap_cons]
    rw [said_consult_ne pts g e.2 p (fun hh => h e (List.mem_cons_self _ _) hh.symm) hmark
        (hq e (List.mem_cons_self _ _)),
      ih (fun e' he' => h e' (List.mem_cons_of_mem _ he'))
        (fun e' he' => hq e' (List.mem_cons_of_mem _ he'))]

/-- Folding over two permutations of a list gives the same result when the
steps commute on the states of an invariant that every step keeps. -/
theorem foldl_perm_of_comm {α β : Type} (f : β → α → β) (I : β → Prop) (S : α → Prop)
    (hI : ∀ z x, S x → I z → I (f z x))
    (hcomm : ∀ z x y, S x → S y → I z → f (f z x) y = f (f z y) x)
    {l1 l2 : List α} (hperm : l1.Perm l2) :
    (∀ x ∈ l1, S x) → ∀ z, I z → l1.foldl f z = l2.foldl f z := by
  induction hperm with
  | nil => intro _ z _; rfl
  | cons x _ ih =>
    intro hS z hz
    simp only [List.foldl_cons]
    exact ih (fun y hy => hS y (List.mem_cons_of_mem _ hy)) _
      (hI z x (hS x (List.mem_cons_self _ _)) hz)
  | swap x y l =>
    intro hS z hz
    simp only [List.foldl_cons]
    rw [hcomm z y x (hS y (List.mem_cons_self _ _))
      (hS x (List.mem_cons_of_mem _ (List.mem_cons_self _ _))) hz]
  | trans h12 _ ih1 ih2 =>
    intro hS z hz
    rw [ih1 hS z hz, ih2 (fun x hx => hS x (h12.mem_iff.mpr hx)) z hz]

/-- A pass over entries with distinct names, on standings without `ahead`
links in which every agent has a node that is marked as an agent, when every
agent ignores the other agents: the game is consulted entry by entry and every
announcement is the one the entry makes on the game before the pass. -/
theorem askEach_eq_fold (rd : round) : ∀ (l : List (String × Player)) (g : Game) (w : World),
    NoAhead g.results → indexRound g.rounds g.currentRound = .ok rd →
    (∀ e ∈ l, e.2.AiAgent = true → ∃ n, g.results.node e.2.Name = some n) →
    (l.map (fun e => e.2.Name)).Nodup →
    (∀ e ∈ l, e.2.AiAgent = true → ∀ n, g.results.node e.2.Name = some n → n.AiAgent = true) →
    (∀ e ∈ l, e.2.AiAgent = true → IgnoresOthers e.2) →
    Game.askEach l g w
      = .ok (l.foldl (fun g e => consult rd.points g e.2) g,
          w.announce (l.flatMap (fun e => said g e.2))) := by
  intro l
  induction l with
  | nil =>
    intro g w _ _ _ _ _ _
    simp [Game.askEach, World.announce]
  | cons e rest ih =>
    intro g w hinv hrd hnodes hnd hmark hquiet
    obtain ⟨k, p⟩ := e
    simp only [List.map_cons, List.nodup_cons, List.mem_map, not_exists, not_and] at hnd
    have hone := askOne_eq_consult g w p rd hinv hrd (hnodes (k, p) (List.mem_cons_self _ _))
    have hne : ∀ e ∈ rest, e.2.Name ≠ p.Name := fun e he => hnd.1 e he
    have hmarkp := hmark (k, p) (List.mem_cons_self _ _)
    have hquiet' : ∀ e ∈ rest, e.2.AiAgent = true → IgnoresOthers e.2 :=
      fun e he => hquiet e (List.mem_cons_of_mem _ he)
    have hrest := ih (consult rd.points g p) (w.announce (said g p))
      (hinv.resultsAfter rd.points p) hrd
      (fun e he hai => (node_resultsAfter_exists rd.points g p e.2.Name).mpr
        (hnodes e (List.mem_cons_of_mem _ he) hai))
      hnd.2
      (marked_consult rd.points g p rest (fun e he => hmark e (List.mem_cons_of_mem _ he)))
      hquiet'
    simp only [Game.askEach, bind, Except.bind, hone, hrest, List.foldl_cons, List.flatMap_cons,
      World.announce_append]
    rw [flatMap_said_after rd.points g p hmarkp rest hne hquiet']

theorem askEach_askable (rd : round) : ∀ (l : List (String × Player)) (g g' : Game) (w w' : World),
    NoAhead g.results → indexRound g.rounds g.currentRound = .ok rd →
    Game.askEach l g w = .ok (g', w') →
    ∀ e ∈ l, e.2.AiAgent = true → ∃ n, g.results.node e.2.Name = some n := by
  intro l
  induction l with
  | nil => intro g g' w w' _ _ _ e he; cases he
  | cons e rest ih =>
    intro g g' w w' hinv hrd h e' he' hai
    obtain ⟨k, p⟩ := e
    simp only [Game.askEach, bind, Except.bind] at h
    cases hone : g.askOne w p with
    | error err => simp [hone] at h
    | ok a =>
      obtain ⟨g1, w1⟩ := a
      simp only [hone] at h
      have hp : p.AiAgent = true → ∃ n, g.results.node p.Name = some n :=
        fun hai => askOne_askable g g1 w w1 p hai hone
      rcases List.mem_cons.mp he' with heq | hmem
      · subst heq; exact hp hai
      · have h1 := askOne_eq_consult g w p rd hinv hrd hp
        rw [hone] at h1
        simp only [Except.ok.injEq, Prod.mk.injEq] at h1
        have := ih g1 g' w1 w' (by rw [h1.1]; exact hinv.resultsAfter rd.points p)
          (by rw [h1.1]; exact hrd) h e' hmem hai
        rw [h1.1] at this
        exact (node_resultsAfter_exists rd.points g p e'.2.Name).mp this

/-- The outcome of a pass does not depend on the order of enumeration, but for
the order of the announcements, when every agent ignores the other agents. -/
theorem askEach_perm (rd : round) (l1 l2 : List (String × Player)) (hperm : l1.Perm l2)
    (g g' : Game) (w w' : World) (hinv : NoAhead g.results)
    (hrd : indexRound g.rounds g.currentRound = .ok rd)
    (hnd : (l1.map (fun e => e.2.Name)).Nodup)
    (hmark : ∀ e ∈ l1, e.2.AiAgent = true →
      ∀ n, g.results.node e.2.Name = some n → n.AiAgent = true)
    (hquiet : ∀ e ∈ l1, e.2.AiAgent = true → IgnoresOthers e.2)
    (h : Game.askEach l1 g w = .ok (g', w')) :
    ∃ names1 names2, names1.Perm names2 ∧ w' = w.announce names1 ∧
      ∀ v : World, Game.askEach l2 g v = .ok (g', v.announce names2) := by
  have hnodes := askEach_askable rd l1 g g' w w' hinv hrd h
  have h1 := askEach_eq_fold rd l1 g w hinv hrd hnodes hnd hmark hquiet
  have hnd2 : (l2.map (fun e => e.2.Name)).Nodup := (hperm.map _).nodup_iff.mp hnd
  have hnodes2 : ∀ e ∈ l2, e.2.AiAgent = true → ∃ n, g.results.node e.2.Name = some n :=
    fun e he => hnodes e (hperm.mem_iff.mpr he)
  have hmark2 : ∀ e ∈ l2, e.2.AiAgent = true →
      ∀ n, g.results.node e.2.Name = some n → n.AiAgent = true :=
    fun e he => hmark e (hperm.mem_iff.mpr he)
  have hquiet2 : ∀ e ∈ l2, e.2.AiAgent = true → IgnoresOthers e.2 :=
    fun e he => hquiet e (hperm.mem_iff.mpr he)
  rw [h] at h1
  simp only [Except.ok.injEq, Prod.mk.injEq] at h1
  have hfold : l1.foldl (fun g e => consult rd.points g e.2) g
      = l2.foldl (fun g e => consult rd.points g e.2) g := by
    refine foldl_perm_of_comm (fun g e => consult rd.points g e.2)
      (fun z => ∀ e ∈ l1, e.2.AiAgent = true →
        ∀ n, z.results.node e.2.Name = some n → n.AiAgent = true)
      (fun e => e ∈ l1) ?_ ?_ hperm (fun x hx => hx) g hmark
    · intro z x _ hz
      exact marked_consult rd.points z x.2 l1 hz
    · intro z x y hx hy hz
      by_cases hxy : x.2.Name = y.2.Name
      · have : x = y := List.inj_on_of_nodup_map hnd hx hy hxy
        rw [this]
      · exact consult_comm rd.points z x.2 y.2 hxy (hz x hx) (hz y hy) (hquiet x hx)
          (hquiet y hy)
  refine ⟨_, _, hperm.flatMap_right (fun e => said g e.2), h1.2, ?_⟩
  intro v
  rw [askEach_eq_fold rd l2 g v hinv hrd hnodes2 hnd2 hmark2 hquiet2, h1.1, hfold]

/-! ## Independence of the map order (game.go) -/

theorem Related.print {mo mo' : Nat → List (String × Player) → List (String × Player)}
    {w w' : World} (h : Related mo mo' w w') (e : Event) :
    Related mo mo' (w.print e) (w'.print e) :=
  ⟨h.stdin, h.ranged, SameTranscript.event e h.stdout, h.order, h.order'⟩

theorem Related.prompt {mo mo' : Nat → List (String × Player) → List (String × Player)}
    {w w' : World} (h : Related mo mo' w w') :
    (game.prompt w).1 = (game.prompt w').1 ∧
      Related mo mo' (game.prompt w).2 (game.prompt w').2 := by
  have e1 : game.prompt w
      = ((promptFrom w.stdin).1, { w with stdin := (promptFrom w.stdin).2 }) := rfl
  have e2 : game.prompt w'
      = ((promptFrom w'.stdin).1, { w' with stdin := (promptFrom w'.stdin).2 }) := rfl
  rw [e1, e2, h.stdin]
  exact ⟨rfl, ⟨rfl, h.ranged, h.stdout, h.order, h.order'⟩⟩

theorem Related.getBankingPlayers {mo mo' : Nat → List (String × Player) → List (String × Player)}
    {w w' : World} (h : Related mo mo' w w') (players : List playerNode) (names : List String)
    (w1 : World) (hrun : getBankingPlayers players w = .ok (names, w1)) :
    ∃ w1', getBankingPlayers players w' = .ok (names, w1') ∧ Related mo mo' w1 w1' := by
  unfold game.getBankingPlayers at hrun ⊢
  simp only [bind, Except.bind, pure, Except.pure] at hrun ⊢
  rw [← h.stdin]
  split at hrun
  · simp at hrun
  · rename_i v hv
    simp only [Except.ok.injEq, Prod.mk.injEq] at hrun
    refine ⟨_, by rw [hrun.1], ?_⟩
    rw [← hrun.2]
    exact ⟨rfl, h.ranged, h.stdout, h.order, h.order'⟩

theorem SameKinds.self (r : results) : SameKinds r r := fun _ => rfl

theorem SameKinds.after_set {r0 r : results} (h : SameKinds r0 r) (key : String)
    (f : playerNode → playerNode) (hf : ∀ n, (f n).AiAgent = n.AiAgent) :
    SameKinds r0 (r.set key f) := by
  intro k
  rw [← h k]
  show (lookupNode (updateNode f r.players key) k).map playerNode.AiAgent
    = (lookupNode r.players k).map playerNode.AiAgent
  rw [lookupNode_updateNode]
  split_ifs with hk
  · subst hk
    cases lookupNode r.players k <;> simp [hf]
  · rfl

theorem SameKinds.after_playerBanks {r0 r r' : results} (h : SameKinds r0 r) (hno : NoAhead r)
    (p : Player) (pts : Nat) (b : Bool) (hb : r.playerBanks p pts = .ok (r', b)) :
    SameKinds r0 r' := by
  cases hnode : r.node p.Name with
  | none => simp [results.playerBanks, results.deref, hnode, bind, Except.bind] at hb
  | some n =>
    rw [playerBanks_of_noAhead r p pts n hnode hno] at hb
    simp only [Except.ok.injEq, Prod.mk.injEq] at hb
    rw [← hb.1]
    intro k
    rw [node_bankedResults_kind]
    exact h k

theorem keeps_kinds (r0 : results) :
    ∀ r p pts r' b, (NoAhead r ∧ SameKinds r0 r) → r.playerBanks p pts = .ok (r', b) →
      (NoAhead r' ∧ SameKinds r0 r') := by
  intro r p pts r' b h hb
  cases hnode : r.node p.Name with
  | none => simp [results.playerBanks, results.deref, hnode, bind, Except.bind] at hb
  | some n =>
    refine ⟨?_, h.2.after_playerBanks h.1 p pts b hb⟩
    rw [playerBanks_of_noAhead r p pts n hnode h.1] at hb
    simp only [Except.ok.injEq, Prod.mk.injEq] at hb
    rw [← hb.1]; exact h.1.bankedResults _ _ _

theorem SameKinds.after_unbankLoop (r0 : results) (fuel : Nat) : ∀ (r r' : results)
    (cur : Option String), SameKinds r0 r → unbankLoop fuel r cur = .ok r' → SameKinds r0 r' := by
  induction fuel with
  | zero =>
    intro r r' cur h hrun
    cases cur with
    | none => simp [game.unbankLoop] at hrun; subst hrun; exact h
    | some k => simp [game.unbankLoop] at hrun
  | succ fuel ih =>
    intro r r' cur h hrun
    cases cur with
    | none => simp [game.unbankLoop] at hrun; subst hrun; exact h
    | some k =>
      simp only [game.unbankLoop] at hrun
      cases hn : r.node k with
      | none => simp [hn] at hrun
      | some n =>
        simp only [hn] at hrun
        exact ih _ _ _ (h.after_set k (fun m => { m with banked := false }) (fun _ => rfl)) hrun

theorem shape_updatePlayer (f : Player → Player) (key : String)
    (hf : ∀ x, ((f x).Name, (f x).AiAgent, (f x).Bank) = (x.Name, x.AiAgent, x.Bank)) :
    ∀ l : List (String × Player), shape (updatePlayer f l key) = shape l := by
  intro l
  exact map_updatePlayer_of_eq _ f key hf l

theorem shape_playersAfter (l : List (String × Player)) (p : Player) :
    shape (playersAfter l p) = shape l := by
  unfold playersAfter
  split_ifs
  · exact shape_updatePlayer (fun q => { q with calls := q.calls + 1 }) p.Name
      (fun _ => rfl) l
  · rfl

/-- A game with the players and the kinds of nodes of a sound game, and
without `ahead` links, is sound. -/
theorem Sound.transfer {g g' : Game} (hg : Sound g) (hno : NoAhead g'.results)
    (hpl : shape g'.players = shape g.players) (hkind : SameKinds g.results g'.results) :
    Sound g' := by
  have hfrom : ∀ e ∈ g'.players, ∃ e0 ∈ g.players,
      e0.2.Name = e.2.Name ∧ e0.2.AiAgent = e.2.AiAgent ∧ e0.2.Bank = e.2.Bank := by
    intro e he
    have hmem : (e.2.Name, e.2.AiAgent, e.2.Bank) ∈ shape g'.players :=
      List.mem_map_of_mem (fun e : String × Player => (e.2.Name, e.2.AiAgent, e.2.Bank)) he
    rw [hpl] at hmem
    obtain ⟨e0, he0, heq⟩ := List.mem_map.mp hmem
    simp only [Prod.mk.injEq] at heq
    exact ⟨e0, he0, heq.1, heq.2.1, heq.2.2⟩
  refine ⟨hno, ?_, ?_, ?_⟩
  · have h1 := congrArg (List.map Prod.fst) hpl
    simp only [shape, List.map_map, Function.comp_def] at h1
    rw [h1]
    exact hg.names
  · intro e he hai n hn
    obtain ⟨e0, he0, h1, h2, _⟩ := hfrom e he
    have hk := hkind e.2.Name
    rw [hn] at hk
    cases h0 : g.results.node e.2.Name with
    | none => rw [h0] at hk; simp at hk
    | some n0 =>
      rw [h0] at hk
      simp only [Option.map_some', Option.some.injEq] at hk
      rw [hk]
      exact hg.marked e0 he0 (by rw [h2]; exact hai) n0 (by rw [h1]; exact h0)
  · intro e he hai v k
    obtain ⟨e0, he0, h1, h2, h3⟩ := hfrom e he
    have := hg.quiet e0 he0 (by rw [h2]; exact hai) v k
    rw [h1, h3] at this
    exact this

theorem foldl_consult_frame (pts : Nat) : ∀ (l : List (String × Player)) (g : Game),
    (l.foldl (fun g e => consult pts g e.2) g).rounds = g.rounds ∧
    (l.foldl (fun g e => consult pts g e.2) g).currentRound = g.currentRound ∧
    shape (l.foldl (fun g e => consult pts g e.2) g).players = shape g.players := by
  intro l
  induction l with
  | nil => intro g; exact ⟨rfl, rfl, rfl⟩
  | cons e rest ih =>
    intro g
    obtain ⟨h1, h2, h3⟩ := ih (consult pts g e.2)
    simp only [List.foldl_cons]
    refine ⟨h1, h2, ?_⟩
    rw [h3]
    exact shape_playersAfter g.players e.2

/-- A consultation pass under two enumerations: the same game comes out, and
the terminals stay related. -/
theorem Related.askAiAgentsToBank
    {mo mo' : Nat → List (String × Player) → List (String × Player)}
    (hmo : Shuffles mo) (hmo' : Shuffles mo') {w w' : World} (h : Related mo mo' w w')
    (rd : round) (g g1 : Game) (w1 : World) (hg : Sound g)
    (hrd : indexRound g.rounds g.currentRound = .ok rd)
    (hrun : g.askAiAgentsToBank w = .ok (g1, w1)) :
    ∃ w1', g.askAiAgentsToBank w' = .ok (g1, w1') ∧ Related mo mo' w1 w1' ∧ Sound g1 ∧
      indexRound g1.rounds g1.currentRound = .ok rd := by
  have hP := askAiAgentsToBank_results (fun r => NoAhead r ∧ SameKinds g.results r)
    (keeps_kinds g.results) g g1 w w1 ⟨hg.noAhead, SameKinds.self _⟩ hrun
  unfold Game.askAiAgentsToBank World.range at hrun ⊢
  simp only [h.order] at hrun
  simp only [h.order']
  have hperm : (mo w.ranged g.players).Perm (mo' w'.ranged g.players) :=
    (hmo _ _).trans (hmo' _ _).symm
  have hnd : ((mo w.ranged g.players).map (fun e => e.2.Name)).Nodup :=
    ((hmo _ _).map _).nodup_iff.mpr hg.names
  have hmark : ∀ e ∈ mo w.ranged g.players, e.2.AiAgent = true →
      ∀ n, g.results.node e.2.Name = some n → n.AiAgent = true :=
    fun e he => hg.marked e ((hmo _ _).mem_iff.mp he)
  have hquiet : ∀ e ∈ mo w.ranged g.players, e.2.AiAgent = true → IgnoresOthers e.2 :=
    fun e he => hg.quiet e ((hmo _ _).mem_iff.mp he)
  obtain ⟨names1, names2, hnames, hw1, hall⟩ :=
    askEach_perm rd _ _ hperm g g1 _ w1 hg.noAhead hrd hnd hmark hquiet hrun
  have hnodes := askEach_askable rd _ g g1 _ w1 hg.noAhead hrd hrun
  have hfold := askEach_eq_fold rd _ g { w with ranged := w.ranged + 1 } hg.noAhead hrd hnodes hnd
    hmark hquiet
  simp only [h.order] at hfold
  rw [hrun] at hfold
  simp only [Except.ok.injEq, Prod.mk.injEq] at hfold
  obtain ⟨f1, f2, f3⟩ := foldl_consult_frame rd.points (mo w.ranged g.players) g
  refine ⟨_, hall _, ?_, ?_, ?_⟩
  · rw [hw1]
    exact ⟨h.stdin, by simp [World.announce, h.ranged],
      SameTranscript.agents hnames h.stdout, rfl, rfl⟩
  · exact hg.transfer hP.1 (by rw [hfold.1]; exact f3) hP.2
  · rw [hfold.1, f1, f2]; exact hrd

theorem NoAhead.playerBanks {r r' : results} (h : NoAhead r) (p : Player) (pts : Nat) (b : Bool)
    (hb : r.playerBanks p pts = .ok (r', b)) : NoAhead r' := by
  cases hnode : r.node p.Name with
  | none => simp [results.playerBanks, results.deref, hnode, bind, Except.bind] at hb
  | some n =>
    rw [playerBanks_of_noAhead r p pts n hnode h] at hb
    simp only [Except.ok.injEq, Prod.mk.injEq] at hb
    rw [← hb.1]; exact h.bankedResults _ _ _

theorem bankEach_frame (pts : Nat) : ∀ (names : List String) (g g' : Game) (kp kp' : Bool),
    Game.bankEach pts names g kp = .ok (g', kp') →
    g'.players = g.players ∧ g'.rounds = g.rounds ∧ g'.currentRound = g.currentRound := by
  intro names
  induction names with
  | nil =>
    intro g g' kp kp' h
    simp only [Game.bankEach, Except.ok.injEq, Prod.mk.injEq] at h
    rw [← h.1]; exact ⟨rfl, rfl, rfl⟩
  | cons name rest ih =>
    intro g g' kp kp' h
    simp only [Game.bankEach] at h
    split at h
    · simp at h
    · simp only [bind, Except.bind] at h
      split at h
      · simp at h
      · have := ih _ _ _ _ h
        exact this

theorem bankEach_sound (pts : Nat) (rd : round) (names : List String) (g g' : Game)
    (kp kp' : Bool) (hg : Sound g) (hrd : indexRound g.rounds g.currentRound = .ok rd)
    (h : Game.bankEach pts names g kp = .ok (g', kp')) :
    Sound g' ∧ indexRound g'.rounds g'.currentRound = .ok rd := by
  obtain ⟨f1, f2, f3⟩ := bankEach_frame pts names g g' kp kp' h
  have hP := bankEach_results (fun r => NoAhead r ∧ SameKinds g.results r)
    (keeps_kinds g.results) pts names g g' kp kp' ⟨hg.noAhead, SameKinds.self _⟩ h
  exact ⟨hg.transfer hP.1 (by rw [f1]) hP.2, by rw [f2, f3]; exact hrd⟩

theorem Sound.after_roll {g : Game} (hg : Sound g) (rd : round) : Sound (g.roll rd).2.2 := by
  rw [roll_eq]
  exact ⟨hg.noAhead, hg.names, hg.marked, hg.quiet⟩

/-- The prompt loop under two enumerations. -/
theorem Related.promptLoop {mo mo' : Nat → List (String × Player) → List (String × Player)}
    (hmo : Shuffles mo) (hmo' : Shuffles mo') (rd rds : round) :
    ∀ (fuel : Nat) (g g1 : Game) (w w' w1 : World), Related mo mo' w w' → Sound g →
      indexRound g.rounds g.currentRound = .ok rds →
      Game.promptLoop rd fuel g w = .ok (g1, w1) →
      ∃ w1', Game.promptLoop rd fuel g w' = .ok (g1, w1') ∧ Related mo mo' w1 w1' ∧ Sound g1 ∧
        indexRound g1.rounds g1.currentRound = .ok rds := by
  intro fuel
  induction fuel with
  | zero => intro g g1 w w' w1 _ _ _ h; simp [Game.promptLoop] at h
  | succ fuel ih =>
    intro g g1 w w' w1 hrel hg hrd h
    obtain ⟨hreq, hrelp⟩ := hrel.prompt
    simp only [Game.promptLoop] at h ⊢
    cases hp : game.prompt w with
    | mk req wp =>
      cases hp' : game.prompt w' with
      | mk req' wp' =>
        rw [hp, hp'] at hreq hrelp
        simp only at hreq hrelp
        subst hreq
        rw [hp] at h
        cases req with
        | ROLL_DICE =>
          simp only [Except.ok.injEq, Prod.mk.injEq] at h ⊢
          exact ⟨wp', ⟨h.1, rfl⟩, h.2 ▸ hrelp, h.1 ▸ hg, h.1 ▸ hrd⟩
        | PRINT_POINTS =>
          simp only [bind, Except.bind] at h ⊢
          cases hs : g.results.standings with
          | error e => simp [hs] at h
          | ok rows =>
            simp only [hs] at h ⊢
            exact ih _ _ _ _ _ (hrelp.print _) hg hrd h
        | PLAYERS_BANK =>
          simp only [bind, Except.bind, pure, Except.pure] at h ⊢
          cases hu : g.results.getUnbankedPlayers with
          | error e => simp [hu] at h
          | ok unbanked =>
            simp only [hu] at h ⊢
            cases hb : game.getBankingPlayers unbanked wp with
            | error e => simp [hb] at h
            | ok a =>
              obtain ⟨names, wb⟩ := a
              obtain ⟨wb', hb', hrelb⟩ := hrelp.getBankingPlayers unbanked names wb hb
              simp only [hb, hb'] at h ⊢
              cases hbank : Game.bankEach rd.points names g true with
              | error e => simp [hbank] at h
              | ok a2 =>
                obtain ⟨g2, kp⟩ := a2
                obtain ⟨hg2, hrd2⟩ := bankEach_sound _ rds _ _ _ _ _ hg hrd hbank
                simp only [hbank] at h ⊢
                by_cases hlen : names.length > 0
                · simp only [hlen, if_true] at h ⊢
                  cases hask : g2.askAiAgentsToBank wb with
                  | error e => simp [hask] at h
                  | ok a3 =>
                    obtain ⟨g3, w3⟩ := a3
                    obtain ⟨w3', hask', hrel3, hg3, hrd3⟩ :=
                      Related.askAiAgentsToBank hmo hmo' hrelb rds g2 g3 w3 hg2 hrd2 hask
                    simp only [hask, hask'] at h ⊢
                    cases kp with
                    | true =>
                      simp only [if_true] at h ⊢
                      exact ih _ _ _ _ _ hrel3 hg3 hrd3 h
                    | false =>
                      simp only [Bool.false_eq_true, if_false, Except.ok.injEq,
                        Prod.mk.injEq] at h ⊢
                      exact ⟨w3', ⟨h.1, rfl⟩, h.2 ▸ hrel3, h.1 ▸ hg3, h.1 ▸ hrd3⟩
                · simp only [hlen, if_false] at h ⊢
                  cases kp with
                  | true =>
                    simp only [if_true] at h ⊢
                    exact ih _ _ _ _ _ hrelb hg2 hrd2 h
                  | false =>
                    simp only [Bool.false_eq_true, if_false, Except.ok.injEq,
                      Prod.mk.injEq] at h ⊢
                    exact ⟨wb', ⟨h.1, rfl⟩, h.2 ▸ hrelb, h.1 ▸ hg2, h.1 ▸ hrd2⟩

/-- The round loop under two enumerations. -/
theorem Related.rollLoop {mo mo' : Nat → List (String × Player) → List (String × Player)}
    (hmo : Shuffles mo) (hmo' : Shuffles mo') (rds : round) :
    ∀ (fuel : Nat) (g : Game) (dice : Dice) (keepRolling : Bool) (rd : round) (w w' : World)
      (out : Dice × round × Bool × Game × World), Related mo mo' w w' → Sound g →
      indexRound g.rounds g.currentRound = .ok rds →
      Game.rollLoop fuel g dice keepRolling rd w = .ok out →
      ∃ w1', Game.rollLoop fuel g dice keepRolling rd w'
          = .ok (out.1, out.2.1, out.2.2.1, out.2.2.2.1, w1') ∧
        Related mo mo' out.2.2.2.2 w1' ∧ Sound out.2.2.2.1 := by
  intro fuel
  induction fuel with
  | zero =>
    intro g dice keepRolling rd w w' out hrel hg _ h
    cases keepRolling with
    | false =>
      simp only [Game.rollLoop, Except.ok.injEq] at h ⊢
      subst h
      exact ⟨w', rfl, hrel, hg⟩
    | true => simp [Game.rollLoop] at h
  | succ fuel ih =>
    intro g dice keepRolling rd w w' out hrel hg hrd h
    cases keepRolling with
    | false =>
      simp only [Game.rollLoop, Except.ok.injEq] at h ⊢
      subst h
      exact ⟨w', rfl, hrel, hg⟩
    | true =>
      simp only [Game.rollLoop, bind, Except.bind, pure, Except.pure] at h ⊢
      have hrel0 := ((hrel.print (.dice dice)).print (.currentPoints rd.points)).print
        (.rollNumber rd.rolls.length)
      cases hask : g.askAiAgentsToBank (((w.print (.dice dice)).print
          (.currentPoints rd.points)).print (.rollNumber rd.rolls.length)) with
      | error e => simp [hask] at h
      | ok a =>
        obtain ⟨g1, w1⟩ := a
        obtain ⟨w1', hask', hrel1, hg1, hrd1⟩ :=
          Related.askAiAgentsToBank hmo hmo' hrel0 rds g g1 w1 hg hrd hask
        simp only [hask, hask'] at h ⊢
        rw [← hrel1.stdin]
        cases hpl : Game.promptLoop rd (w1.stdin.length + 1) g1 w1 with
        | error e => simp [hpl] at h
        | ok a2 =>
          obtain ⟨g2, w2⟩ := a2
          obtain ⟨w2', hpl', hrel2, hg2, hrd2⟩ :=
            Related.promptLoop hmo hmo' rd rds _ g1 g2 w1 w1' w2 hrel1 hg1 hrd1 hpl
          simp only [hpl, hpl'] at h ⊢
          cases hu : g2.results.getUnbankedPlayers with
          | error e => simp [hu] at h
          | ok unbanked =>
            simp only [hu] at h ⊢
            by_cases hlen : unbanked.length = 0
            · simp only [hlen, if_true, Except.ok.injEq] at h ⊢
              subst h
              exact ⟨w2', rfl, hrel2, hg2⟩
            · simp only [hlen, if_false] at h ⊢
              exact ih _ _ _ _ _ _ _ hrel2 (hg2.after_roll rd)
                (by rw [roll_eq]; exact hrd2) h

/-- A round under two enumerations. -/
theorem Related.startRound {mo mo' : Nat → List (String × Player) → List (String × Player)}
    (hmo : Shuffles mo) (hmo' : Shuffles mo') (fuel : Nat) (g g1 : Game) (w w' w1 : World)
    (hrel : Related mo mo' w w') (hg : Sound g) (h : g.startRound fuel w = .ok (g1, w1)) :
    ∃ w1', g.startRound fuel w' = .ok (g1, w1') ∧ Related mo mo' w1 w1' ∧ Sound g1 := by
  simp only [Game.startRound, bind, Except.bind, pure, Except.pure] at h ⊢
  cases hrd : indexRound g.rounds g.currentRound with
  | error e => simp [hrd] at h
  | ok rds =>
    simp only [hrd] at h ⊢
    cases hloop : Game.rollLoop fuel (g.roll rds).2.2 (g.roll rds).1.1 (g.roll rds).1.2
        (g.roll rds).2.1 (w.print (.startingRound ((g.currentRound + 1) % 256))) with
    | error e => simp [hloop] at h
    | ok out =>
      obtain ⟨w2', hloop', hrel2, hg2⟩ :=
        Related.rollLoop hmo hmo' rds fuel _ _ _ _ _ _ out (hrel.print _) (hg.after_roll rds)
          (by rw [roll_eq]; exact hrd) hloop
      simp only [hloop, hloop', Except.ok.injEq, Prod.mk.injEq] at h ⊢
      refine ⟨_, ⟨h.1, rfl⟩, ?_, h.1 ▸ hg2⟩
      rw [← h.2]
      cases out.2.2.1
      · exact ((hrel2.print _).print _).print _
      · exact hrel2.print _

/-- The rounds of a game under two enumerations. -/
theorem Related.runRounds {mo mo' : Nat → List (String × Player) → List (String × Player)}
    (hmo : Shuffles mo) (hmo' : Shuffles mo') (fuel : Nat) :
    ∀ (n : Nat) (g g1 : Game) (w w' w1 : World), Related mo mo' w w' → Sound g →
      Game.runRounds fuel n g w = .ok (g1, w1) →
      ∃ w1', Game.runRounds fuel n g w' = .ok (g1, w1') ∧ Related mo mo' w1 w1' := by
  intro n
  induction n with
  | zero =>
    intro g g1 w w' w1 hrel _ h
    simp only [Game.runRounds] at h ⊢
    split_ifs at h ⊢
    simp only [Except.ok.injEq, Prod.mk.injEq] at h ⊢
    exact ⟨w', ⟨h.1, rfl⟩, h.2 ▸ hrel⟩
  | succ n ih =>
    intro g g1 w w' w1 hrel hg h
    simp only [Game.runRounds] at h ⊢
    split_ifs at h ⊢
    · simp only [bind, Except.bind] at h ⊢
      cases hround : g.startRound fuel w with
      | error e => simp [hround] at h
      | ok a =>
        obtain ⟨g2, w2⟩ := a
        obtain ⟨w2', hround', hrel2, hg2⟩ :=
          Related.startRound hmo hmo' fuel g g2 w w' w2 hrel hg hround
        simp only [hround, hround'] at h ⊢
        cases hun : g2.results.unbankAllPlayers with
        | error e => simp [hun] at h
        | ok res =>
          simp only [hun] at h ⊢
          cases hs : res.standings with
          | error e => simp [hs] at h
          | ok rows =>
            simp only [hs] at h ⊢
            refine ih _ _ _ _ _ (hrel2.print _) (hg2.transfer ?_ rfl ?_) h
            · unfold results.unbankAllPlayers at hun
              exact NoAhead.unbankLoop _ { g2.results with bankedHumanPlayers := 0 } _ _
                (fun e he => hg2.noAhead e he) hun
            · unfold results.unbankAllPlayers at hun
              exact SameKinds.after_unbankLoop g2.results _
                { g2.results with bankedHumanPlayers := 0 } _ _ (fun _ => rfl) hun
    · simp only [Except.ok.injEq, Prod.mk.injEq] at h ⊢
      exact ⟨w', ⟨h.1, rfl⟩, h.2 ▸ hrel⟩

/-- In a game that was set up the roster and the standings list the same keys
with the same agent flags. -/
theorem Setup.kinds {g : Game} (h : Setup g) :
    g.players.map (fun e => (e.1, e.2.AiAgent))
      = g.results.players.map (fun e => (e.1, e.2.AiAgent)) := by
  induction h with
  | new source seed => rfl
  | @setSeed g source seed hg ih =>
    obtain ⟨_, hs⟩ := hg.ready
    have hset : (g.SetSeed source seed).2 = { g with seed := seed, r := source seed } := by
      simp [Game.SetSeed, hs]
    rw [hset]
    exact ih
  | @addPlayer g g' player err hg hadd ih =>
    obtain ⟨hr, hs⟩ := hg.ready
    cases player with
    | none =>
      simp only [Game.AddPlayer, hs, Bool.false_eq_true, if_false, Except.ok.injEq,
        Prod.mk.injEq] at hadd
      rw [← hadd.2]; exact ih
    | some p =>
      cases hp : lookupPlayer g.players p.Name with
      | some q =>
        simp only [Game.AddPlayer, hs, Bool.false_eq_true, if_false, hp, Except.ok.injEq,
          Prod.mk.injEq] at hadd
        rw [← hadd.2]; exact ih
      | none =>
        have hnode : g.results.node p.Name = none := by
          rw [results.node, lookupNode_eq_none, ← hr.keys]
          exact lookupPlayer_eq_none.mp hp
        obtain ⟨r', haddr, _, _, hmap⟩ := addPlayer_absent_spec hr.built.wellLinked p hnode
        have hg' : g.AddPlayer (some p) = .ok (none,
            { g with players := g.players ++ [(p.Name, p)], results := r',
                     onlyAI := g.onlyAI && p.AiAgent }) := by
          simp [Game.AddPlayer, hs, hp, haddr, bind, Except.bind, pure, Except.pure]
        rw [hg'] at hadd
        simp only [Except.ok.injEq, Prod.mk.injEq] at hadd
        rw [← hadd.2]
        have hk := congrArg (List.map (fun x : String × String × Bool × Nat × Bool × Option String =>
          (x.1, x.2.2.1))) hmap
        simp only [List.map_map, Function.comp_def, List.map_append, List.map_cons,
          List.map_nil, freshNode] at hk
        simp only [List.map_append, List.map_cons, List.map_nil, ih, hk]

theorem Setup.marked {g : Game} (h : Setup g) :
    ∀ e ∈ g.players, e.2.AiAgent = true →
      ∀ n, g.results.node e.2.Name = some n → n.AiAgent = true := by
  intro e he hai n hn
  obtain ⟨hr, _⟩ := h.ready
  have hmem : (e.1, e.2.AiAgent) ∈ g.players.map (fun e => (e.1, e.2.AiAgent)) :=
    List.mem_map_of_mem (fun e : String × Player => (e.1, e.2.AiAgent)) he
  rw [h.kinds] at hmem
  obtain ⟨x, hx, hxe⟩ := List.mem_map.mp hmem
  simp only [Prod.mk.injEq] at hxe
  have hname := hr.names e he
  have hn' : (e.2.Name, n) ∈ g.results.players := lookupNode_mem hn
  have hsame : x = (e.2.Name, n) :=
    List.inj_on_of_nodup_map hr.built.wellLinked.nodup hx hn' (by rw [hxe.1, hname])
  rw [hsame] at hxe
  rw [hxe.2]
  exact hai

theorem Setup.sound {g : Game} (h : Setup g)
    (hquiet : ∀ e ∈ g.players, e.2.AiAgent = true → IgnoresOthers e.2) : Sound g := by
  obtain ⟨hr, _⟩ := h.ready
  refine ⟨hr.built.noAhead, ?_, h.marked, hquiet⟩
  have hnames : g.players.map (fun e => e.2.Name) = g.players.map Prod.fst :=
    List.map_congr_left (fun e he => hr.names e he)
  rw [hnames, hr.keys]
  exact hr.built.wellLinked.nodup

/-- A game under two enumerations. -/
theorem Related.StartGame {mo mo' : Nat → List (String × Player) → List (String × Player)}
    (hmo : Shuffles mo) (hmo' : Shuffles mo') (fuel : Nat) (g g1 : Game) (w w' w1 : World)
    (err : Option String) (hrel : Related mo mo' w w') (hg : Sound g)
    (h : g.StartGame fuel w = .ok (err, g1, w1)) :
    ∃ w1', g.StartGame fuel w' = .ok (err, g1, w1') ∧ Related mo mo' w1 w1' := by
  unfold Game.StartGame at h ⊢
  split_ifs at h ⊢
  · simp only [Except.ok.injEq, Prod.mk.injEq] at h ⊢
    exact ⟨w', ⟨h.1, h.2.1, rfl⟩, h.2.2 ▸ hrel⟩
  · simp only [World.range, bind, Except.bind, pure, Except.pure] at h ⊢
    have hrel0 : Related mo mo'
        (({ w with ranged := w.ranged + 1 }.print .startingGame).print
          (.roster ((w.mapOrder w.ranged g.players).map (fun e : String × Player => (e.2.Name, e.2.AiAgent)))))
        (({ w' with ranged := w'.ranged + 1 }.print .startingGame).print
          (.roster ((w'.mapOrder w'.ranged g.players).map (fun e : String × Player => (e.2.Name, e.2.AiAgent))))) := by
      refine ⟨hrel.stdin, by simp [World.print, hrel.ranged], ?_, hrel.order, hrel.order'⟩
      refine SameTranscript.roster ?_ (SameTranscript.event _ hrel.stdout)
      rw [hrel.order, hrel.order']
      exact ((hmo _ _).trans (hmo' _ _).symm).map _
    cases hrun : Game.runRounds fuel (MAX_ROUNDS - g.currentRound) { g with started := true }
        (({ w with ranged := w.ranged + 1 }.print .startingGame).print
          (.roster ((w.mapOrder w.ranged g.players).map (fun e : String × Player => (e.2.Name, e.2.AiAgent))))) with
    | error e => simp [hrun] at h
    | ok a =>
      obtain ⟨g2, w2⟩ := a
      obtain ⟨w2', hrun', hrel2⟩ := Related.runRounds hmo hmo' fuel _
        { g with started := true } g2 _ _ w2 hrel0
        ⟨hg.noAhead, hg.names, hg.marked, hg.quiet⟩ hrun
      simp only [hrun, hrun'] at h ⊢
      cases hd : g2.results.deref g2.results.firstPlayer with
      | error e => simp [hd] at h
      | ok first =>
        simp only [hd, Except.ok.injEq, Prod.mk.injEq] at h ⊢
        exact ⟨_, ⟨h.1, h.2.1, rfl⟩, h.2.2 ▸ hrel2.print _⟩

theorem setup_gameZY : Setup gameZY :=
  Setup.addPlayer (some agentY) none
    (Setup.addPlayer (some agentZ) none (Setup.new (fun _ => allOnes) 42) rfl) rfl

theorem setup_gameZW : Setup gameZW :=
  Setup.addPlayer (some agentW) none
    (Setup.addPlayer (some agentZ) none (Setup.new (fun _ => allOnes) 42) rfl) rfl

theorem shuffles_inOrder : Shuffles inOrder := fun _ m => List.Perm.refl m

theorem shuffles_reversed : Shuffles reversed := fun _ m => List.reverse_perm m

theorem setup_gameZV : Setup gameZV :=
  Setup.addPlayer (some agentV) none
    (Setup.addPlayer (some agentZ) none (Setup.new (fun _ => sevenOnFourth) 42) rfl) rfl

theorem quiet_gameZV : ∀ e ∈ gameZV.players, e.2.AiAgent = true → IgnoresOthers e.2 := by
  intro e he _
  simp only [gameZV, List.mem_cons, List.mem_singleton, List.mem_nil_iff, or_false] at he
  rcases he with rfl | rfl
  · exact fun _ _ => rfl
  · exact fun _ _ => rfl

/-- C20, amended: for two enumerations of the roster map, each a permutation of
the entries at every loop, and the same lines on standard input, in a game
whose agents each ignore the other agents (the answer of `Bank` does not
depend on how often the other players have been asked nor on the points and
banked flags of the other agents): when `StartGame` on a game that was set up
returns under the one enumeration, it returns under the other with the same
error value and the same game (so the same standings), having read the same
input, and the two transcripts differ at most in the order of the rows of the
roster table and in the order of the announcements within one consultation
pass.  And one consultation pass on such a game in play, run on related
terminals, returns the same game under both enumerations and leaves the
terminals related. -/
theorem game_same_up_to_map_order
    (mo mo' : Nat → List (String × Player) → List (String × Player))
    (hmo : Shuffles mo) (hmo' : Shuffles mo') (fuel : Nat) (lines : List String) :
    (∀ (g : Game) (err : Option String) (g1 : Game) (w1 : World), Setup g →
      (∀ e ∈ g.players, e.2.AiAgent = true → IgnoresOthers e.2) →
      g.StartGame fuel (terminalWith mo lines) = .ok (err, g1, w1) →
      ∃ w1', g.StartGame fuel (terminalWith mo' lines) = .ok (err, g1, w1') ∧
        w1'.stdin = w1.stdin ∧ SameTranscript w1.stdout w1'.stdout) ∧
    (∀ (g g1 : Game) (rd : round) (w w' w1 : World), Sound g →
      indexRound g.rounds g.currentRound = .ok rd → Related mo mo' w w' →
      g.askAiAgentsToBank w = .ok (g1, w1) →
      ∃ w1', g.askAiAgentsToBank w' = .ok (g1, w1') ∧ Related mo mo' w1 w1') := by
  constructor
  · intro g err g1 w1 hg hquiet h
    obtain ⟨w1', h', hrel⟩ := Related.StartGame hmo hmo' fuel g g1 (terminalWith mo lines)
      (terminalWith mo' lines) w1 err ⟨rfl, rfl, SameTranscript.refl _, rfl, rfl⟩
      (hg.sound hquiet) h
    exact ⟨w1', h', hrel.stdin.symm, hrel.stdout⟩
  · intro g g1 rd w w' w1 hg hrd hrel h
    obtain ⟨w1', h', hrel1, _, _⟩ := Related.askAiAgentsToBank hmo hmo' hrel rd g g1 w1 hg hrd h
    exact ⟨w1', h', hrel1⟩

set_option maxRecDepth 100000 in
/-- C20, counterexample: the game of the agents Z and Y, both answering true,
with no input.  When the roster map is enumerated in insertion order the
roster table lists Z then Y and the first pass announces Z then Y; when it is
enumerated in reverse order the table lists Y then Z and the pass announces
Y then Z.  And the game of the agents Z and W, where Z answers true and W
answers true when Z is marked as banked in the game it is handed: after the
first pass in insertion order both have banked, after the first pass in
reverse order only Z has banked, and the transcripts of the two games differ
in more than an order, the second having one more roll in the round. -/
theorem transcript_follows_map_order :
    (gameZY.StartGame 2 (terminalWith inOrder [])).map (fun out => out.2.2.stdout.take 8)
      = .ok [.startingGame, .roster [("Z", true), ("Y", true)], .startingRound 1, .dice ⟨1, 1⟩,
          .currentPoints 2, .rollNumber 1, .agentBanked "Z", .agentBanked "Y"] ∧
    (gameZY.StartGame 2 (terminalWith reversed [])).map (fun out => out.2.2.stdout.take 8)
      = .ok [.startingGame, .roster [("Y", true), ("Z", true)], .startingRound 1, .dice ⟨1, 1⟩,
          .currentPoints 2, .rollNumber 1, .agentBanked "Y", .agentBanked "Z"] ∧
    (do let out ← { gameZW with started := true }.askAiAgentsToBank (terminalWith inOrder [])
        out.1.results.flags) = .ok [("Z", true), ("W", true)] ∧
    (do let out ← { gameZW with started := true }.askAiAgentsToBank (terminalWith reversed [])
        out.1.results.flags) = .ok [("Z", true), ("W", false)] ∧
    (gameZW.StartGame 2 (terminalWith inOrder [])).map (fun out => out.2.2.stdout.take 9)
      = .ok [.startingGame, .roster [("Z", true), ("W", true)], .startingRound 1, .dice ⟨1, 1⟩,
          .currentPoints 2, .rollNumber 1, .agentBanked "Z", .agentBanked "W",
          .roundDone 1] ∧
    (gameZW.StartGame 2 (terminalWith reversed [])).map (fun out => out.2.2.stdout.take 12)
      = .ok [.startingGame, .roster [("W", true), ("Z", true)], .startingRound 1, .dice ⟨1, 1⟩,
          .currentPoints 2, .rollNumber 1, .agentBanked "Z", .dice ⟨1, 1⟩,
          .currentPoints 4, .rollNumber 2, .agentBanked "W", .roundDone 1] := by decide

set_option maxRecDepth 100000 in
theorem game_same_up_to_map_order_witness :
    (Shuffles inOrder ∧ Shuffles reversed ∧ Setup gameZV ∧
      ∀ e ∈ gameZV.players, e.2.AiAgent = true → IgnoresOthers e.2) ∧
    ∃ err g1 w1 w1', gameZV.StartGame 8 (terminalWith inOrder []) = .ok (err, g1, w1) ∧
      gameZV.StartGame 8 (terminalWith reversed []) = .ok (err, g1, w1') ∧
      w1'.stdin = w1.stdin ∧ SameTranscript w1.stdout w1'.stdout :=
  ⟨⟨shuffles_inOrder, shuffles_reversed, setup_gameZV, quiet_gameZV⟩,
   (ok_of_isSome (gameZV.StartGame 8 (terminalWith inOrder [])) (by decide)).elim
     (fun a h =>
       ((game_same_up_to_map_order inOrder reversed shuffles_inOrder shuffles_reversed 8 []).1
         gameZV a.1 a.2.1 a.2.2 setup_gameZV quiet_gameZV h).elim
         (fun w1' h' => ⟨a.1, a.2.1, a.2.2, w1', h, h'.1, h'.2.1, h'.2.2⟩))⟩

/-! ## Widths written into the format (table/table.go) -/

theorem parsenum_toDigitsCore_large : ∀ (fuel n : Nat) (ds rest : List Char), n < fuel →
    1000000 < n → (∃ c ds', ds = c :: ds' ∧ 48 ≤ c.toNat ∧ c.toNat ≤ 57) →
    parsenum 0 false (Nat.toDigitsCore 10 fuel n ds ++ rest) = (0, false, []) := by
  intro fuel
  induction fuel with
  | zero => intro n ds rest h; omega
  | succ fuel ih =>
    intro n ds rest h hn hds
    simp only [Nat.toDigitsCore]
    have hd := digitChar_toNat (n % 10) (Nat.mod_lt _ (by decide))
    have hz : ¬ (n / 10 = 0) := by omega
    simp only [hz, if_false]
    by_cases hbig : 1000000 < n / 10
    · exact ih (n / 10) _ rest (by omega) hbig ⟨_, _, rfl, by omega, by omega⟩
    · rw [parsenum_toDigitsCore fuel (n / 10) _ rest (by omega) (by omega) (by omega)]
      obtain ⟨c, ds', rfl, hc1, hc2⟩ := hds
      have h1 : 48 ≤ 48 + n % 10 ∧ 48 + n % 10 ≤ 57 := by omega
      have h3 : ¬ (n / 10 > 1000000) := by omega
      have h2 : n / 10 * 10 + (48 + n % 10 - 48) = n := by omega
      have h4 : n > 1000000 := hn
      have h5 : 48 ≤ c.toNat ∧ c.toNat ≤ 57 := ⟨hc1, hc2⟩
      simp only [List.cons_append, parsenum, hd, tooLarge, h1, and_self, if_true, h3,
        decide_False, h2, h4, decide_True, h5, Bool.false_eq_true, if_false]

theorem parsenum_toDigits_large (n : Nat) (rest : List Char) (hn : 10000009 < n) :
    parsenum 0 false (Nat.toDigits 10 n ++ rest) = (0, false, []) := by
  unfold Nat.toDigits
  simp only [Nat.toDigitsCore]
  have hz : ¬ (n / 10 = 0) := by omega
  simp only [hz, if_false]
  have hd := digitChar_toNat (n % 10) (Nat.mod_lt _ (by decide))
  exact parsenum_toDigitsCore_large n (n / 10) _ rest (by omega) (by omega)
    ⟨_, _, rfl, by omega, by omega⟩

theorem doPrintf_width_large (fuel w : Nat) (rest : List Char) (arg : Arg) (args : List Arg)
    (hw : 10000009 < w) :
    doPrintf (fuel + 1) ('%' :: (Nat.toDigits 10 w ++ rest)) (arg :: args)
      = some ("%!(NOVERB)".data ++ extraArgs (arg :: args)) := by
  obtain ⟨c, cs, hd, hlo, hhi⟩ := toDigitsCore_head (w + 1) w [] (by omega) (by omega)
  have hd' : Nat.toDigits 10 w = c :: cs := hd
  obtain ⟨h1, h2, h3, h4⟩ := digit_head_facts c hlo hhi
  have hp := parsenum_toDigits_large w rest hw
  rw [hd'] at hp ⊢
  simp only [List.cons_append] at hp ⊢
  simp only [doPrintf, List.takeWhile, List.dropWhile, bne_self_eq_false, scanFlags, h1, h2, h3,
    h4, if_false, hp, List.nil_append]
  rfl

theorem doPrintf_minus_width_large (fuel w : Nat) (rest : List Char) (arg : Arg)
    (args : List Arg) (hw : 10000009 < w) :
    doPrintf (fuel + 1) ('%' :: '-' :: (Nat.toDigits 10 w ++ rest)) (arg :: args)
      = some ("%!(NOVERB)".data ++ extraArgs (arg :: args)) := by
  obtain ⟨c, cs, hd, hlo, hhi⟩ := toDigitsCore_head (w + 1) w [] (by omega) (by omega)
  have hd' : Nat.toDigits 10 w = c :: cs := hd
  obtain ⟨h1, h2, h3, h4⟩ := digit_head_facts c hlo hhi
  have hp := parsenum_toDigits_large w rest hw
  rw [hd'] at hp ⊢
  simp only [List.cons_append] at hp ⊢
  simp only [doPrintf, List.takeWhile, List.dropWhile, bne_self_eq_false, scanFlags, h1, h2, h3,
    h4, if_false, if_true, hp, List.nil_append]
  rfl

theorem extraArgs_two (val : String) :
    String.mk ("%!(NOVERB)".data ++ extraArgs [.str val, .str ""]) = noVerbText val := by
  apply String.ext
  simp [noVerbText, extraArgs, extraList, String.data_append]

theorem formatColEntry_right_large (val : String) (w : Nat) (hw : 10000009 < w) :
    formatColEntry val RIGHT (w : Int) = some (noVerbText val) := by
  simp only [formatColEntry, if_true, Sprintf_right_format, Option.bind_eq_bind,
    Option.some_bind, Sprintf_mk, toString_natCast, List.length_cons]
  rw [doPrintf_width_large _ _ _ _ _ hw]
  exact congrArg some (extraArgs_two val)

theorem formatColEntry_left_large (val : String) (w : Nat) (hw : 10000009 < w) :
    formatColEntry val LEFT (w : Int) = some (noVerbText val) := by
  have h1 : (LEFT = RIGHT) = False := by simp [LEFT, RIGHT]
  have h2 : (LEFT = CENTER) = False := by simp [LEFT, CENTER]
  simp only [formatColEntry, h1, h2, if_false, Sprintf_left_format, Option.bind_eq_bind,
    Option.some_bind, Sprintf_mk, toString_natCast, List.length_cons]
  rw [doPrintf_minus_width_large _ _ _ _ _ hw]
  exact congrArg some (extraArgs_two val)

theorem doPrintf_one_large (k b : Nat) (hb : 10000009 < b) (s : String) :
    doPrintf (k + 1) ('%' :: (Nat.toDigits 10 b ++ ['s'])) [.str s]
      = some ("%!(NOVERB)".data ++ extraArgs [.str s]) :=
  doPrintf_width_large k b ['s'] (.str s) [] hb

theorem doPrintf_pad_then_large (k a b : Nat) (ha : a ≤ 10000009) (hb : 10000009 < b)
    (val : String) :
    doPrintf (k + 3)
        ('%' :: (Nat.toDigits 10 a ++ 's' :: '%' :: (Nat.toDigits 10 b ++ ['s'])))
        [.str val, .str ""]
      = some (padString a true false val.data ++
          ("%!(NOVERB)".data ++ extraArgs [.str ""])) := by
  rcases Nat.eq_zero_or_pos a with rfl | h0
  · rw [toDigits_zero]
    show doPrintf (k + 2 + 1) ('%' :: '0' :: 's' :: ('%' :: (Nat.toDigits 10 b ++ ['s']))) _ = _
    rw [doPrintf_zero, doPrintf_one_large (k + 1) b hb]
    simp [padString]
  · rw [show k + 3 = k + 2 + 1 from rfl, doPrintf_width _ _ _ _ _ h0 ha,
      doPrintf_one_large (k + 1) b hb]
    simp

/-- What `formatColEntry` does for CENTER, by the two widths it writes into
the format: `a` for the value and `b` for the spaces on the right. -/
theorem formatColEntry_center_cases (val : String) (pad : Nat)
    (hascii : ∀ c ∈ val.data, c.toNat < 128)
    (hint : val.utf8ByteSize + pad < 9223372036854775808) :
    (val.utf8ByteSize + pad / 2 ≤ 10000009 → pad - pad / 2 ≤ 10000009 →
      formatColEntry val CENTER ((val.utf8ByteSize + pad : Nat) : Int)
        = some (blanks (pad / 2) ++ val ++ blanks (pad - pad / 2))) ∧
    (10000009 < val.utf8ByteSize + pad / 2 →
      formatColEntry val CENTER ((val.utf8ByteSize + pad : Nat) : Int)
        = some (noVerbText val)) ∧
    (val.utf8ByteSize + pad / 2 ≤ 10000009 → 10000009 < pad - pad / 2 →
      formatColEntry val CENTER ((val.utf8ByteSize + pad : Nat) : Int)
        = some (noSecondVerbText (blanks (pad / 2) ++ val))) := by
  have hl : val.data.length = val.utf8ByteSize := (utf8ByteSize_ascii val hascii).symm
  have h1 : (CENTER = RIGHT) = False := by simp [CENTER, RIGHT]
  have e1 : wrapInt (((val.utf8ByteSize + pad : Nat) : Int) - (val.utf8ByteSize : Int))
      = ((pad : Nat) : Int) := by
    rw [wrapInt_of_range] <;> push_cast <;> omega
  have e2 : ((pad : Nat) : Int).tdiv 2 = ((pad / 2 : Nat) : Int) := (Int.ofNat_tdiv pad 2).symm
  have e3 : wrapInt (((pad : Nat) : Int) - ((pad / 2 : Nat) : Int)) = ((pad - pad / 2 : Nat) : Int) := by
    rw [wrapInt_of_range] <;> omega
  have e4 : wrapInt ((val.utf8ByteSize : Int) + ((pad / 2 : Nat) : Int))
      = ((val.utf8ByteSize + pad / 2 : Nat) : Int) := by
    rw [wrapInt_of_range] <;> push_cast <;> omega
  have hform : formatColEntry val CENTER ((val.utf8ByteSize + pad : Nat) : Int)
      = (doPrintf (((Nat.toDigits 10 (val.utf8ByteSize + pad / 2)).length +
          (Nat.toDigits 10 (pad - pad / 2)).length + 2) + 3)
          ('%' :: (Nat.toDigits 10 (val.utf8ByteSize + pad / 2) ++ 's' :: '%' ::
            (Nat.toDigits 10 (pad - pad / 2) ++ ['s'])))
          [.str val, .str ""]).map String.mk := by
    simp only [formatColEntry, h1, if_false, if_true, e1, e2, e3, e4, Sprintf_center_format,
      Option.bind_eq_bind, Option.some_bind, Sprintf_mk, toString_natCast, List.length_cons,
      List.length_append, List.length_nil]
    rw [show (Nat.toDigits 10 (val.utf8ByteSize + pad / 2)).length +
          ((Nat.toDigits 10 (pad - pad / 2)).length + (0 + 1) + 1 + 1) + 1 + 1
        = ((Nat.toDigits 10 (val.utf8ByteSize + pad / 2)).length +
          (Nat.toDigits 10 (pad - pad / 2)).length + 2) + 3 from by omega]
  refine ⟨?_, ?_, ?_⟩
  · intro ha hb
    rw [hform, doPrintf_pad_both _ _ _ ha hb, padString_left _ _ (by omega),
      padString_left _ [] (by simp), hl, Nat.add_sub_cancel_left]
    simp only [List.length_nil, Nat.sub_zero, List.append_nil, Option.map_some']
    rfl
  · intro ha
    rw [hform, show ((Nat.toDigits 10 (val.utf8ByteSize + pad / 2)).length +
          (Nat.toDigits 10 (pad - pad / 2)).length + 2) + 3
        = ((Nat.toDigits 10 (val.utf8ByteSize + pad / 2)).length +
          (Nat.toDigits 10 (pad - pad / 2)).length + 4) + 1 from by omega,
      doPrintf_width_large _ _ _ _ _ ha]
    exact congrArg some (extraArgs_two val)
  · intro ha hb
    rw [hform, doPrintf_pad_then_large _ _ _ ha hb, padString_left _ _ (by omega), hl,
      Nat.add_sub_cancel_left]
    simp only [Option.map_some', Option.some.injEq]
    apply String.ext
    simp [noSecondVerbText, extraArgs, extraList, String.data_append, blanks]

/-- C21, amended: for a string `val` of ASCII characters and a width of at
least `len(val)`, as long as every width that `formatColEntry` writes into its
format is at most 10000009, the largest width fmt reads from a format, the
result is `val` and spaces, `width` characters in all: for LEFT (and any
alignment value other than CENTER and RIGHT) and for RIGHT the width written is
`width`, and the result is `val` followed by `width - len(val)` spaces, or
these spaces followed by `val`; for CENTER the widths written are `len(val)`
plus the half of `width - len(val)` rounded down, and the rest of
`width - len(val)`, and the result is the first half of the spaces, then
`val`, then the rest.  Beyond these bounds the claim fails: when the first
width written is larger, the result is the text `%!(NOVERB)` followed by the
operands listed as `%!(EXTRA ...)`; when only the second width of CENTER is
larger, it is the left spaces and `val` followed by such a text. -/
theorem formatColEntry_aligns (val : String) (width : Int)
    (hascii : ∀ c ∈ val.data, c.toNat < 128)
    (hlen : (val.utf8ByteSize : Int) ≤ width) (hint : width < 9223372036854775808) :
    (width ≤ 10000009 →
      formatColEntry val LEFT width = some (val ++ blanks (width - val.utf8ByteSize).toNat) ∧
      formatColEntry val RIGHT width = some (blanks (width - val.utf8ByteSize).toNat ++ val)) ∧
    (val.utf8ByteSize + (width - val.utf8ByteSize) / 2 ≤ 10000009 →
      (width - val.utf8ByteSize) - (width - val.utf8ByteSize) / 2 ≤ 10000009 →
      formatColEntry val CENTER width
        = some (blanks ((width - val.utf8ByteSize) / 2).toNat ++ val ++
            blanks ((width - val.utf8ByteSize) - (width - val.utf8ByteSize) / 2).toNat)) ∧
    (((val ++ blanks (width - val.utf8ByteSize).toNat).length : Int) = width ∧
      ((blanks (width - val.utf8ByteSize).toNat ++ val).length : Int) = width ∧
      ((blanks ((width - val.utf8ByteSize) / 2).toNat ++ val ++
        blanks ((width - val.utf8ByteSize) - (width - val.utf8ByteSize) / 2).toNat).length : Int)
        = width) ∧
    (∀ alignment : Alignment, alignment ≠ RIGHT → alignment ≠ CENTER →
      formatColEntry val alignment width = formatColEntry val LEFT width) ∧
    (10000009 < width →
      formatColEntry val LEFT width = some (noVerbText val) ∧
      formatColEntry val RIGHT width = some (noVerbText val)) ∧
    (10000009 < val.utf8ByteSize + (width - val.utf8ByteSize) / 2 →
      formatColEntry val CENTER width = some (noVerbText val)) ∧
    (val.utf8ByteSize + (width - val.utf8ByteSize) / 2 ≤ 10000009 →
      10000009 < (width - val.utf8ByteSize) - (width - val.utf8ByteSize) / 2 →
      formatColEntry val CENTER width
        = some (noSecondVerbText (blanks ((width - val.utf8ByteSize) / 2).toNat ++ val))) := by
  obtain ⟨pad, hpad⟩ : ∃ pad : Nat, width = ((val.utf8ByteSize + pad : Nat) : Int) :=
    ⟨(width - val.utf8ByteSize).toNat, by push_cast; omega⟩
  subst hpad
  have hint' : val.utf8ByteSize + pad < 9223372036854775808 := by omega
  have e1 : (((val.utf8ByteSize + pad : Nat) : Int) - (val.utf8ByteSize : Int)).toNat = pad := by
    push_cast; omega
  have e2 : ((((val.utf8ByteSize + pad : Nat) : Int) - (val.utf8ByteSize : Int)) / 2).toNat
      = pad / 2 := by
    push_cast; omega
  have e3 : ((((val.utf8ByteSize + pad : Nat) : Int) - (val.utf8ByteSize : Int)) -
      (((val.utf8ByteSize + pad : Nat) : Int) - (val.utf8ByteSize : Int)) / 2).toNat
      = pad - pad / 2 := by
    push_cast; omega
  rw [e1, e2, e3]
  have hl := utf8ByteSize_ascii val hascii
  obtain ⟨hC1, hC2, hC3⟩ := formatColEntry_center_cases val pad hascii hint'
  refine ⟨?_, ?_, ?_, ?_, ?_, ?_, ?_⟩
  · intro hmax
    have hmax' : val.utf8ByteSize + pad ≤ 10000009 := by omega
    exact ⟨formatColEntry_left val pad hascii hmax', formatColEntry_right val pad hascii hmax'⟩
  · intro ha hb
    exact hC1 (by push_cast at ha; omega) (by push_cast at hb; omega)
  · refine ⟨?_, ?_, ?_⟩ <;>
      simp only [String.length_append, length_blanks, hl] <;> push_cast <;> omega
  · intro alignment h1 h2
    exact formatColEntry_default val alignment _ h1 h2
  · intro hbig
    have hbig' : 10000009 < val.utf8ByteSize + pad := by omega
    exact ⟨formatColEntry_left_large val _ hbig', formatColEntry_right_large val _ hbig'⟩
  · intro ha
    exact hC2 (by push_cast at ha; omega)
  · intro ha hb
    exact hC3 (by push_cast at ha; omega) (by push_cast at hb; omega)

theorem formatColEntry_aligns_witness :
    ((∀ c ∈ "data".data, c.toNat < 128) ∧ (("data".utf8ByteSize : Nat) : Int) ≤ 8 ∧
      (8 : Int) < 9223372036854775808 ∧ (8 : Int) ≤ 10000009) ∧
    formatColEntry "data" LEFT 8 = some "data    " ∧
    formatColEntry "data" CENTER 8 = some "  data  " ∧
    formatColEntry "data" RIGHT 8 = some "    data" ∧
    ((("data".utf8ByteSize : Nat) : Int) ≤ 10000010 ∧
      (("data".utf8ByteSize : Nat) : Int) + (10000010 - (("data".utf8ByteSize : Nat) : Int)) / 2
        ≤ 10000009) ∧
    formatColEntry "data" CENTER 10000010
      = some (blanks 5000003 ++ "data" ++ blanks 5000003) ∧
    formatColEntry "data" RIGHT 10000010 = some (noVerbText "data") :=
  ⟨⟨by decide, by decide, by decide, by decide⟩,
   ((formatColEntry_aligns "data" 8 (by decide) (by decide) (by decide)).1 (by decide)).1,
   (formatColEntry_aligns "data" 8 (by decide) (by decide) (by decide)).2.1
     (by decide) (by decide),
   ((formatColEntry_aligns "data" 8 (by decide) (by decide) (by decide)).1 (by decide)).2,
   ⟨by decide, by decide⟩,
   (formatColEntry_aligns "data" 10000010 (by decide) (by decide) (by decide)).2.1
     (by decide) (by decide),
   ((formatColEntry_aligns "data" 10000010 (by decide) (by decide) (by decide)).2.2.2.2.1
     (by decide)).2⟩

end game
